import Mathlib

/-!
Verification development for an operational simulator of weak memory models
(SC / TSO / PSO).  The definitions below are a shallow embedding of the
Rust sources:

* `src/instruction.rs` : modes, instructions, labeled instructions;
* `src/graph.rs`       : the dependency graph with activation, candidate
  tracking and the undo stack;
* `src/threads.rs`     : the three thread systems;
* `src/storage.rs`     : the three storage systems;
* `src/memory_model.rs`: the model drivers (one `step` per model);
* `src/parser.rs`, `src/bin/main.rs` : instruction parser and driver loop.

Machine integers (`i32`) are embedded as `Int` (no arithmetic in any claim
approaches the `i32` bounds; integer parsing checks the bounds explicitly).
Rust `HashMap`s are embedded as association lists with overwrite-insert,
`HashSet`s as `Finset`s (their observable interface is membership); where
the source iterates over a `HashSet` (an unspecified order) the embedding
iterates in ascending order — all iterated operations commute, so any
order yields the same state.  Rust panics (out-of-bounds indexing,
`unwrap` on `None`) are embedded as `Option.none` results.
-/

namespace Isa

/-- Overwrite-or-append insertion into an association list: the embedding of
`HashMap::insert` (observable via `lookup`). -/
def insertA {α β : Type} [DecidableEq α] : List (α × β) → α → β → List (α × β)
  | [], k, v => [(k, v)]
  | (k', v') :: rest, k, v =>
    if k' = k then (k, v) :: rest else (k', v') :: insertA rest k v

/-- Memory mode, from `src/instruction.rs` (`Mode`). -/
inductive Mode
  | seqCst
  | rel
  | acq
  | relAcq
  | rlx
deriving DecidableEq, Repr

/-- Instructions, from `src/instruction.rs` (`Instruction`). -/
inductive Instruction
  | const (r : String) (value : Int)
  | arithPlus (r1 r2 r3 : String)
  | arithMinus (r1 r2 r3 : String)
  | arithMul (r1 r2 r3 : String)
  | arithDiv (r1 r2 r3 : String)
  | cond (r : String) (label : String)
  | load (mode : Mode) (address : String) (r : String)
  | store (mode : Mode) (address : String) (r : String)
  | cas (mode : Mode) (address : String) (to_r : String) (exp : String) (des : String)
  | fai (mode : Mode) (address : String) (to_r : String) (inc : String)
  | fence (mode : Mode)
  | propagate (thread_id : Nat) (address : Int) (value : Int)
deriving DecidableEq, Repr

/-- A labeled instruction, from `src/instruction.rs` (`LabeledInstruction`). -/
structure LabeledInstruction where
  label : Option String
  instruction : Instruction
deriving DecidableEq, Repr

instance : Inhabited LabeledInstruction := ⟨⟨none, .const "" 0⟩⟩

/-- `LabeledInstruction::get_mode`. -/
def LabeledInstruction.get_mode (li : LabeledInstruction) : Option Mode :=
  match li.instruction with
  | .const _ _ => none
  | .arithPlus _ _ _ => none
  | .arithMinus _ _ _ => none
  | .arithMul _ _ _ => none
  | .arithDiv _ _ _ => none
  | .cond _ _ => none
  | .load m _ _ => some m
  | .store m _ _ => some m
  | .cas m _ _ _ _ => some m
  | .fai m _ _ _ => some m
  | .fence m => some m
  | .propagate _ _ _ => none

/-- `LabeledInstruction::is_fence`. -/
def LabeledInstruction.is_fence (li : LabeledInstruction) : Bool :=
  match li.instruction with
  | .fence _ => true
  | _ => false

/-- A graph node, from `src/graph.rs` (`Node`). -/
structure Node where
  id : Nat
  thread_id : Nat
  instruction : LabeledInstruction
deriving DecidableEq, Repr

instance : Inhabited Node := ⟨0, 0, default⟩

/-- The dependency graph, from `src/graph.rs` (`Graph`).  Dense arrays are
lists indexed by node id; the two `HashSet` fields are `Finset`s; the
execution stack keeps its top at the head. -/
structure Graph where
  label_to_node : List (String × Nat)
  instructions : List Node
  rev_edges : List (List Nat)
  active_neighbors : List Nat
  is_active : List Bool
  active_fence_nodes : Finset Nat
  execution_stack : List Nat
  execution_candidates : Finset Nat
deriving DecidableEq

namespace Graph

/-- Number of nodes ever added. -/
def n (g : Graph) : Nat := g.instructions.length

/-- `Graph::new`. -/
def new : Graph :=
  { label_to_node := []
    instructions := []
    rev_edges := []
    active_neighbors := []
    is_active := []
    active_fence_nodes := ∅
    execution_stack := []
    execution_candidates := ∅ }

/-- `Graph::is_node_active` (out-of-range reads as `false`; the source
would panic, but every call site stays in range). -/
def is_node_active (g : Graph) (id : Nat) : Bool :=
  g.is_active.getD id false

/-- `Graph::is_label_active`: unknown labels count as active. -/
def is_label_active (g : Graph) (label : String) : Bool :=
  match g.label_to_node.lookup label with
  | some id => g.is_node_active id
  | none => true

/-- `Graph::add_node`: returns the updated graph and the fresh id. -/
def add_node (g : Graph) (thread_id : Nat) (instruction : LabeledInstruction) :
    Graph × Nat :=
  let id := g.instructions.length
  let ltn := match instruction.label with
    | some l => insertA g.label_to_node l id
    | none => g.label_to_node
  let fences := if instruction.is_fence then insert id g.active_fence_nodes
    else g.active_fence_nodes
  ({ label_to_node := ltn
     instructions := g.instructions ++ [⟨id, thread_id, instruction⟩]
     rev_edges := g.rev_edges ++ [[]]
     active_neighbors := g.active_neighbors ++ [0]
     is_active := g.is_active ++ [true]
     active_fence_nodes := fences
     execution_stack := g.execution_stack
     execution_candidates := insert id g.execution_candidates }, id)

/-- `Graph::add_edge` (`src` is the source's `from`, `dst` its `to`:
`dst` must execute before `src`). -/
def add_edge (g : Graph) (src dst : Nat) : Graph :=
  let an := if g.is_active.getD dst false then
      g.active_neighbors.set src (g.active_neighbors.getD src 0 + 1)
    else g.active_neighbors
  { g with
    active_neighbors := an
    rev_edges := g.rev_edges.set dst (g.rev_edges.getD dst [] ++ [src])
    execution_candidates := g.execution_candidates.erase src }

/-- One iteration of the loop in `Graph::remove_node`: decrement the
active-neighbor count of an active predecessor, promoting it to a
candidate when the count reaches zero. -/
def dec_neighbor (g : Graph) (f : Nat) : Graph :=
  if g.is_active.getD f false then
    let an := g.active_neighbors.getD f 0 - 1
    { g with
      active_neighbors := g.active_neighbors.set f an
      execution_candidates := if an = 0 then insert f g.execution_candidates
        else g.execution_candidates }
  else g

/-- `Graph::remove_node`. -/
def remove_node (g : Graph) (id : Nat) : Graph :=
  if g.is_active.getD id false = false then g
  else
    let g1 : Graph :=
      { g with
        active_fence_nodes := g.active_fence_nodes.erase id
        execution_stack := id :: g.execution_stack
        is_active := g.is_active.set id false
        execution_candidates := g.execution_candidates.erase id }
    (g.rev_edges.getD id []).foldl dec_neighbor g1

/-- One iteration of the loop in `Graph::restore_node`: increment the
active-neighbor count of an active predecessor, demoting it from the
candidates when the count leaves zero. -/
def inc_neighbor (g : Graph) (f : Nat) : Graph :=
  if g.is_active.getD f false then
    let an := g.active_neighbors.getD f 0 + 1
    { g with
      active_neighbors := g.active_neighbors.set f an
      execution_candidates := if an = 1 then g.execution_candidates.erase f
        else g.execution_candidates }
  else g

/-- The body of `Graph::restore_node` once the popped id is known:
reactivate, re-register as fence when applicable, bump the
active-neighbor counts of the active nodes waiting on it (demoting them
from candidacy when their count leaves 0), and re-insert it as a
candidate; also returns the restored node's label. -/
def restore_apply (g : Graph) (id : Nat) (rest : List Nat) :
    Graph × Option String :=
  let g1 : Graph :=
    { g with
      execution_stack := rest
      is_active := g.is_active.set id true
      active_fence_nodes :=
        if (g.instructions.getD id default).instruction.is_fence then
          insert id g.active_fence_nodes
        else g.active_fence_nodes }
  let g2 := (g.rev_edges.getD id []).foldl inc_neighbor g1
  ({ g2 with execution_candidates := insert id g2.execution_candidates },
    (g.instructions.getD id default).instruction.label)

/-- `Graph::restore_node`; `none` embeds the `unwrap` panic on an empty
execution stack. -/
def restore_node (g : Graph) : Option (Graph × Option String) :=
  match g.execution_stack with
  | [] => none
  | id :: rest => some (g.restore_apply id rest)

/-- The rewind loop shared by the three `goto` implementations
(`threads.rs`): restore until the restored node's label matches.  The fuel
equals the stack length at entry; `none` embeds the panic when the stack
empties before the label is found. -/
def goto_fuel : Nat → Graph → String → Option Graph
  | 0, _, _ => none
  | fuel + 1, g, label =>
    match g.restore_node with
    | none => none
    | some (g', lbl) => if lbl = some label then some g' else goto_fuel fuel g' label

/-- `goto` as implemented identically in the three thread systems. -/
def goto (g : Graph) (label : String) : Option Graph :=
  if g.is_label_active label then some g
  else goto_fuel g.execution_stack.length g label

end Graph

/-- The SC storage system, from `src/storage.rs` (`SCStorageSystem`). -/
structure SCStorageSystem where
  memory : List (Int × Int)
deriving DecidableEq

namespace SCStorageSystem

def new : SCStorageSystem := ⟨[]⟩

/-- `SCStorageSystem::load`: absent addresses read as 0. -/
def load (s : SCStorageSystem) (_thread_id : Nat) (address : Int) : Int :=
  (s.memory.lookup address).getD 0

/-- `SCStorageSystem::store`. -/
def store (s : SCStorageSystem) (_thread_id : Nat) (address value : Int) :
    SCStorageSystem :=
  ⟨insertA s.memory address value⟩

/-- `SCStorageSystem::cas`: returns the pre-image and the new state. -/
def cas (s : SCStorageSystem) (thread_id : Nat) (address exp des : Int) :
    Int × SCStorageSystem :=
  let value := s.load thread_id address
  (value, if value = exp then s.store thread_id address des else s)

/-- `SCStorageSystem::fai`: returns the pre-image and the new state. -/
def fai (s : SCStorageSystem) (thread_id : Nat) (address inc : Int) :
    Int × SCStorageSystem :=
  let value := s.load thread_id address
  (value, s.store thread_id address (value + inc))

end SCStorageSystem

/-- Index and value of the newest (rightmost) buffer entry for an address:
the embedding of `.iter().enumerate().rev().find(...)` in
`TSOStorageSystem::propagate` / `PSOStorageSystem::propagate`. -/
def lastMatch : List (Int × Int) → Int → Option (Nat × Int)
  | [], _ => none
  | (b, v) :: rest, a =>
    match lastMatch rest a with
    | some (i, w) => some (i + 1, w)
    | none => if b = a then some (0, v) else none

/-- Index and value of the oldest (leftmost) buffer entry for an address;
used only by the spec's comparison variant of `propagate`. -/
def firstMatch : List (Int × Int) → Int → Option (Nat × Int)
  | [], _ => none
  | (b, v) :: rest, a =>
    if b = a then some (0, v)
    else (firstMatch rest a).map (fun p => (p.1 + 1, p.2))

/-- The TSO storage system, from `src/storage.rs` (`TSOStorageSystem`):
per-thread store buffers (newest at the tail) plus shared memory. -/
structure TSOStorageSystem where
  buffers : List (List (Int × Int))
  memory : List (Int × Int)
deriving DecidableEq

namespace TSOStorageSystem

/-- `TSOStorageSystem::new`. -/
def new (number_of_threads : Nat) : TSOStorageSystem :=
  ⟨(List.range number_of_threads).map (fun _ => []), []⟩

/-- `TSOStorageSystem::propagate`: drain the newest buffered entry of the
thread matching the address into shared memory; no-op when none matches. -/
def propagate (s : TSOStorageSystem) (thread_id : Nat) (address : Int) :
    TSOStorageSystem :=
  match lastMatch (s.buffers.getD thread_id []) address with
  | some (i, value) =>
    ⟨s.buffers.set thread_id ((s.buffers.getD thread_id []).eraseIdx i),
     insertA s.memory address value⟩
  | none => s

/-- The comparison variant described by the specification: identical to
`propagate` except that it drains the oldest matching entry. -/
def propagate_oldest (s : TSOStorageSystem) (thread_id : Nat) (address : Int) :
    TSOStorageSystem :=
  match firstMatch (s.buffers.getD thread_id []) address with
  | some (i, value) =>
    ⟨s.buffers.set thread_id ((s.buffers.getD thread_id []).eraseIdx i),
     insertA s.memory address value⟩
  | none => s

/-- `TSOStorageSystem::load`: newest own-buffer entry first, else memory,
else 0. -/
def load (s : TSOStorageSystem) (thread_id : Nat) (address : Int) : Int :=
  match lastMatch (s.buffers.getD thread_id []) address with
  | some (_, value) => value
  | none => (s.memory.lookup address).getD 0

/-- `TSOStorageSystem::store`: append to the thread's buffer. -/
def store (s : TSOStorageSystem) (thread_id : Nat) (address value : Int) :
    TSOStorageSystem :=
  { s with buffers :=
      s.buffers.set thread_id (s.buffers.getD thread_id [] ++ [(address, value)]) }

/-- `TSOStorageSystem::cas`. -/
def cas (s : TSOStorageSystem) (thread_id : Nat) (address exp des : Int) :
    Int × TSOStorageSystem :=
  let value := s.load thread_id address
  (value, if value = exp then s.store thread_id address des else s)

/-- `TSOStorageSystem::fai`. -/
def fai (s : TSOStorageSystem) (thread_id : Nat) (address inc : Int) :
    Int × TSOStorageSystem :=
  let value := s.load thread_id address
  (value, s.store thread_id address (value + inc))

end TSOStorageSystem

/-- The PSO storage system, from `src/storage.rs` (`PSOStorageSystem`);
the source duplicates the TSO code verbatim. -/
structure PSOStorageSystem where
  buffers : List (List (Int × Int))
  memory : List (Int × Int)
deriving DecidableEq

namespace PSOStorageSystem

/-- `PSOStorageSystem::new`. -/
def new (number_of_threads : Nat) : PSOStorageSystem :=
  ⟨(List.range number_of_threads).map (fun _ => []), []⟩

/-- `PSOStorageSystem::propagate`. -/
def propagate (s : PSOStorageSystem) (thread_id : Nat) (address : Int) :
    PSOStorageSystem :=
  match lastMatch (s.buffers.getD thread_id []) address with
  | some (i, value) =>
    ⟨s.buffers.set thread_id ((s.buffers.getD thread_id []).eraseIdx i),
     insertA s.memory address value⟩
  | none => s

/-- `PSOStorageSystem::load`. -/
def load (s : PSOStorageSystem) (thread_id : Nat) (address : Int) : Int :=
  match lastMatch (s.buffers.getD thread_id []) address with
  | some (_, value) => value
  | none => (s.memory.lookup address).getD 0

/-- `PSOStorageSystem::store`. -/
def store (s : PSOStorageSystem) (thread_id : Nat) (address value : Int) :
    PSOStorageSystem :=
  { s with buffers :=
      s.buffers.set thread_id (s.buffers.getD thread_id [] ++ [(address, value)]) }

/-- `PSOStorageSystem::cas`. -/
def cas (s : PSOStorageSystem) (thread_id : Nat) (address exp des : Int) :
    Int × PSOStorageSystem :=
  let value := s.load thread_id address
  (value, if value = exp then s.store thread_id address des else s)

/-- `PSOStorageSystem::fai`. -/
def fai (s : PSOStorageSystem) (thread_id : Nat) (address inc : Int) :
    Int × PSOStorageSystem :=
  let value := s.load thread_id address
  (value, s.store thread_id address (value + inc))

end PSOStorageSystem

/-- Per-thread register file: `HashMap<String, i32>` as an association
list; absent registers read as 0. -/
abbrev RegFile := List (String × Int)

/-- Add one thread's instruction list to a graph with the full SC
program-order wiring: each new node gets an edge to every earlier node of
the same thread (`SCThreadSystem::new`, inner loops). -/
def scAddThread (g : Graph) (thread_id : Nat)
    (thread_instructions : List LabeledInstruction) : Graph :=
  (thread_instructions.foldl
    (fun (p : Graph × List Nat) ins =>
      let (g, ids) := p
      let (g, id) := g.add_node thread_id ins
      let g := ids.foldl (fun g prev => g.add_edge id prev) g
      (g, ids ++ [id]))
    (g, [])).1

/-- The SC thread system, from `src/threads.rs` (`SCThreadSystem`). -/
structure SCThreadSystem where
  graph : Graph
  registers : List RegFile
deriving DecidableEq

namespace SCThreadSystem

/-- `SCThreadSystem::new`. -/
def new (instructions : List (List LabeledInstruction)) : SCThreadSystem :=
  { graph := (instructions.foldl
      (fun (p : Graph × Nat) thread => (scAddThread p.1 p.2 thread, p.2 + 1))
      (Graph.new, 0)).1
    registers := instructions.map (fun _ => []) }

/-- `assign_register`. -/
def assign_register (ts : SCThreadSystem) (thread_id : Nat) (register : String)
    (value : Int) : SCThreadSystem :=
  { ts with registers :=
      ts.registers.set thread_id (insertA (ts.registers.getD thread_id []) register value) }

/-- `get_register`: absent registers read as 0. -/
def get_register (ts : SCThreadSystem) (thread_id : Nat) (register : String) : Int :=
  ((ts.registers.getD thread_id []).lookup register).getD 0

/-- `remove_node`. -/
def remove_node (ts : SCThreadSystem) (node : Node) : SCThreadSystem :=
  { ts with graph := ts.graph.remove_node node.id }

/-- `goto`. -/
def goto (ts : SCThreadSystem) (label : String) : Option SCThreadSystem :=
  (ts.graph.goto label).map (fun g => { ts with graph := g })

end SCThreadSystem

/-- Add one thread's nodes without any program-order edges
(`TSOThreadSystem::new` / `PSOThreadSystem::new`, first inner loop). -/
def addThreadNodes (g : Graph) (thread_id : Nat)
    (thread_instructions : List LabeledInstruction) : Graph × List Nat :=
  thread_instructions.foldl
    (fun (p : Graph × List Nat) ins =>
      let (g, id) := p.1.add_node thread_id ins
      (g, p.2 ++ [id]))
    (g, [])

/-- Mode-induced edges (`TSOThreadSystem::new` / `PSOThreadSystem::new`,
second inner loop): Rel makes later instructions wait on it, Acq waits on
all earlier instructions, RelAcq does both. -/
def addModeEdges (g0 : Graph) (ids : List Nat)
    (thread_instructions : List LabeledInstruction) : Graph :=
  let len := thread_instructions.length
  (List.range len).foldl
    (fun g i =>
      match (thread_instructions.getD i default).get_mode with
      | some .rel =>
        (List.range' (i + 1) (len - (i + 1))).foldl
          (fun g j => g.add_edge (ids.getD j 0) (ids.getD i 0)) g
      | some .acq =>
        (List.range i).foldl
          (fun g j => g.add_edge (ids.getD i 0) (ids.getD j 0)) g
      | some .relAcq =>
        let g := (List.range i).foldl
          (fun g j => g.add_edge (ids.getD i 0) (ids.getD j 0)) g
        (List.range' (i + 1) (len - (i + 1))).foldl
          (fun g j => g.add_edge (ids.getD j 0) (ids.getD i 0)) g
      | some .seqCst => g
      | some .rlx => g
      | none => g)
    g0

/-- The TSO thread system, from `src/threads.rs` (`TSOThreadSystem`):
`propagate_nodes` holds each thread's pending Propagate node ids. -/
structure TSOThreadSystem where
  graph : Graph
  registers : List RegFile
  propagate_nodes : List (Finset Nat)
deriving DecidableEq

namespace TSOThreadSystem

/-- `TSOThreadSystem::new`. -/
def new (instructions : List (List LabeledInstruction)) : TSOThreadSystem :=
  { graph := (instructions.foldl
      (fun (p : Graph × Nat) thread =>
        let (g, ids) := addThreadNodes p.1 p.2 thread
        (addModeEdges g ids thread, p.2 + 1))
      (Graph.new, 0)).1
    registers := instructions.map (fun _ => [])
    propagate_nodes := instructions.map (fun _ => ∅) }

/-- `TSOThreadSystem::add_propagate_node`: create the Propagate node, make
every active fence wait on it, make it wait on every pending propagate of
its thread (FIFO per thread), and register it as pending.  The source
iterates the two `HashSet` snapshots in unspecified order; the embedding
enumerates their members in ascending id order (every member is a node id,
hence below `g.n`; the iterated `add_edge`s commute). -/
def add_propagate_node (ts : TSOThreadSystem) (thread_id : Nat)
    (address value : Int) : TSOThreadSystem :=
  let (g, id) := ts.graph.add_node thread_id
    ⟨none, .propagate thread_id address value⟩
  let g := ((List.range g.n).filter (fun f => f ∈ g.active_fence_nodes)).foldl
    (fun g node => g.add_edge node id) g
  let g := ((List.range g.n).filter
      (fun p => p ∈ ts.propagate_nodes.getD thread_id ∅)).foldl
    (fun g node => g.add_edge id node) g
  { ts with
    graph := g
    propagate_nodes := ts.propagate_nodes.set thread_id
      (insert id (ts.propagate_nodes.getD thread_id ∅)) }

/-- `assign_register`. -/
def assign_register (ts : TSOThreadSystem) (thread_id : Nat) (register : String)
    (value : Int) : TSOThreadSystem :=
  { ts with registers :=
      ts.registers.set thread_id (insertA (ts.registers.getD thread_id []) register value) }

/-- `get_register`: absent registers read as 0. -/
def get_register (ts : TSOThreadSystem) (thread_id : Nat) (register : String) : Int :=
  ((ts.registers.getD thread_id []).lookup register).getD 0

/-- `remove_node`: a Propagate node is also dropped from its thread's
pending set. -/
def remove_node (ts : TSOThreadSystem) (node : Node) : TSOThreadSystem :=
  let ts := match node.instruction.instruction with
    | .propagate _ _ _ =>
      { ts with propagate_nodes := (ts.propagate_nodes.set node.thread_id
          ((ts.propagate_nodes.getD node.thread_id ∅).erase node.id)) }
    | _ => ts
  { ts with graph := ts.graph.remove_node node.id }

/-- `goto`. -/
def goto (ts : TSOThreadSystem) (label : String) : Option TSOThreadSystem :=
  (ts.graph.goto label).map (fun g => { ts with graph := g })

end TSOThreadSystem

/-- The PSO thread system, from `src/threads.rs` (`PSOThreadSystem`):
pending propagates are keyed by (id, address). -/
structure PSOThreadSystem where
  graph : Graph
  registers : List RegFile
  propagate_nodes : List (Finset (Nat × Int))
deriving DecidableEq

namespace PSOThreadSystem

/-- `PSOThreadSystem::new` (identical construction to TSO). -/
def new (instructions : List (List LabeledInstruction)) : PSOThreadSystem :=
  { graph := (instructions.foldl
      (fun (p : Graph × Nat) thread =>
        let (g, ids) := addThreadNodes p.1 p.2 thread
        (addModeEdges g ids thread, p.2 + 1))
      (Graph.new, 0)).1
    registers := instructions.map (fun _ => [])
    propagate_nodes := instructions.map (fun _ => ∅) }

/-- `PSOThreadSystem::add_propagate_node`: like TSO, but the new node only
waits on pending propagates with the SAME address.  The matching pending
ids are enumerated in ascending id order (every pending id is a node id,
hence below `g.n`; the set iteration order of the source is unspecified
and the `add_edge`s commute). -/
def add_propagate_node (ts : PSOThreadSystem) (thread_id : Nat)
    (address value : Int) : PSOThreadSystem :=
  let (g, id) := ts.graph.add_node thread_id
    ⟨none, .propagate thread_id address value⟩
  let g := ((List.range g.n).filter (fun f => f ∈ g.active_fence_nodes)).foldl
    (fun g node => g.add_edge node id) g
  let pending := ts.propagate_nodes.getD thread_id ∅
  let g := ((List.range g.n).filter (fun p => (p, address) ∈ pending)).foldl
    (fun g node => g.add_edge id node) g
  { ts with
    graph := g
    propagate_nodes := ts.propagate_nodes.set thread_id
      (insert (id, address) pending) }

/-- `assign_register`. -/
def assign_register (ts : PSOThreadSystem) (thread_id : Nat) (register : String)
    (value : Int) : PSOThreadSystem :=
  { ts with registers :=
      ts.registers.set thread_id (insertA (ts.registers.getD thread_id []) register value) }

/-- `get_register`: absent registers read as 0. -/
def get_register (ts : PSOThreadSystem) (thread_id : Nat) (register : String) : Int :=
  ((ts.registers.getD thread_id []).lookup register).getD 0

/-- `remove_node`: a Propagate node is dropped from the pending set under
its (id, address) key. -/
def remove_node (ts : PSOThreadSystem) (node : Node) : PSOThreadSystem :=
  let ts := match node.instruction.instruction with
    | .propagate _ address _ =>
      { ts with propagate_nodes := (ts.propagate_nodes.set node.thread_id
          ((ts.propagate_nodes.getD node.thread_id ∅).erase (node.id, address))) }
    | _ => ts
  { ts with graph := ts.graph.remove_node node.id }

/-- `goto`. -/
def goto (ts : PSOThreadSystem) (label : String) : Option PSOThreadSystem :=
  (ts.graph.goto label).map (fun g => { ts with graph := g })

end PSOThreadSystem

/-- The SC model driver, from `src/memory_model.rs` (`SC`). -/
structure SC where
  thread_system : SCThreadSystem
  storage_system : SCStorageSystem
deriving DecidableEq

namespace SC

/-- `SC::new`. -/
def new (instructions : List (List LabeledInstruction)) : SC :=
  { thread_system := SCThreadSystem.new instructions
    storage_system := SCStorageSystem.new }

/-- `SC::step`: remove the node, then dispatch on its instruction.  The
result is `none` exactly when a taken `goto` panics (label never found on
the stack). -/
def step (m : SC) (node : Node) : Option SC :=
  let ts := m.thread_system.remove_node node
  let ss := m.storage_system
  let thread_id := node.thread_id
  match node.instruction.instruction with
  | .const r value => some ⟨ts.assign_register thread_id r value, ss⟩
  | .arithPlus r1 r2 r3 =>
    let v2 := ts.get_register thread_id r2
    let v3 := ts.get_register thread_id r3
    some ⟨ts.assign_register thread_id r1 (v2 + v3), ss⟩
  | .arithMinus r1 r2 r3 =>
    let v2 := ts.get_register thread_id r2
    let v3 := ts.get_register thread_id r3
    some ⟨ts.assign_register thread_id r1 (v2 - v3), ss⟩
  | .arithMul r1 r2 r3 =>
    let v2 := ts.get_register thread_id r2
    let v3 := ts.get_register thread_id r3
    some ⟨ts.assign_register thread_id r1 (v2 * v3), ss⟩
  | .arithDiv r1 r2 r3 =>
    let v2 := ts.get_register thread_id r2
    let v3 := ts.get_register thread_id r3
    some ⟨ts.assign_register thread_id r1 (Int.tdiv v2 v3), ss⟩
  | .cond r label =>
    let value := ts.get_register thread_id r
    if value ≠ 0 then (ts.goto label).map (fun ts => ⟨ts, ss⟩)
    else some ⟨ts, ss⟩
  | .load _ address r =>
    let address_value := ts.get_register thread_id address
    let value := ss.load thread_id address_value
    some ⟨ts.assign_register thread_id r value, ss⟩
  | .store _ address r =>
    let address_value := ts.get_register thread_id address
    let value := ts.get_register thread_id r
    some ⟨ts, ss.store thread_id address_value value⟩
  | .cas _ address to_r exp des =>
    let address_value := ts.get_register thread_id address
    let exp_value := ts.get_register thread_id exp
    let des_value := ts.get_register thread_id des
    let (value, ss) := ss.cas thread_id address_value exp_value des_value
    some ⟨ts.assign_register thread_id to_r value, ss⟩
  | .fai _ address to_r inc =>
    let address_value := ts.get_register thread_id address
    let inc_value := ts.get_register thread_id inc
    let (value, ss) := ss.fai thread_id address_value inc_value
    some ⟨ts.assign_register thread_id to_r value, ss⟩
  | .fence _ => some ⟨ts, ss⟩
  | .propagate _ _ _ => some ⟨ts, ss⟩

/-- Step on the node with the given id (the driver steps on a clone of a
candidate node). -/
def step_id (m : SC) (id : Nat) : Option SC :=
  m.step (m.thread_system.graph.instructions.getD id default)

/-- Run a schedule: each chosen id must be an execution candidate at its
step (this is exactly what `random_step` guarantees for the sampled node).
`none` means an invalid choice or a panic. -/
def run (m : SC) : List Nat → Option SC
  | [] => some m
  | id :: rest =>
    if id ∈ m.thread_system.graph.execution_candidates then
      (m.step_id id).bind (fun m' => m'.run rest)
    else none

end SC

/-- The TSO model driver, from `src/memory_model.rs` (`TSO`). -/
structure TSO where
  thread_system : TSOThreadSystem
  storage_system : TSOStorageSystem
deriving DecidableEq

namespace TSO

/-- `TSO::new`. -/
def new (instructions : List (List LabeledInstruction)) : TSO :=
  { thread_system := TSOThreadSystem.new instructions
    storage_system := TSOStorageSystem.new instructions.length }

/-- `TSO::step`, parameterized by the propagate implementation so that the
specification's oldest-removal variant reuses the rest of the dispatch
verbatim.  The actual driver is `step` below (`propFn := propagate`). -/
def step_with (propFn : TSOStorageSystem → Nat → Int → TSOStorageSystem)
    (m : TSO) (node : Node) : Option TSO :=
  let ts := m.thread_system.remove_node node
  let ss := m.storage_system
  let thread_id := node.thread_id
  match node.instruction.instruction with
  | .const r value => some ⟨ts.assign_register thread_id r value, ss⟩
  | .arithPlus r1 r2 r3 =>
    let v2 := ts.get_register thread_id r2
    let v3 := ts.get_register thread_id r3
    some ⟨ts.assign_register thread_id r1 (v2 + v3), ss⟩
  | .arithMinus r1 r2 r3 =>
    let v2 := ts.get_register thread_id r2
    let v3 := ts.get_register thread_id r3
    some ⟨ts.assign_register thread_id r1 (v2 - v3), ss⟩
  | .arithMul r1 r2 r3 =>
    let v2 := ts.get_register thread_id r2
    let v3 := ts.get_register thread_id r3
    some ⟨ts.assign_register thread_id r1 (v2 * v3), ss⟩
  | .arithDiv r1 r2 r3 =>
    let v2 := ts.get_register thread_id r2
    let v3 := ts.get_register thread_id r3
    some ⟨ts.assign_register thread_id r1 (Int.tdiv v2 v3), ss⟩
  | .cond r label =>
    let value := ts.get_register thread_id r
    if value ≠ 0 then (ts.goto label).map (fun ts => ⟨ts, ss⟩)
    else some ⟨ts, ss⟩
  | .load _ address r =>
    let address_value := ts.get_register thread_id address
    let value := ss.load thread_id address_value
    some ⟨ts.assign_register thread_id r value, ss⟩
  | .store _ address r =>
    let address_value := ts.get_register thread_id address
    let value := ts.get_register thread_id r
    let ss := ss.store thread_id address_value value
    some ⟨ts.add_propagate_node thread_id address_value value, ss⟩
  | .cas _ address to_r exp des =>
    let address_value := ts.get_register thread_id address
    let exp_value := ts.get_register thread_id exp
    let des_value := ts.get_register thread_id des
    let (value, ss) := ss.cas thread_id address_value exp_value des_value
    let ts := if value = exp_value then
        ts.add_propagate_node thread_id address_value des_value
      else ts
    some ⟨ts.assign_register thread_id to_r value, ss⟩
  | .fai _ address to_r inc =>
    let address_value := ts.get_register thread_id address
    let inc_value := ts.get_register thread_id inc
    let (value, ss) := ss.fai thread_id address_value inc_value
    let ts := ts.assign_register thread_id to_r value
    some ⟨ts.add_propagate_node thread_id address_value (value + inc_value), ss⟩
  | .fence _ => some ⟨ts, ss⟩
  | .propagate p_thread_id p_address _ =>
    some ⟨ts, propFn ss p_thread_id p_address⟩

/-- `TSO::step`: remove the node, then dispatch. -/
def step (m : TSO) (node : Node) : Option TSO :=
  step_with TSOStorageSystem.propagate m node

/-- The comparison variant: identical except Propagate drains the oldest
matching entry. -/
def step_oldest (m : TSO) (node : Node) : Option TSO :=
  step_with TSOStorageSystem.propagate_oldest m node

/-- Step on the node with the given id. -/
def step_id (m : TSO) (id : Nat) : Option TSO :=
  m.step (m.thread_system.graph.instructions.getD id default)

/-- Variant step on the node with the given id. -/
def step_id_oldest (m : TSO) (id : Nat) : Option TSO :=
  m.step_oldest (m.thread_system.graph.instructions.getD id default)

/-- Run a schedule; each chosen id must be a candidate at its step. -/
def run (m : TSO) : List Nat → Option TSO
  | [] => some m
  | id :: rest =>
    if id ∈ m.thread_system.graph.execution_candidates then
      (m.step_id id).bind (fun m' => m'.run rest)
    else none

/-- Run a schedule under the oldest-removal propagate variant. -/
def run_oldest (m : TSO) : List Nat → Option TSO
  | [] => some m
  | id :: rest =>
    if id ∈ m.thread_system.graph.execution_candidates then
      (m.step_id_oldest id).bind (fun m' => m'.run_oldest rest)
    else none

end TSO

/-- The PSO model driver, from `src/memory_model.rs` (`PSO`). -/
structure PSO where
  thread_system : PSOThreadSystem
  storage_system : PSOStorageSystem
deriving DecidableEq

namespace PSO

/-- `PSO::new`. -/
def new (instructions : List (List LabeledInstruction)) : PSO :=
  { thread_system := PSOThreadSystem.new instructions
    storage_system := PSOStorageSystem.new instructions.length }

/-- `PSO::step`: remove the node, then dispatch. -/
def step (m : PSO) (node : Node) : Option PSO :=
  let ts := m.thread_system.remove_node node
  let ss := m.storage_system
  let thread_id := node.thread_id
  match node.instruction.instruction with
  | .const r value => some ⟨ts.assign_register thread_id r value, ss⟩
  | .arithPlus r1 r2 r3 =>
    let v2 := ts.get_register thread_id r2
    let v3 := ts.get_register thread_id r3
    some ⟨ts.assign_register thread_id r1 (v2 + v3), ss⟩
  | .arithMinus r1 r2 r3 =>
    let v2 := ts.get_register thread_id r2
    let v3 := ts.get_register thread_id r3
    some ⟨ts.assign_register thread_id r1 (v2 - v3), ss⟩
  | .arithMul r1 r2 r3 =>
    let v2 := ts.get_register thread_id r2
    let v3 := ts.get_register thread_id r3
    some ⟨ts.assign_register thread_id r1 (v2 * v3), ss⟩
  | .arithDiv r1 r2 r3 =>
    let v2 := ts.get_register thread_id r2
    let v3 := ts.get_register thread_id r3
    some ⟨ts.assign_register thread_id r1 (Int.tdiv v2 v3), ss⟩
  | .cond r label =>
    let value := ts.get_register thread_id r
    if value ≠ 0 then (ts.goto label).map (fun ts => ⟨ts, ss⟩)
    else some ⟨ts, ss⟩
  | .load _ address r =>
    let address_value := ts.get_register thread_id address
    let value := ss.load thread_id address_value
    some ⟨ts.assign_register thread_id r value, ss⟩
  | .store _ address r =>
    let address_value := ts.get_register thread_id address
    let value := ts.get_register thread_id r
    let ss := ss.store thread_id address_value value
    some ⟨ts.add_propagate_node thread_id address_value value, ss⟩
  | .cas _ address to_r exp des =>
    let address_value := ts.get_register thread_id address
    let exp_value := ts.get_register thread_id exp
    let des_value := ts.get_register thread_id des
    let (value, ss) := ss.cas thread_id address_value exp_value des_value
    let ts := if value = exp_value then
        ts.add_propagate_node thread_id address_value des_value
      else ts
    some ⟨ts.assign_register thread_id to_r value, ss⟩
  | .fai _ address to_r inc =>
    let address_value := ts.get_register thread_id address
    let inc_value := ts.get_register thread_id inc
    let (value, ss) := ss.fai thread_id address_value inc_value
    let ts := ts.assign_register thread_id to_r value
    some ⟨ts.add_propagate_node thread_id address_value (value + inc_value), ss⟩
  | .fence _ => some ⟨ts, ss⟩
  | .propagate p_thread_id p_address _ =>
    some ⟨ts, ss.propagate p_thread_id p_address⟩

/-- Step on the node with the given id. -/
def step_id (m : PSO) (id : Nat) : Option PSO :=
  m.step (m.thread_system.graph.instructions.getD id default)

/-- Run a schedule; each chosen id must be a candidate at its step. -/
def run (m : PSO) : List Nat → Option PSO
  | [] => some m
  | id :: rest =>
    if id ∈ m.thread_system.graph.execution_candidates then
      (m.step_id id).bind (fun m' => m'.run rest)
    else none

end PSO

/-- ASCII whitespace recognizer used to embed Rust's
`str::split_whitespace` (Rust uses Unicode whitespace; the claims only
involve ASCII input, on which this agrees). -/
def isWsChar (c : Char) : Bool :=
  c = ' ' || c = '\t' || c = '\n' || c = '\x0d'

/-- Worker for `splitWs`; `acc` holds the current token reversed. -/
def splitWsAux : List Char → List Char → List (List Char)
  | [], acc => if acc.isEmpty then [] else [acc.reverse]
  | c :: rest, acc =>
    if isWsChar c then
      if acc.isEmpty then splitWsAux rest []
      else acc.reverse :: splitWsAux rest []
    else splitWsAux rest (c :: acc)

/-- The embedding of `str::split_whitespace().collect::<Vec<_>>()`. -/
def splitWs (cs : List Char) : List String :=
  (splitWsAux cs []).map (fun l => String.mk l)

/-- Numeric value of a nonempty all-digit character list. -/
def digitsVal : List Char → Option Nat
  | [] => none
  | cs =>
    if cs.all Char.isDigit then
      some (cs.foldl (fun acc c => acc * 10 + (c.toNat - 48)) 0)
    else none

/-- The embedding of `str::parse::<i32>()`: optional sign, digits,
32-bit-signed range check. -/
def parseI32 (s : String) : Option Int :=
  match s.data with
  | '+' :: rest =>
    (digitsVal rest).bind (fun n =>
      if (n : Int) ≤ 2147483647 then some (n : Int) else none)
  | '-' :: rest =>
    (digitsVal rest).bind (fun n =>
      if (n : Int) ≤ 2147483648 then some (-(n : Int)) else none)
  | cs =>
    (digitsVal cs).bind (fun n =>
      if (n : Int) ≤ 2147483647 then some (n : Int) else none)

/-- `Mode::from_str` (`src/parser.rs`). -/
def Mode.from_str (s : String) : Option Mode :=
  match s with
  | "SEQ_CST" => some .seqCst
  | "REL" => some .rel
  | "ACQ" => some .acq
  | "REL_ACQ" => some .relAcq
  | "RLX" => some .rlx
  | _ => none

/-- `label.replace(":", "")`: remove every colon. -/
def stripColons (s : String) : String :=
  String.mk (s.data.filter (fun c => c ≠ ':'))

/-- `parse_instruction` (`src/parser.rs`).  The outer `Option` embeds the
panic: the source indexes `parts[0]` before any emptiness check, so a line
whose tokenization is empty (non-empty but all-whitespace) panics
(`none`); otherwise the inner `Except` is the source's `Result`. -/
def parse_instruction (line : String) : Option (Except String LabeledInstruction) :=
  let parts0 := splitWs line.data
  match parts0 with
  | [] => none
  | p0 :: restParts =>
    let label : Option String :=
      if p0.endsWith ":" then some (stripColons p0) else none
    let parts := if label.isSome then restParts else parts0
    let instruction : Except String Instruction :=
      match parts with
      | [r, "=", value] =>
        match parseI32 value with
        | some v => .ok (.const r v)
        | none => .error "Invalid constant"
      | [r1, "=", r2, "+", r3] => .ok (.arithPlus r1 r2 r3)
      | [r1, "=", r2, "-", r3] => .ok (.arithMinus r1 r2 r3)
      | [r1, "=", r2, "*", r3] => .ok (.arithMul r1 r2 r3)
      | [r1, "=", r2, "/", r3] => .ok (.arithDiv r1 r2 r3)
      | ["load", mode, address, r] =>
        match Mode.from_str mode with
        | some m => .ok (.load m address r)
        | none => .error "Invalid mode"
      | ["store", mode, address, r] =>
        match Mode.from_str mode with
        | some m => .ok (.store m address r)
        | none => .error "Invalid mode"
      | [to_r, ":=", "cas", mode, address, exp, des] =>
        match Mode.from_str mode with
        | some m => .ok (.cas m address to_r exp des)
        | none => .error "Invalid mode"
      | [to_r, ":=", "fai", mode, address, inc] =>
        match Mode.from_str mode with
        | some m => .ok (.fai m address to_r inc)
        | none => .error "Invalid mode"
      | ["fence", mode] =>
        match Mode.from_str mode with
        | some m => .ok (.fence m)
        | none => .error "Invalid mode"
      | ["if", r, "goto", label'] => .ok (.cond r label')
      | _ => .error "Unknown instruction format"
    some (instruction.map (fun ins => ⟨label, ins⟩))

/-- Append an instruction to the current (last) thread, as the driver's
`instructions[current_thread].push(..)` does (`current_thread` always
indexes the last entry). -/
def pushCurrent (acc : List (List LabeledInstruction)) (ins : LabeledInstruction) :
    List (List LabeledInstruction) :=
  acc.set (acc.length - 1) (acc.getD (acc.length - 1) [] ++ [ins])

/-- The driver's line loop (`src/bin/main.rs`): a strictly empty line
starts a new thread; any other line goes to `parse_instruction`.  The
outer `Option` embeds a parser panic; the inner `Except` the
exit-with-error path. -/
def collect_aux : List String → List (List LabeledInstruction) →
    Option (Except String (List (List LabeledInstruction)))
  | [], acc => some (.ok acc)
  | line :: rest, acc =>
    if line.isEmpty then collect_aux rest (acc ++ [[]])
    else
      match parse_instruction line with
      | none => none
      | some (.error e) => some (.error e)
      | some (.ok ins) => collect_aux rest (pushCurrent acc ins)

/-- The driver's instruction collection, starting with one empty thread. -/
def collect_instructions (lines : List String) :
    Option (Except String (List (List LabeledInstruction))) :=
  collect_aux lines [[]]

namespace Graph

/-- The three dense arrays all have one slot per node. -/
def lenOK (g : Graph) : Prop :=
  g.rev_edges.length = g.n ∧ g.active_neighbors.length = g.n ∧
    g.is_active.length = g.n

/-- Every recorded edge endpoint is a real node. -/
def edgesOK (g : Graph) : Prop :=
  ∀ j ∈ Finset.range g.n, ∀ x ∈ g.rev_edges.getD j [], x < g.n

/-- Invariant I1: the candidates are exactly the active nodes with no
active waits. -/
def candOK (g : Graph) : Prop :=
  g.execution_candidates ⊆ Finset.range g.n ∧
    ∀ i ∈ Finset.range g.n,
      (i ∈ g.execution_candidates ↔
        (g.is_active.getD i false = true ∧ g.active_neighbors.getD i 0 = 0))

end Graph

/-- The number of occurrences of `i` across the predecessor lists of
active nodes, for an explicit node count, activity array and reverse-edge
table. -/
def activeCountOn (n : Nat) (act : List Bool) (re : List (List Nat)) (i : Nat) : Nat :=
  ∑ j ∈ Finset.range n, if act.getD j false then (re.getD j []).count i else 0

namespace Graph

/-- The number of active nodes whose `rev_edges` list mentions `i`,
counted with multiplicity. -/
def activeCount (g : Graph) (i : Nat) : Nat :=
  activeCountOn g.n g.is_active g.rev_edges i

/-- Invariant I2 (multiplicity form): `active_neighbors[i]` counts the
active nodes still waiting on by `i`. -/
def countOK (g : Graph) : Prop :=
  ∀ i ∈ Finset.range g.n, g.active_neighbors.getD i 0 = g.activeCount i

/-- Invariant I4: the fence set is exactly the active fences. -/
def fenceOK (g : Graph) : Prop :=
  g.active_fence_nodes ⊆ Finset.range g.n ∧
    ∀ i ∈ Finset.range g.n,
      (i ∈ g.active_fence_nodes ↔
        (g.is_active.getD i false = true ∧
          (g.instructions.getD i default).instruction.is_fence = true))

/-- The execution stack holds exactly the inactive nodes, each once. -/
def stackOK (g : Graph) : Prop :=
  (∀ i ∈ g.execution_stack, i < g.n) ∧ g.execution_stack.Nodup ∧
    ∀ i ∈ Finset.range g.n,
      (g.is_active.getD i false = false ↔ i ∈ g.execution_stack)

end Graph

/-- Stack-order condition on a node list with respect to a node count and
a reverse-edge table: every listed node's wait-targets appear later in the
list (deeper on the stack). -/
def stackOrdOn (n : Nat) (re : List (List Nat)) : List Nat → Prop
  | [] => True
  | i :: rest =>
    (∀ j ∈ Finset.range n, i ∈ re.getD j [] → j ∈ rest) ∧ stackOrdOn n re rest

instance instDecStackOrdOn (n : Nat) (re : List (List Nat)) :
    (l : List Nat) → Decidable (stackOrdOn n re l)
  | [] => .isTrue (by simp [stackOrdOn])
  | i :: rest =>
    have : Decidable (stackOrdOn n re rest) := instDecStackOrdOn n re rest
    decidable_of_iff
      ((∀ j ∈ Finset.range n, i ∈ re.getD j [] → j ∈ rest) ∧ stackOrdOn n re rest)
      (by simp [stackOrdOn])

namespace Graph

/-- Stack-order invariant: every node on the stack was removed after all
the nodes it waits on, so those appear deeper on the stack. -/
def stackOrd (g : Graph) (l : List Nat) : Prop :=
  stackOrdOn g.n g.rev_edges l

/-- Each node records its own index as its id. -/
def idsOK (g : Graph) : Prop :=
  ∀ i ∈ Finset.range g.n, (g.instructions.getD i default).id = i

/-- The label map only points at real nodes. -/
def labelsOK (g : Graph) : Prop :=
  ∀ p ∈ g.label_to_node, p.2 < g.n

/-- The full well-formedness invariant maintained by every graph
mutation as used by the program. -/
def Wf (g : Graph) : Prop :=
  g.lenOK ∧ g.edgesOK ∧ g.candOK ∧ g.countOK ∧ g.fenceOK ∧
    g.stackOK ∧ g.stackOrd g.execution_stack ∧ g.idsOK ∧ g.labelsOK

instance (g : Graph) : Decidable g.Wf := by
  unfold Wf lenOK edgesOK candOK countOK fenceOK stackOK stackOrd idsOK labelsOK
  infer_instance

/-- Invariant I1 in the specification's unbounded wording. -/
def I1holds (g : Graph) : Prop :=
  ∀ i, (i ∈ g.execution_candidates ↔
    (g.is_active.getD i false = true ∧ g.active_neighbors.getD i 0 = 0))

/-- Invariant I2 in the specification's wording: `active_neighbors[i]` is
the number of active nodes whose `rev_edges` list contains `i`. -/
def I2holds (g : Graph) : Prop :=
  ∀ i, g.active_neighbors.getD i 0 =
    ((Finset.range g.n).filter (fun j =>
      g.is_active.getD j false = true ∧ i ∈ g.rev_edges.getD j [])).card

/-- Invariant I2 in multiplicity form, the form the code maintains:
`active_neighbors[i]` equals the number of occurrences of `i` across the
active nodes' `rev_edges` lists (a duplicate edge counts twice). -/
def I2multiHolds (g : Graph) : Prop :=
  ∀ i, g.active_neighbors.getD i 0 = g.activeCount i

/-- Remove a list of nodes in order. -/
def remove_list (g : Graph) (ids : List Nat) : Graph :=
  ids.foldl remove_node g

/-- The removals the driver can actually perform: each removed node is an
execution candidate of the state it is removed from. -/
def ValidRemoveSeq (g : Graph) : List Nat → Prop
  | [] => True
  | id :: rest => id ∈ g.execution_candidates ∧ ValidRemoveSeq (g.remove_node id) rest

instance instDecValidRemoveSeq (g : Graph) :
    (l : List Nat) → Decidable (g.ValidRemoveSeq l)
  | [] => .isTrue (by simp [ValidRemoveSeq])
  | id :: rest =>
    have : Decidable ((g.remove_node id).ValidRemoveSeq rest) :=
      instDecValidRemoveSeq (g.remove_node id) rest
    decidable_of_iff
      (id ∈ g.execution_candidates ∧ (g.remove_node id).ValidRemoveSeq rest)
      (by simp [ValidRemoveSeq])

/-- Restore `k` times (`none` embeds a panic on an empty stack). -/
def restoreN (g : Graph) : Nat → Option Graph
  | 0 => some g
  | k + 1 =>
    match g.restore_node with
    | none => none
    | some (g', _) => g'.restoreN k

end Graph

/-- Does executing node `id` synthesize a Propagate node?  Stores and FAIs
always do; a CAS does iff its pre-image equals the `exp` register
(`TSO::step`).  Registers and storage are unchanged by the initial
`remove_node`, so this is evaluated on the pre-state. -/
def TSO.emits (m : TSO) (id : Nat) : Bool :=
  let node := m.thread_system.graph.instructions.getD id default
  match node.instruction.instruction with
  | .store _ _ _ => true
  | .fai _ _ _ _ => true
  | .cas _ address _ exp _ =>
    decide (m.storage_system.load node.thread_id
        (m.thread_system.get_register node.thread_id address) =
      m.thread_system.get_register node.thread_id exp)
  | _ => false

/-- Number of Propagate nodes synthesized along a schedule. -/
def TSO.synth_count (m : TSO) : List Nat → Nat
  | [] => 0
  | id :: rest =>
    (if m.emits id then 1 else 0) +
      (match m.step_id id with
       | some m' => m'.synth_count rest
       | none => 0)

/-- Number of scheduled steps that execute a synthesized Propagate node. -/
def TSO.prop_steps (m : TSO) : List Nat → Nat
  | [] => 0
  | id :: rest =>
    (match (m.thread_system.graph.instructions.getD id default).instruction.instruction with
     | .propagate _ _ _ => 1
     | _ => 0) +
      (match m.step_id id with
       | some m' => m'.prop_steps rest
       | none => 0)

/-- The S2 store-buffer litmus program of the specification, exactly as
its input parses: thread 0 is `x = 0; y = 1; store RLX x y`, thread 1 is
`y = 0; x = 1; store RLX y x; load RLX x r0`. -/
def progS2 : List (List LabeledInstruction) :=
  [[⟨none, .const "x" 0⟩, ⟨none, .const "y" 1⟩, ⟨none, .store .rlx "x" "y"⟩],
   [⟨none, .const "y" 0⟩, ⟨none, .const "x" 1⟩, ⟨none, .store .rlx "y" "x"⟩,
    ⟨none, .load .rlx "x" "r0"⟩]]

/-- The S4 fence program: `v = 1; store RLX x v; fence SEQ_CST;
store RLX y v` (one thread). -/
def progS4 : List (List LabeledInstruction) :=
  [[⟨none, .const "v" 1⟩, ⟨none, .store .rlx "x" "v"⟩, ⟨none, .fence .seqCst⟩,
    ⟨none, .store .rlx "y" "v"⟩]]

/-- The S5 two-store program: `v = 1; store RLX x v; store RLX y v`
(one thread). -/
def progS5 : List (List LabeledInstruction) :=
  [[⟨none, .const "v" 1⟩, ⟨none, .store .rlx "x" "v"⟩, ⟨none, .store .rlx "y" "v"⟩]]

/-- One thread storing two different values to the same address:
`v = 1; w = 2; store RLX x v; store RLX x w`. -/
def progTwoStores : List (List LabeledInstruction) :=
  [[⟨none, .const "v" 1⟩, ⟨none, .const "w" 2⟩, ⟨none, .store .rlx "x" "v"⟩,
    ⟨none, .store .rlx "x" "w"⟩]]

/-- A program whose only backward jump is always taken:
`one = 1; L: if one goto L`. -/
def progLoop : List (List LabeledInstruction) :=
  [[⟨none, .const "one" 1⟩, ⟨some "L", .cond "one" "L"⟩]]

/-- A backward-jump program with a store between label and jump:
`L: one = 1; store RLX x one; if one goto L`. -/
def progGotoTSO : List (List LabeledInstruction) :=
  [[⟨some "L", .const "one" 1⟩, ⟨none, .store .rlx "x" "one"⟩,
    ⟨none, .cond "one" "L"⟩]]

/-- A one-instruction CAS program: `t := cas RLX a e d` (all registers
unset, so the CAS succeeds: pre-image 0 equals `e` = 0). -/
def progCas : List (List LabeledInstruction) :=
  [[⟨none, .cas .rlx "a" "t" "e" "d"⟩]]

/-- Number of buffer entries matching an address. -/
def matchCount (l : List (Int × Int)) (a : Int) : Nat :=
  match l with
  | [] => 0
  | (b, _) :: rest => (if b = a then 1 else 0) + matchCount rest a

/-- Two unlabeled single-thread nodes, before any edge. -/
def graphTwoB : Graph :=
  ((Graph.new.add_node 0 ⟨none, .const "r" 1⟩).1.add_node 0
    ⟨none, .const "s" 2⟩).1

/-- `graphTwoB` with node 1 waiting on node 0: candidates are `{0}`. -/
def graphTwo : Graph := graphTwoB.add_edge 1 0

/-- `graphTwo` after its only candidate (node 0) is removed. -/
def graphTwoR : Graph := graphTwo.remove_node 0

/-- One thread whose first instruction is REL and second is ACQ: the TSO
and PSO constructions then add the edge (1, 0) twice. -/
def progRelAcq : List (List LabeledInstruction) :=
  [[⟨none, .store .rel "x" "r"⟩, ⟨none, .load .acq "x" "r"⟩]]

/-- The REL/ACQ thread of `progRelAcq` with its first instruction
labeled "L"; the construction again adds the edge (1, 0) twice. -/
def progRelAcqLbl : List (List LabeledInstruction) :=
  [[⟨some "L", .store .rel "x" "r"⟩, ⟨none, .load .acq "x" "r"⟩]]

/-- The graph the program builds for `progRelAcq`: `rev_edges[0] = [1, 1]`
and `active_neighbors[1] = 2`. -/
def graphRelAcq : Graph := (TSOThreadSystem.new progRelAcq).graph

/-- The graph the program builds for `progRelAcqLbl`. -/
def graphRelAcqLbl : Graph := (TSOThreadSystem.new progRelAcqLbl).graph

/-!  Theorems.  -/

theorem getD_set_eq {α : Type} (l : List α) (i : Nat) (v d : α)
    (h : i < l.length) : (l.set i v).getD i d = v := by
  induction l generalizing i with
  | nil => simp at h
  | cons a rest ih =>
    cases i with
    | zero => rfl
    | succ k => exact ih k (by simpa using h)

theorem getD_set_ne {α : Type} (l : List α) {i j : Nat} (v d : α)
    (h : i ≠ j) : (l.set i v).getD j d = l.getD j d := by
  induction l generalizing i j with
  | nil => simp
  | cons a rest ih =>
    cases i with
    | zero =>
      cases j with
      | zero => exact absurd rfl h
      | succ m => rfl
    | succ k =>
      cases j with
      | zero => rfl
      | succ m => exact ih (fun hc => h (by rw [hc]))

theorem getD_append_concat {α : Type} (l : List α) (v d : α) (i : Nat) :
    (l ++ [v]).getD i d = if i = l.length then v else l.getD i d := by
  induction l generalizing i with
  | nil => cases i <;> simp [List.getD]
  | cons a rest ih =>
    cases i with
    | zero => simp
    | succ k => simpa using ih k

theorem set_getD_cancel {α : Type} (l : List α) (i : Nat) (v d : α)
    (h : i < l.length) (hv : l.getD i d = v) : l.set i v = l := by
  induction l generalizing i with
  | nil => rfl
  | cons a rest ih =>
    cases i with
    | zero => simp [List.set, List.getD] at hv ⊢; exact hv.symm
    | succ k =>
      simp only [List.set]
      rw [ih k (by simpa using h) (by simpa [List.getD] using hv)]

theorem list_ext_getD {α : Type} (l1 l2 : List α) (d : α)
    (hlen : l1.length = l2.length) (h : ∀ i, l1.getD i d = l2.getD i d) :
    l1 = l2 := by
  induction l1 generalizing l2 with
  | nil => cases l2 with
    | nil => rfl
    | cons b r2 => simp at hlen
  | cons a r1 ih =>
    cases l2 with
    | nil => simp at hlen
    | cons b r2 =>
      have h0 := h 0
      simp [List.getD] at h0
      rw [h0, ih r2 (by simpa using hlen) (fun i => by simpa [List.getD] using h (i + 1))]

theorem decLoop_fixed (l : List Nat) (gb : Graph) :
    (l.foldl Graph.dec_neighbor gb).label_to_node = gb.label_to_node ∧
    (l.foldl Graph.dec_neighbor gb).instructions = gb.instructions ∧
    (l.foldl Graph.dec_neighbor gb).rev_edges = gb.rev_edges ∧
    (l.foldl Graph.dec_neighbor gb).is_active = gb.is_active ∧
    (l.foldl Graph.dec_neighbor gb).active_fence_nodes = gb.active_fence_nodes ∧
    (l.foldl Graph.dec_neighbor gb).execution_stack = gb.execution_stack ∧
    (l.foldl Graph.dec_neighbor gb).active_neighbors.length =
      gb.active_neighbors.length := by
  induction l generalizing gb with
  | nil => exact ⟨rfl, rfl, rfl, rfl, rfl, rfl, rfl⟩
  | cons f rest ih =>
    have hstep : (Graph.dec_neighbor gb f).label_to_node = gb.label_to_node ∧
        (Graph.dec_neighbor gb f).instructions = gb.instructions ∧
        (Graph.dec_neighbor gb f).rev_edges = gb.rev_edges ∧
        (Graph.dec_neighbor gb f).is_active = gb.is_active ∧
        (Graph.dec_neighbor gb f).active_fence_nodes = gb.active_fence_nodes ∧
        (Graph.dec_neighbor gb f).execution_stack = gb.execution_stack ∧
        (Graph.dec_neighbor gb f).active_neighbors.length =
          gb.active_neighbors.length := by
      unfold Graph.dec_neighbor
      split
      · exact ⟨rfl, rfl, rfl, rfl, rfl, rfl, by simp⟩
      · exact ⟨rfl, rfl, rfl, rfl, rfl, rfl, rfl⟩
    have ihr := ih (Graph.dec_neighbor gb f)
    simp only [List.foldl_cons]
    exact ⟨ihr.1.trans hstep.1, ihr.2.1.trans hstep.2.1, ihr.2.2.1.trans hstep.2.2.1,
      ihr.2.2.2.1.trans hstep.2.2.2.1, ihr.2.2.2.2.1.trans hstep.2.2.2.2.1,
      ihr.2.2.2.2.2.1.trans hstep.2.2.2.2.2.1, ihr.2.2.2.2.2.2.trans hstep.2.2.2.2.2.2⟩

theorem incLoop_fixed (l : List Nat) (gb : Graph) :
    (l.foldl Graph.inc_neighbor gb).label_to_node = gb.label_to_node ∧
    (l.foldl Graph.inc_neighbor gb).instructions = gb.instructions ∧
    (l.foldl Graph.inc_neighbor gb).rev_edges = gb.rev_edges ∧
    (l.foldl Graph.inc_neighbor gb).is_active = gb.is_active ∧
    (l.foldl Graph.inc_neighbor gb).active_fence_nodes = gb.active_fence_nodes ∧
    (l.foldl Graph.inc_neighbor gb).execution_stack = gb.execution_stack ∧
    (l.foldl Graph.inc_neighbor gb).active_neighbors.length =
      gb.active_neighbors.length := by
  induction l generalizing gb with
  | nil => exact ⟨rfl, rfl, rfl, rfl, rfl, rfl, rfl⟩
  | cons f rest ih =>
    have hstep : (Graph.inc_neighbor gb f).label_to_node = gb.label_to_node ∧
        (Graph.inc_neighbor gb f).instructions = gb.instructions ∧
        (Graph.inc_neighbor gb f).rev_edges = gb.rev_edges ∧
        (Graph.inc_neighbor gb f).is_active = gb.is_active ∧
        (Graph.inc_neighbor gb f).active_fence_nodes = gb.active_fence_nodes ∧
        (Graph.inc_neighbor gb f).execution_stack = gb.execution_stack ∧
        (Graph.inc_neighbor gb f).active_neighbors.length =
          gb.active_neighbors.length := by
      unfold Graph.inc_neighbor
      split
      · exact ⟨rfl, rfl, rfl, rfl, rfl, rfl, by simp⟩
      · exact ⟨rfl, rfl, rfl, rfl, rfl, rfl, rfl⟩
    have ihr := ih (Graph.inc_neighbor gb f)
    simp only [List.foldl_cons]
    exact ⟨ihr.1.trans hstep.1, ihr.2.1.trans hstep.2.1, ihr.2.2.1.trans hstep.2.2.1,
      ihr.2.2.2.1.trans hstep.2.2.2.1, ihr.2.2.2.2.1.trans hstep.2.2.2.2.1,
      ihr.2.2.2.2.2.1.trans hstep.2.2.2.2.2.1, ihr.2.2.2.2.2.2.trans hstep.2.2.2.2.2.2⟩

theorem count_nodup {l : List Nat} (hnd : l.Nodup) (i : Nat) :
    l.count i = if i ∈ l then 1 else 0 := by
  induction l with
  | nil => simp
  | cons a rest ih =>
    obtain ⟨ha, hr⟩ := List.nodup_cons.mp hnd
    by_cases hi : i = a
    · subst hi
      rw [List.count_cons_self, ih hr]
      simp [ha]
    · rw [List.count_cons_of_ne (fun hc => hi hc), ih hr]
      simp [hi, Ne.symm hi]

theorem activeCountOn_congr {n : Nat} {act act' : List Bool}
    {re re' : List (List Nat)} (i : Nat)
    (hact : ∀ j, j < n → act.getD j false = act'.getD j false)
    (hre : ∀ j, j < n → re.getD j [] = re'.getD j []) :
    activeCountOn n act re i = activeCountOn n act' re' i := by
  unfold activeCountOn
  refine Finset.sum_congr rfl (fun j hj => ?_)
  rw [hact j (Finset.mem_range.mp hj), hre j (Finset.mem_range.mp hj)]

theorem activeCountOn_pos {n : Nat} {act : List Bool} {re : List (List Nat)}
    {i j0 : Nat} (hj0 : j0 < n) (hact : act.getD j0 false = true)
    (hmem : i ∈ re.getD j0 []) : 1 ≤ activeCountOn n act re i := by
  unfold activeCountOn
  have hterm : 1 ≤ if act.getD j0 false then (re.getD j0 []).count i else 0 := by
    rw [if_pos hact]
    exact List.one_le_count_iff.mpr hmem
  exact le_trans hterm (Finset.single_le_sum
    (f := fun j => if act.getD j false then (re.getD j []).count i else 0)
    (fun k _ => Nat.zero_le _) (Finset.mem_range.mpr hj0))

theorem activeCountOn_set_false {n : Nat} {act : List Bool}
    {re : List (List Nat)} {id : Nat} (i : Nat) (hid : id < n)
    (hact : act.getD id false = true) :
    activeCountOn n (act.set id false) re i + (re.getD id []).count i =
      activeCountOn n act re i := by
  unfold activeCountOn
  have hmem : id ∈ Finset.range n := Finset.mem_range.mpr hid
  rw [← Finset.add_sum_erase _ _ hmem, ← Finset.add_sum_erase _ _ hmem]
  have hid_len : id < act.length := by
    by_contra hc
    rw [List.getD_eq_default _ _ (by omega)] at hact
    exact absurd hact (by simp)
  rw [getD_set_eq _ _ _ _ hid_len, hact]
  have hcongr : ∀ j ∈ (Finset.range n).erase id,
      (if (act.set id false).getD j false then (re.getD j []).count i else 0) =
        (if act.getD j false then (re.getD j []).count i else 0) := by
    intro j hj
    rw [getD_set_ne _ _ _ (Ne.symm (Finset.mem_erase.mp hj).1)]
  rw [Finset.sum_congr rfl hcongr]
  simp [Nat.add_comm, Nat.add_left_comm]

theorem activeCountOn_set_true {n : Nat} {act : List Bool}
    {re : List (List Nat)} {id : Nat} (i : Nat) (hid : id < n)
    (hid_len : id < act.length) :
    activeCountOn n (act.set id true) re i =
      (if act.getD id false then 0 else (re.getD id []).count i) +
        activeCountOn n act re i := by
  unfold activeCountOn
  have hmem : id ∈ Finset.range n := Finset.mem_range.mpr hid
  rw [← Finset.add_sum_erase _ _ hmem, ← Finset.add_sum_erase _
    (fun j => if act.getD j false then (re.getD j []).count i else 0) hmem]
  rw [getD_set_eq _ _ _ _ hid_len]
  have hcongr : ∀ j ∈ (Finset.range n).erase id,
      (if (act.set id true).getD j false then (re.getD j []).count i else 0) =
        (if act.getD j false then (re.getD j []).count i else 0) := by
    intro j hj
    rw [getD_set_ne _ _ _ (Ne.symm (Finset.mem_erase.mp hj).1)]
  rw [Finset.sum_congr rfl hcongr]
  by_cases hact : act.getD id false = true
  · rw [if_pos hact, if_pos hact, if_pos (by trivial : (true : Bool) = true)]
    omega
  · rw [if_neg hact, if_neg hact, if_pos (by trivial : (true : Bool) = true)]
    omega

theorem activeCountOn_append {n : Nat} {act : List Bool}
    {re : List (List Nat)} (i : Nat) (hlenact : act.length = n)
    (hlenre : re.length = n) (b : Bool) (e : List Nat) (hni : i ∉ e) :
    activeCountOn (n + 1) (act ++ [b]) (re ++ [e]) i =
      activeCountOn n act re i := by
  unfold activeCountOn
  rw [Finset.sum_range_succ]
  have hlast : (if (act ++ [b]).getD n false then ((re ++ [e]).getD n []).count i
      else 0) = 0 := by
    rw [getD_append_concat, getD_append_concat, if_pos hlenact.symm, if_pos hlenre.symm]
    by_cases hb : b = true <;>
      simp [hb, List.count_eq_zero_of_not_mem hni]
  rw [hlast, Nat.add_zero]
  refine Finset.sum_congr rfl (fun j hj => ?_)
  have hjn := Finset.mem_range.mp hj
  have h1 : ¬(j = act.length) := by omega
  have h2 : ¬(j = re.length) := by omega
  rw [getD_append_concat, getD_append_concat, if_neg h1, if_neg h2]

theorem activeCountOn_edge_append {n : Nat} {act : List Bool}
    {re : List (List Nat)} {src dst : Nat} (i : Nat) (hdst : dst < n)
    (hdst_len : dst < re.length) :
    activeCountOn n act (re.set dst (re.getD dst [] ++ [src])) i =
      activeCountOn n act re i +
        (if act.getD dst false = true ∧ i = src then 1 else 0) := by
  unfold activeCountOn
  have hmem : dst ∈ Finset.range n := Finset.mem_range.mpr hdst
  rw [← Finset.add_sum_erase _ _ hmem, ← Finset.add_sum_erase _
    (fun j => if act.getD j false then (re.getD j []).count i else 0) hmem]
  have hcongr : ∀ j ∈ (Finset.range n).erase dst,
      (if act.getD j false
        then ((re.set dst (re.getD dst [] ++ [src])).getD j []).count i else 0) =
        (if act.getD j false then (re.getD j []).count i else 0) := by
    intro j hj
    rw [getD_set_ne _ _ _ (Ne.symm (Finset.mem_erase.mp hj).1)]
  rw [Finset.sum_congr rfl hcongr]
  rw [getD_set_eq _ _ _ _ hdst_len]
  by_cases hact : act.getD dst false = true
  · rw [if_pos hact, if_pos hact]
    by_cases hi : i = src
    · subst hi
      rw [if_pos ⟨hact, rfl⟩, List.count_append]
      have hone : List.count i [i] = 1 := by simp
      omega
    · rw [if_neg (fun hc => hi hc.2), List.count_append]
      have hzero : List.count i [src] = 0 := by simp [hi]
      omega
  · rw [if_neg hact, if_neg hact, if_neg (fun hc => hact hc.1)]
    omega

theorem stackOrdOn_mem {n : Nat} {re : List (List Nat)} {l : List Nat}
    (h : stackOrdOn n re l) {i j : Nat} (hi : i ∈ l) (hj : j < n)
    (hij : i ∈ re.getD j []) : j ∈ l := by
  induction l with
  | nil => simp at hi
  | cons a rest ih =>
    rcases List.mem_cons.mp hi with rfl | hi'
    · exact List.mem_cons_of_mem _ (h.1 j (Finset.mem_range.mpr hj) hij)
    · exact List.mem_cons_of_mem _ (ih h.2 hi')

theorem stackOrdOn_edge {n : Nat} {re : List (List Nat)} {l : List Nat}
    {src dst : Nat} (h : stackOrdOn n re l) (hsrc : src ∉ l) :
    stackOrdOn n (re.set dst (re.getD dst [] ++ [src])) l := by
  induction l with
  | nil => trivial
  | cons a rest ih =>
    refine ⟨fun j hj hmem => ?_, ih h.2 (fun hc => hsrc (List.mem_cons_of_mem _ hc))⟩
    by_cases hjd : j = dst
    · subst hjd
      by_cases hlen : j < re.length
      · rw [getD_set_eq _ _ _ _ hlen] at hmem
        rcases List.mem_append.mp hmem with hmem' | hmem'
        · exact h.1 j hj hmem'
        · exact absurd (List.mem_singleton.mp hmem' ▸ List.mem_cons_self a rest)
            (by simp at hmem'; subst hmem'; exact fun hc => hsrc hc)
      · rw [List.set_eq_of_length_le (by omega)] at hmem
        exact h.1 j hj hmem
    · rw [getD_set_ne _ _ _ (fun hc => hjd hc.symm)] at hmem
      exact h.1 j hj hmem

theorem stackOrdOn_extend {n : Nat} {re : List (List Nat)} {l : List Nat}
    (h : stackOrdOn n re l) (hlen : re.length = n) (e : List Nat)
    (he : ∀ x ∈ l, x ∉ e) : stackOrdOn (n + 1) (re ++ [e]) l := by
  induction l with
  | nil => trivial
  | cons a rest ih =>
    refine ⟨fun j hj hmem => ?_, ih h.2 (fun x hx => he x (List.mem_cons_of_mem _ hx))⟩
    have hjn := Finset.mem_range.mp hj
    rw [getD_append_concat] at hmem
    by_cases hje : j = re.length
    · rw [if_pos hje] at hmem
      exact absurd hmem (he a (List.mem_cons_self a rest))
    · rw [if_neg hje] at hmem
      exact h.1 j (Finset.mem_range.mpr (by omega)) hmem

theorem dec_neighbor_spec (gb : Graph) (f : Nat)
    (hf : f < gb.active_neighbors.length) :
    (∀ k, (Graph.dec_neighbor gb f).active_neighbors.getD k 0 =
      if k = f ∧ gb.is_active.getD f false = true
      then gb.active_neighbors.getD f 0 - 1 else gb.active_neighbors.getD k 0) ∧
    (∀ k, k ∈ (Graph.dec_neighbor gb f).execution_candidates ↔
      (k ∈ gb.execution_candidates ∨
        (k = f ∧ gb.is_active.getD f false = true ∧
          gb.active_neighbors.getD f 0 - 1 = 0))) := by
  by_cases hact : gb.is_active.getD f false = true
  · have hred : Graph.dec_neighbor gb f =
        { gb with
          active_neighbors :=
            gb.active_neighbors.set f (gb.active_neighbors.getD f 0 - 1)
          execution_candidates :=
            if gb.active_neighbors.getD f 0 - 1 = 0
            then insert f gb.execution_candidates
            else gb.execution_candidates } := by
      unfold Graph.dec_neighbor
      rw [if_pos hact]
    rw [hred]
    constructor
    · intro k
      by_cases hk : k = f
      · subst hk
        simp only [hact, and_true, if_pos rfl]
        exact getD_set_eq _ _ _ _ hf
      · simp only [hk, false_and, if_false]
        exact getD_set_ne _ _ _ (Ne.symm hk)
    · intro k
      show k ∈ (if gb.active_neighbors.getD f 0 - 1 = 0
          then insert f gb.execution_candidates
          else gb.execution_candidates) ↔ _
      by_cases hzero : gb.active_neighbors.getD f 0 - 1 = 0
      · rw [if_pos hzero]
        simp only [Finset.mem_insert]
        tauto
      · rw [if_neg hzero]
        tauto
  · have hred : Graph.dec_neighbor gb f = gb := by
      unfold Graph.dec_neighbor
      rw [if_neg hact]
    rw [hred]
    simp only [hact]
    exact ⟨fun k => by simp, fun k => by tauto⟩

theorem inc_neighbor_spec (gb : Graph) (f : Nat)
    (hf : f < gb.active_neighbors.length) :
    (∀ k, (Graph.inc_neighbor gb f).active_neighbors.getD k 0 =
      if k = f ∧ gb.is_active.getD f false = true
      then gb.active_neighbors.getD f 0 + 1 else gb.active_neighbors.getD k 0) ∧
    (∀ k, k ∈ (Graph.inc_neighbor gb f).execution_candidates ↔
      (k ∈ gb.execution_candidates ∧
        ¬(k = f ∧ gb.is_active.getD f false = true ∧
          gb.active_neighbors.getD f 0 = 0))) := by
  by_cases hact : gb.is_active.getD f false = true
  · have hred : Graph.inc_neighbor gb f =
        { gb with
          active_neighbors :=
            gb.active_neighbors.set f (gb.active_neighbors.getD f 0 + 1)
          execution_candidates :=
            if gb.active_neighbors.getD f 0 + 1 = 1
            then gb.execution_candidates.erase f
            else gb.execution_candidates } := by
      unfold Graph.inc_neighbor
      rw [if_pos hact]
    rw [hred]
    constructor
    · intro k
      by_cases hk : k = f
      · subst hk
        simp only [hact, and_true, if_pos rfl]
        exact getD_set_eq _ _ _ _ hf
      · simp only [hk, false_and, if_false]
        exact getD_set_ne _ _ _ (Ne.symm hk)
    · intro k
      show k ∈ (if gb.active_neighbors.getD f 0 + 1 = 1
          then gb.execution_candidates.erase f
          else gb.execution_candidates) ↔ _
      by_cases hzero : gb.active_neighbors.getD f 0 = 0
      · have h1 : gb.active_neighbors.getD f 0 + 1 = 1 := by omega
        rw [if_pos h1]
        simp only [Finset.mem_erase]
        tauto
      · have h1 : ¬(gb.active_neighbors.getD f 0 + 1 = 1) := by omega
        rw [if_neg h1]
        tauto
  · have hred : Graph.inc_neighbor gb f = gb := by
      unfold Graph.inc_neighbor
      rw [if_neg hact]
    rw [hred]
    simp only [hact]
    exact ⟨fun k => by simp, fun k => by tauto⟩

theorem activeCountOn_le_term {n : Nat} {act : List Bool} {re : List (List Nat)}
    {i j0 : Nat} (hj0 : j0 < n) (hact : act.getD j0 false = true) :
    (re.getD j0 []).count i ≤ activeCountOn n act re i := by
  unfold activeCountOn
  have hterm : (re.getD j0 []).count i ≤
      if act.getD j0 false then (re.getD j0 []).count i else 0 := by
    rw [if_pos hact]
  exact le_trans hterm (Finset.single_le_sum
    (f := fun j => if act.getD j false then (re.getD j []).count i else 0)
    (fun k _ => Nat.zero_le _) (Finset.mem_range.mpr hj0))

theorem decLoop_an (l : List Nat) : ∀ (gb : Graph),
    (∀ x ∈ l, x < gb.active_neighbors.length) → ∀ i,
    (l.foldl Graph.dec_neighbor gb).active_neighbors.getD i 0 =
      (if gb.is_active.getD i false = true
       then gb.active_neighbors.getD i 0 - l.count i
       else gb.active_neighbors.getD i 0) := by
  induction l with
  | nil =>
    intro gb _ i
    simp
  | cons f rest ih =>
    intro gb hlt i
    have hf := hlt f (List.mem_cons_self f rest)
    have hstep := dec_neighbor_spec gb f hf
    have hfix := decLoop_fixed [f] gb
    have hact1 : (Graph.dec_neighbor gb f).is_active = gb.is_active := by
      simpa using hfix.2.2.2.1
    have hlen1 : (Graph.dec_neighbor gb f).active_neighbors.length =
        gb.active_neighbors.length := by simpa using hfix.2.2.2.2.2.2
    have hlt1 : ∀ x ∈ rest, x < (Graph.dec_neighbor gb f).active_neighbors.length := by
      intro x hx
      rw [hlen1]
      exact hlt x (List.mem_cons_of_mem _ hx)
    simp only [List.foldl_cons]
    rw [ih (Graph.dec_neighbor gb f) hlt1 i, hact1, hstep.1 i]
    by_cases hia : gb.is_active.getD i false = true
    · rw [if_pos hia, if_pos hia]
      by_cases hif : i = f
      · subst hif
        rw [if_pos ⟨rfl, hia⟩, List.count_cons_self]
        omega
      · rw [if_neg (fun hc => hif hc.1), List.count_cons_of_ne (fun hc => hif hc)]
    · rw [if_neg hia, if_neg hia]
      by_cases hif : i = f
      · subst hif
        rw [if_neg (fun hc => hia hc.2)]
      · rw [if_neg (fun hc => hif hc.1)]

theorem decLoop_cands (l : List Nat) : ∀ (gb : Graph),
    (∀ x ∈ l, x < gb.active_neighbors.length) → ∀ i,
    (i ∈ (l.foldl Graph.dec_neighbor gb).execution_candidates ↔
      (i ∈ gb.execution_candidates ∨
        (gb.is_active.getD i false = true ∧ 1 ≤ l.count i ∧
          gb.active_neighbors.getD i 0 ≤ l.count i))) := by
  induction l with
  | nil =>
    intro gb _ i
    simp
  | cons f rest ih =>
    intro gb hlt i
    have hf := hlt f (List.mem_cons_self f rest)
    have hstep := dec_neighbor_spec gb f hf
    have hfix := decLoop_fixed [f] gb
    have hact1 : (Graph.dec_neighbor gb f).is_active = gb.is_active := by
      simpa using hfix.2.2.2.1
    have hlen1 : (Graph.dec_neighbor gb f).active_neighbors.length =
        gb.active_neighbors.length := by simpa using hfix.2.2.2.2.2.2
    have hlt1 : ∀ x ∈ rest, x < (Graph.dec_neighbor gb f).active_neighbors.length := by
      intro x hx
      rw [hlen1]
      exact hlt x (List.mem_cons_of_mem _ hx)
    simp only [List.foldl_cons]
    rw [ih (Graph.dec_neighbor gb f) hlt1 i, hact1, hstep.2 i, hstep.1 i]
    by_cases hif : i = f
    · subst hif
      rw [List.count_cons_self]
      by_cases hia : gb.is_active.getD i false = true
      · rw [if_pos ⟨rfl, hia⟩]
        constructor
        · rintro ((hc | ⟨_, _, hz⟩) | ⟨_, h1, h2⟩)
          · exact Or.inl hc
          · exact Or.inr ⟨hia, by omega, by omega⟩
          · exact Or.inr ⟨hia, by omega, by omega⟩
        · rintro (hc | ⟨_, _, h2⟩)
          · exact Or.inl (Or.inl hc)
          · by_cases hz : gb.active_neighbors.getD i 0 ≤ 1
            · exact Or.inl (Or.inr ⟨rfl, hia, by omega⟩)
            · exact Or.inr ⟨hia, by omega, by omega⟩
      · rw [if_neg (fun hc => hia hc.2)]
        constructor
        · rintro ((hc | ⟨_, ha, _⟩) | ⟨ha, _⟩)
          · exact Or.inl hc
          · exact absurd ha hia
          · exact absurd ha hia
        · rintro (hc | ⟨ha, _⟩)
          · exact Or.inl (Or.inl hc)
          · exact absurd ha hia
    · rw [List.count_cons_of_ne (fun hc => hif hc), if_neg (fun hc => hif hc.1)]
      constructor
      · rintro ((hc | ⟨he, _⟩) | hr)
        · exact Or.inl hc
        · exact absurd he hif
        · exact Or.inr hr
      · rintro (hc | hr)
        · exact Or.inl (Or.inl hc)
        · exact Or.inr hr

theorem incLoop_an (l : List Nat) : ∀ (gb : Graph),
    (∀ x ∈ l, x < gb.active_neighbors.length) → ∀ i,
    (l.foldl Graph.inc_neighbor gb).active_neighbors.getD i 0 =
      (if gb.is_active.getD i false = true
       then gb.active_neighbors.getD i 0 + l.count i
       else gb.active_neighbors.getD i 0) := by
  induction l with
  | nil =>
    intro gb _ i
    simp
  | cons f rest ih =>
    intro gb hlt i
    have hf := hlt f (List.mem_cons_self f rest)
    have hstep := inc_neighbor_spec gb f hf
    have hfix := incLoop_fixed [f] gb
    have hact1 : (Graph.inc_neighbor gb f).is_active = gb.is_active := by
      simpa using hfix.2.2.2.1
    have hlen1 : (Graph.inc_neighbor gb f).active_neighbors.length =
        gb.active_neighbors.length := by simpa using hfix.2.2.2.2.2.2
    have hlt1 : ∀ x ∈ rest, x < (Graph.inc_neighbor gb f).active_neighbors.length := by
      intro x hx
      rw [hlen1]
      exact hlt x (List.mem_cons_of_mem _ hx)
    simp only [List.foldl_cons]
    rw [ih (Graph.inc_neighbor gb f) hlt1 i, hact1, hstep.1 i]
    by_cases hia : gb.is_active.getD i false = true
    · rw [if_pos hia, if_pos hia]
      by_cases hif : i = f
      · subst hif
        rw [if_pos ⟨rfl, hia⟩, List.count_cons_self]
        omega
      · rw [if_neg (fun hc => hif hc.1), List.count_cons_of_ne (fun hc => hif hc)]
    · rw [if_neg hia, if_neg hia]
      by_cases hif : i = f
      · subst hif
        rw [if_neg (fun hc => hia hc.2)]
      · rw [if_neg (fun hc => hif hc.1)]

theorem incLoop_cands (l : List Nat) : ∀ (gb : Graph),
    (∀ x ∈ l, x < gb.active_neighbors.length) → ∀ i,
    (i ∈ (l.foldl Graph.inc_neighbor gb).execution_candidates ↔
      (i ∈ gb.execution_candidates ∧
        ¬(gb.is_active.getD i false = true ∧ 1 ≤ l.count i ∧
          gb.active_neighbors.getD i 0 = 0))) := by
  induction l with
  | nil =>
    intro gb _ i
    simp
  | cons f rest ih =>
    intro gb hlt i
    have hf := hlt f (List.mem_cons_self f rest)
    have hstep := inc_neighbor_spec gb f hf
    have hfix := incLoop_fixed [f] gb
    have hact1 : (Graph.inc_neighbor gb f).is_active = gb.is_active := by
      simpa using hfix.2.2.2.1
    have hlen1 : (Graph.inc_neighbor gb f).active_neighbors.length =
        gb.active_neighbors.length := by simpa using hfix.2.2.2.2.2.2
    have hlt1 : ∀ x ∈ rest, x < (Graph.inc_neighbor gb f).active_neighbors.length := by
      intro x hx
      rw [hlen1]
      exact hlt x (List.mem_cons_of_mem _ hx)
    simp only [List.foldl_cons]
    rw [ih (Graph.inc_neighbor gb f) hlt1 i, hact1, hstep.2 i, hstep.1 i]
    by_cases hif : i = f
    · subst hif
      rw [List.count_cons_self]
      by_cases hia : gb.is_active.getD i false = true
      · rw [if_pos ⟨rfl, hia⟩]
        constructor
        · rintro ⟨⟨hc, hno⟩, _⟩
          refine ⟨hc, ?_⟩
          rintro ⟨_, _, hz⟩
          exact hno ⟨rfl, hia, hz⟩
        · rintro ⟨hc, hno⟩
          refine ⟨⟨hc, ?_⟩, ?_⟩
          · rintro ⟨_, _, hz⟩
            exact hno ⟨hia, by omega, hz⟩
          · rintro ⟨_, _, hz⟩
            omega
      · rw [if_neg (fun hc => hia hc.2)]
        constructor
        · rintro ⟨⟨hc, _⟩, _⟩
          exact ⟨hc, fun hcc => hia hcc.1⟩
        · rintro ⟨hc, _⟩
          exact ⟨⟨hc, fun hcc => hia hcc.2.1⟩, fun hcc => hia hcc.1⟩
    · rw [List.count_cons_of_ne (fun hc => hif hc), if_neg (fun hc => hif hc.1)]
      constructor
      · rintro ⟨⟨hc, _⟩, hno⟩
        exact ⟨hc, hno⟩
      · rintro ⟨hc, hno⟩
        exact ⟨⟨hc, fun hcc => hif hcc.1⟩, hno⟩

theorem remove_node_spec (g : Graph) (id : Nat) (hwf : g.Wf)
    (hid : id ∈ g.execution_candidates) :
    (g.remove_node id).label_to_node = g.label_to_node ∧
    (g.remove_node id).instructions = g.instructions ∧
    (g.remove_node id).rev_edges = g.rev_edges ∧
    (g.remove_node id).is_active = g.is_active.set id false ∧
    (g.remove_node id).active_fence_nodes = g.active_fence_nodes.erase id ∧
    (g.remove_node id).execution_stack = id :: g.execution_stack ∧
    (g.remove_node id).active_neighbors.length = g.active_neighbors.length ∧
    (∀ i, (g.remove_node id).active_neighbors.getD i 0 =
      (if i ≠ id ∧ g.is_active.getD i false = true
       then g.active_neighbors.getD i 0 - (g.rev_edges.getD id []).count i
       else g.active_neighbors.getD i 0)) ∧
    (∀ i, i ∈ (g.remove_node id).execution_candidates ↔
      ((i ∈ g.execution_candidates ∧ i ≠ id) ∨
        (i ≠ id ∧ g.is_active.getD i false = true ∧
          1 ≤ (g.rev_edges.getD id []).count i ∧
          g.active_neighbors.getD i 0 ≤ (g.rev_edges.getD id []).count i))) := by
  obtain ⟨hlen, hedges, hcand, hcount, hfence, hstack, hord, hids, hlabels⟩ := hwf
  obtain ⟨hre_len, han_len, hia_len⟩ := hlen
  have hidn : id < g.n := Finset.mem_range.mp (hcand.1 hid)
  obtain ⟨hact, han0⟩ := (hcand.2 id (Finset.mem_range.mpr hidn)).mp hid
  have hfalse : ¬(g.is_active.getD id false = false) := by rw [hact]; simp
  have hid_alen : id < g.is_active.length := by omega
  set d := g.rev_edges.getD id [] with hd
  set g1 : Graph :=
    { g with
      active_fence_nodes := g.active_fence_nodes.erase id
      execution_stack := id :: g.execution_stack
      is_active := g.is_active.set id false
      execution_candidates := g.execution_candidates.erase id } with hg1
  have hred : g.remove_node id = d.foldl Graph.dec_neighbor g1 := by
    unfold Graph.remove_node
    rw [if_neg hfalse]
  have hg1act : ∀ i, g1.is_active.getD i false =
      (if i = id then false else g.is_active.getD i false) := by
    intro i
    by_cases hii : i = id
    · subst hii
      rw [if_pos rfl]
      exact getD_set_eq _ _ _ _ hid_alen
    · rw [if_neg hii]
      exact getD_set_ne _ _ _ (Ne.symm hii)
  have hg1an : g1.active_neighbors = g.active_neighbors := rfl
  have hdlt : ∀ x ∈ d, x < g1.active_neighbors.length := by
    intro x hx
    have := hedges id (Finset.mem_range.mpr hidn) x hx
    show x < g.active_neighbors.length
    omega
  have hfix := decLoop_fixed d g1
  rw [hred]
  refine ⟨hfix.1, hfix.2.1, hfix.2.2.1, hfix.2.2.2.1, hfix.2.2.2.2.1,
    hfix.2.2.2.2.2.1, ?_, ?_, ?_⟩
  · show (d.foldl Graph.dec_neighbor g1).active_neighbors.length =
      g.active_neighbors.length
    exact hfix.2.2.2.2.2.2
  · intro i
    rw [decLoop_an d g1 hdlt i, hg1an, hg1act i]
    by_cases hii : i = id
    · rw [if_pos hii]
      rw [if_neg (show ¬((false : Bool) = true) by simp)]
      rw [if_neg (fun hc => hc.1 hii)]
    · rw [if_neg hii]
      by_cases hia : g.is_active.getD i false = true
      · rw [if_pos hia, if_pos ⟨hii, hia⟩]
      · rw [if_neg hia, if_neg (fun hc => hia hc.2)]
  · intro i
    rw [decLoop_cands d g1 hdlt i, hg1an, hg1act i]
    have hg1cand : ∀ k, k ∈ g1.execution_candidates ↔
        (k ∈ g.execution_candidates ∧ k ≠ id) := by
      intro k
      show k ∈ g.execution_candidates.erase id ↔ _
      rw [Finset.mem_erase]
      tauto
    rw [hg1cand i]
    by_cases hii : i = id
    · rw [if_pos hii]
      constructor
      · rintro (⟨_, hne⟩ | ⟨hfa, _⟩)
        · exact absurd hii hne
        · exact absurd hfa (by simp)
      · rintro (⟨_, hne⟩ | ⟨hne, _⟩)
        · exact absurd hii hne
        · exact absurd hii hne
    · rw [if_neg hii]
      constructor
      · rintro (⟨hc, hne⟩ | ⟨hia, h1, h2⟩)
        · exact Or.inl ⟨hc, hne⟩
        · exact Or.inr ⟨hii, hia, h1, h2⟩
      · rintro (⟨hc, hne⟩ | ⟨_, hia, h1, h2⟩)
        · exact Or.inl ⟨hc, hne⟩
        · exact Or.inr ⟨hia, h1, h2⟩

theorem wf_remove_node (g : Graph) (id : Nat) (hwf : g.Wf)
    (hpre : id ∈ g.execution_candidates ∨ g.is_active.getD id false = false) :
    (g.remove_node id).Wf := by
  rcases hpre with hid | hinact
  swap
  · have hsame : g.remove_node id = g := by
      unfold Graph.remove_node
      rw [if_pos hinact]
    rw [hsame]
    exact hwf
  have spec := remove_node_spec g id hwf hid
  obtain ⟨hlen, hedges, hcand, hcount, hfence, hstack, hord, hids, hlabels⟩ := hwf
  obtain ⟨hre_len, han_len, hia_len⟩ := hlen
  have hidn : id < g.n := Finset.mem_range.mp (hcand.1 hid)
  obtain ⟨hact, han0⟩ := (hcand.2 id (Finset.mem_range.mpr hidn)).mp hid
  have hid_alen : id < g.is_active.length := by omega
  have hge : ∀ i, i ∈ Finset.range g.n →
      (g.rev_edges.getD id []).count i ≤ g.active_neighbors.getD i 0 := by
    intro i hi
    rw [hcount i hi]
    unfold Graph.activeCount
    exact activeCountOn_le_term hidn hact
  have hno_inactive_d : ∀ i ∈ g.rev_edges.getD id [],
      g.is_active.getD i false = true := by
    intro i hi
    by_contra hc
    have hin : i < g.n := hedges id (Finset.mem_range.mpr hidn) i hi
    have hia : g.is_active.getD i false = false := by
      cases h : g.is_active.getD i false
      · rfl
      · exact absurd h hc
    have himem : i ∈ g.execution_stack :=
      (hstack.2.2 i (Finset.mem_range.mpr hin)).mp hia
    have hidmem : id ∈ g.execution_stack := stackOrdOn_mem hord himem hidn hi
    have : g.is_active.getD id false = false :=
      (hstack.2.2 id (Finset.mem_range.mpr hidn)).mpr hidmem
    rw [hact] at this
    exact absurd this (by simp)
  have hnodewait : ∀ j, j < g.n → id ∈ g.rev_edges.getD j [] →
      g.is_active.getD j false = false := by
    intro j hjn hjm
    by_contra hc
    have hja : g.is_active.getD j false = true := by
      cases h : g.is_active.getD j false
      · exact absurd h hc
      · rfl
    have h1 := activeCountOn_pos hjn hja hjm
    have hcc := hcount id (Finset.mem_range.mpr hidn)
    unfold Graph.activeCount at hcc
    omega
  have hn' : (g.remove_node id).n = g.n := by
    unfold Graph.n
    rw [spec.2.1]
  have hact' : ∀ i, (g.remove_node id).is_active.getD i false =
      (if i = id then false else g.is_active.getD i false) := by
    intro i
    rw [spec.2.2.2.1]
    by_cases hii : i = id
    · subst hii
      rw [if_pos rfl]
      exact getD_set_eq _ _ _ _ hid_alen
    · rw [if_neg hii]
      exact getD_set_ne _ _ _ (Ne.symm hii)
  have han' := spec.2.2.2.2.2.2.2.1
  have hcands' := spec.2.2.2.2.2.2.2.2
  refine ⟨⟨?_, ?_, ?_⟩, ?_, ⟨?_, ?_⟩, ?_, ⟨?_, ?_⟩, ⟨?_, ?_, ?_⟩, ?_, ?_, ?_⟩
  · rw [spec.2.2.1, hn']
    exact hre_len
  · rw [hn']
    have := spec.2.2.2.2.2.2.1
    omega
  · rw [spec.2.2.2.1, hn']
    rw [List.length_set]
    exact hia_len
  · intro j hj x hx
    rw [hn'] at hj ⊢
    rw [spec.2.2.1] at hx
    exact hedges j hj x hx
  · intro i hi
    rw [hcands' i] at hi
    rw [hn']
    rcases hi with ⟨hc, _⟩ | ⟨_, _, h1, _⟩
    · exact hcand.1 hc
    · exact Finset.mem_range.mpr
        (hedges id (Finset.mem_range.mpr hidn) i (List.one_le_count_iff.mp h1))
  · intro i hi
    rw [hn'] at hi
    rw [hcands' i, hact' i, han' i]
    have hgei := hge i hi
    have hmemc := hcand.2 i hi
    by_cases hii : i = id
    · rw [if_pos hii]
      constructor
      · rintro (⟨_, hne⟩ | ⟨hne, _⟩)
        · exact absurd hii hne
        · exact absurd hii hne
      · rintro ⟨hfa, _⟩
        exact absurd hfa (by simp)
    · rw [if_neg hii]
      by_cases hia : g.is_active.getD i false = true
      · rw [if_pos ⟨hii, hia⟩]
        constructor
        · rintro (⟨hc, _⟩ | ⟨_, _, h1, h2⟩)
          · have h0 := (hmemc.mp hc).2
            exact ⟨hia, by omega⟩
          · exact ⟨hia, by omega⟩
        · rintro ⟨_, hz⟩
          by_cases hc0 : 1 ≤ (g.rev_edges.getD id []).count i
          · exact Or.inr ⟨hii, hia, hc0, by omega⟩
          · have h0 : g.active_neighbors.getD i 0 = 0 := by omega
            exact Or.inl ⟨hmemc.mpr ⟨hia, h0⟩, hii⟩
      · rw [if_neg (fun hc => hia hc.2)]
        constructor
        · rintro (⟨hc, _⟩ | ⟨_, ha, _, _⟩)
          · exact absurd ((hmemc.mp hc)).1 hia
          · exact absurd ha hia
        · rintro ⟨ha, _⟩
          exact absurd ha hia
  · intro i hi
    rw [hn'] at hi
    rw [han' i]
    show _ = (g.remove_node id).activeCount i
    unfold Graph.activeCount
    rw [hn', spec.2.2.1, spec.2.2.2.1]
    have hsetf := @activeCountOn_set_false g.n g.is_active g.rev_edges id i hidn hact
    have hcnt := hcount i hi
    unfold Graph.activeCount at hcnt
    by_cases hii : i = id
    · rw [if_neg (fun hc => hc.1 hii)]
      subst hii
      omega
    · by_cases hia : g.is_active.getD i false = true
      · rw [if_pos ⟨hii, hia⟩]
        omega
      · rw [if_neg (fun hc => hia hc.2)]
        have hcnt0 : (g.rev_edges.getD id []).count i = 0 := by
          refine List.count_eq_zero_of_not_mem (fun hc => ?_)
          exact absurd (hno_inactive_d i hc) hia
        omega
  · intro i hi
    rw [spec.2.2.2.2.1] at hi
    rw [hn']
    exact hfence.1 (Finset.mem_erase.mp hi).2
  · intro i hi
    rw [hn'] at hi
    rw [spec.2.2.2.2.1, spec.2.1, hact' i, Finset.mem_erase]
    by_cases hii : i = id
    · subst hii
      simp
    · rw [if_neg hii]
      rw [hfence.2 i hi]
      tauto
  · intro i hi
    rw [spec.2.2.2.2.2.1] at hi
    rw [hn']
    rcases List.mem_cons.mp hi with rfl | hi'
    · exact hidn
    · exact hstack.1 i hi'
  · rw [spec.2.2.2.2.2.1]
    refine List.nodup_cons.mpr ⟨?_, hstack.2.1⟩
    intro hc
    have : g.is_active.getD id false = false :=
      (hstack.2.2 id (Finset.mem_range.mpr hidn)).mpr hc
    rw [hact] at this
    exact absurd this (by simp)
  · intro i hi
    rw [hn'] at hi
    rw [spec.2.2.2.2.2.1, hact' i]
    by_cases hii : i = id
    · subst hii
      simp
    · rw [if_neg hii]
      rw [hstack.2.2 i hi]
      simp [hii]
  · show stackOrdOn (g.remove_node id).n (g.remove_node id).rev_edges
      (g.remove_node id).execution_stack
    rw [hn', spec.2.2.1, spec.2.2.2.2.2.1]
    refine ⟨?_, hord⟩
    intro j hj hjm
    have hjn := Finset.mem_range.mp hj
    have := hnodewait j hjn hjm
    exact (hstack.2.2 j hj).mp this
  · intro i hi
    rw [hn'] at hi
    rw [spec.2.1]
    exact hids i hi
  · intro p hp
    rw [spec.1] at hp
    rw [hn']
    exact hlabels p hp

theorem graph_ext (a b : Graph)
    (h1 : a.label_to_node = b.label_to_node) (h2 : a.instructions = b.instructions)
    (h3 : a.rev_edges = b.rev_edges) (h4 : a.active_neighbors = b.active_neighbors)
    (h5 : a.is_active = b.is_active)
    (h6 : a.active_fence_nodes = b.active_fence_nodes)
    (h7 : a.execution_stack = b.execution_stack)
    (h8 : a.execution_candidates = b.execution_candidates) : a = b := by
  cases a
  cases b
  simp_all

theorem restore_node_cons (g : Graph) (id : Nat) (rest : List Nat)
    (h : g.execution_stack = id :: rest) :
    g.restore_node = some (g.restore_apply id rest) := by
  unfold Graph.restore_node
  rw [h]

theorem restore_apply_spec (g : Graph) (id : Nat) (rest : List Nat)
    (hid_alen : id < g.is_active.length)
    (hdlt : ∀ x ∈ g.rev_edges.getD id [], x < g.active_neighbors.length) :
    (g.restore_apply id rest).2 =
      (g.instructions.getD id default).instruction.label ∧
    (g.restore_apply id rest).1.label_to_node = g.label_to_node ∧
    (g.restore_apply id rest).1.instructions = g.instructions ∧
    (g.restore_apply id rest).1.rev_edges = g.rev_edges ∧
    (g.restore_apply id rest).1.is_active = g.is_active.set id true ∧
    (g.restore_apply id rest).1.active_fence_nodes =
      (if (g.instructions.getD id default).instruction.is_fence then
        insert id g.active_fence_nodes else g.active_fence_nodes) ∧
    (g.restore_apply id rest).1.execution_stack = rest ∧
    (g.restore_apply id rest).1.active_neighbors.length =
      g.active_neighbors.length ∧
    (∀ i, (g.restore_apply id rest).1.active_neighbors.getD i 0 =
      (if (if i = id then true else g.is_active.getD i false) = true
       then g.active_neighbors.getD i 0 + (g.rev_edges.getD id []).count i
       else g.active_neighbors.getD i 0)) ∧
    (∀ i, i ∈ (g.restore_apply id rest).1.execution_candidates ↔
      (i = id ∨ (i ∈ g.execution_candidates ∧
        ¬((if i = id then true else g.is_active.getD i false) = true ∧
          1 ≤ (g.rev_edges.getD id []).count i ∧
          g.active_neighbors.getD i 0 = 0)))) := by
  set d := g.rev_edges.getD id [] with hd
  set g1 : Graph :=
    { g with
      execution_stack := rest
      is_active := g.is_active.set id true
      active_fence_nodes :=
        if (g.instructions.getD id default).instruction.is_fence then
          insert id g.active_fence_nodes
        else g.active_fence_nodes } with hg1
  set g2 := d.foldl Graph.inc_neighbor g1 with hg2
  have hred : g.restore_apply id rest =
      ({ g2 with execution_candidates := insert id g2.execution_candidates },
       (g.instructions.getD id default).instruction.label) := rfl
  have hg1act : ∀ i, g1.is_active.getD i false =
      (if i = id then true else g.is_active.getD i false) := by
    intro i
    by_cases hii : i = id
    · subst hii
      rw [if_pos rfl]
      exact getD_set_eq _ _ _ _ hid_alen
    · rw [if_neg hii]
      exact getD_set_ne _ _ _ (Ne.symm hii)
  have hfix := incLoop_fixed d g1
  have hdlt1 : ∀ x ∈ d, x < g1.active_neighbors.length := hdlt
  rw [hred]
  refine ⟨rfl, hfix.1, hfix.2.1, hfix.2.2.1, hfix.2.2.2.1, hfix.2.2.2.2.1,
    hfix.2.2.2.2.2.1, hfix.2.2.2.2.2.2, ?_, ?_⟩
  · intro i
    rw [hg2, incLoop_an d g1 hdlt1 i, hg1act i]
  · intro i
    show i ∈ insert id g2.execution_candidates ↔ _
    rw [Finset.mem_insert, hg2, incLoop_cands d g1 hdlt1 i, hg1act i]

theorem restore_remove (g : Graph) (id : Nat) (hwf : g.Wf)
    (hid : id ∈ g.execution_candidates) :
    (g.remove_node id).restore_node =
      some (g, (g.instructions.getD id default).instruction.label) := by
  have spec := remove_node_spec g id hwf hid
  obtain ⟨hlen, hedges, hcand, hcount, hfence, hstack, hord, hids, hlabels⟩ := hwf
  obtain ⟨hre_len, han_len, hia_len⟩ := hlen
  have hidn : id < g.n := Finset.mem_range.mp (hcand.1 hid)
  obtain ⟨hact, han0⟩ := (hcand.2 id (Finset.mem_range.mpr hidn)).mp hid
  set d := g.rev_edges.getD id [] with hd
  have hid_alen : id < g.is_active.length := by omega
  have hgact' : ∀ i, (g.remove_node id).is_active.getD i false =
      (if i = id then false else g.is_active.getD i false) := by
    intro i
    rw [spec.2.2.2.1]
    by_cases hii : i = id
    · subst hii
      rw [if_pos rfl]
      exact getD_set_eq _ _ _ _ hid_alen
    · rw [if_neg hii]
      exact getD_set_ne _ _ _ (Ne.symm hii)
  rw [restore_node_cons (g.remove_node id) id g.execution_stack spec.2.2.2.2.2.1]
  have hid_alen' : id < (g.remove_node id).is_active.length := by
    rw [spec.2.2.2.1, List.length_set]
    exact hid_alen
  have hd'eq : (g.remove_node id).rev_edges.getD id [] = d := by
    rw [spec.2.2.1]
  have hdlt' : ∀ x ∈ (g.remove_node id).rev_edges.getD id [],
      x < (g.remove_node id).active_neighbors.length := by
    intro x hx
    rw [hd'eq] at hx
    rw [spec.2.2.2.2.2.2.1]
    have := hedges id (Finset.mem_range.mpr hidn) x hx
    omega
  have rspec := restore_apply_spec (g.remove_node id) id g.execution_stack
    hid_alen' hdlt'
  have hge : ∀ i, i ∈ Finset.range g.n →
      d.count i ≤ g.active_neighbors.getD i 0 := by
    intro i hi
    rw [hcount i hi]
    unfold Graph.activeCount
    exact activeCountOn_le_term hidn hact
  have hid_not_d : id ∉ d := by
    intro hc
    have hcc := hcount id (Finset.mem_range.mpr hidn)
    unfold Graph.activeCount at hcc
    have := activeCountOn_pos hidn hact hc
    omega
  have hlabel2 : ((g.remove_node id).instructions.getD id default) =
      g.instructions.getD id default := by rw [spec.2.1]
  refine congrArg some (Prod.ext ?_ ?_)
  swap
  · show ((g.remove_node id).restore_apply id g.execution_stack).2 =
      (g.instructions.getD id default).instruction.label
    rw [rspec.1, hlabel2]
  show ((g.remove_node id).restore_apply id g.execution_stack).1 = g
  refine graph_ext _ g ?_ ?_ ?_ ?_ ?_ ?_ ?_ ?_
  · rw [rspec.2.1, spec.1]
  · rw [rspec.2.2.1, spec.2.1]
  · rw [rspec.2.2.2.1, spec.2.2.1]
  · refine list_ext_getD _ _ 0 ?_ ?_
    · rw [rspec.2.2.2.2.2.2.2.1, spec.2.2.2.2.2.2.1]
    · intro i
      rw [rspec.2.2.2.2.2.2.2.2.1 i, hd'eq, hgact' i, spec.2.2.2.2.2.2.2.1 i]
      by_cases hii : i = id
      · have hc1 : (if i = id then true else (if i = id then false else
            g.is_active.getD i false)) = true := if_pos hii
        have hcnt0 : d.count i = 0 := by
          rw [hii]
          exact List.count_eq_zero_of_not_mem hid_not_d
        rw [hc1, if_pos rfl, if_neg (fun hc => hc.1 hii), hcnt0]
        omega
      · have hc1 : (if i = id then true else (if i = id then false else
            g.is_active.getD i false)) = g.is_active.getD i false := by
          rw [if_neg hii, if_neg hii]
        rw [hc1]
        by_cases hia : g.is_active.getD i false = true
        · rw [if_pos hia, if_pos ⟨hii, hia⟩]
          have hin : i < g.n := by
            by_contra hc
            rw [List.getD_eq_default _ _ (by omega : g.is_active.length ≤ i)] at hia
            exact absurd hia (by simp)
          have hgei := hge i (Finset.mem_range.mpr hin)
          omega
        · rw [if_neg hia, if_neg (fun hc => hia hc.2)]
  · rw [rspec.2.2.2.2.1, spec.2.2.2.1, List.set_set]
    exact set_getD_cancel _ _ _ false hid_alen hact
  · rw [rspec.2.2.2.2.2.1, hlabel2, spec.2.2.2.2.1]
    by_cases hf : (g.instructions.getD id default).instruction.is_fence = true
    · rw [if_pos hf]
      rw [Finset.insert_erase ((hfence.2 id (Finset.mem_range.mpr hidn)).mpr ⟨hact, hf⟩)]
    · rw [if_neg hf]
      refine Finset.erase_eq_of_not_mem ?_
      intro hc
      exact hf ((hfence.2 id (Finset.mem_range.mpr hidn)).mp hc).2
  · exact rspec.2.2.2.2.2.2.1
  · refine Finset.ext (fun i => ?_)
    rw [rspec.2.2.2.2.2.2.2.2.2 i, hd'eq, hgact' i,
      spec.2.2.2.2.2.2.2.2 i, spec.2.2.2.2.2.2.2.1 i]
    by_cases hii : i = id
    · simp [hii, hid]
    · have hc1 : (if i = id then true else (if i = id then false else
          g.is_active.getD i false)) = g.is_active.getD i false := by
        rw [if_neg hii, if_neg hii]
      rw [hc1]
      by_cases hia : g.is_active.getD i false = true
      · rw [if_pos ⟨hii, hia⟩]
        have hin : i < g.n := by
          by_contra hc
          rw [List.getD_eq_default _ _ (by omega : g.is_active.length ≤ i)] at hia
          exact absurd hia (by simp)
        have hgei := hge i (Finset.mem_range.mpr hin)
        have hmemc := hcand.2 i (Finset.mem_range.mpr hin)
        constructor
        · rintro (he | ⟨(⟨hc, _⟩ | ⟨_, _, h1, h2⟩), hno⟩)
          · exact absurd he hii
          · exact hc
          · exact absurd ⟨hia, h1, by omega⟩ hno
        · intro hc
          have h0 := (hmemc.mp hc).2
          refine Or.inr ⟨Or.inl ⟨hc, hii⟩, ?_⟩
          rintro ⟨_, h1, _⟩
          omega
      · rw [if_neg (fun hc => hia hc.2)]
        constructor
        · rintro (he | ⟨(⟨hc, _⟩ | ⟨_, ha, _, _⟩), _⟩)
          · exact absurd he hii
          · exact hc
          · exact absurd ha hia
        · intro hc
          have hin : i < g.n := Finset.mem_range.mp (hcand.1 hc)
          exact absurd ((hcand.2 i (Finset.mem_range.mpr hin)).mp hc).1 hia

theorem wf_restore_node (g g' : Graph) (lbl : Option String) (hwf : g.Wf)
    (h : g.restore_node = some (g', lbl)) : g'.Wf := by
  obtain ⟨hlen, hedges, hcand, hcount, hfence, hstack, hord, hids, hlabels⟩ := hwf
  obtain ⟨hre_len, han_len, hia_len⟩ := hlen
  cases hstk : g.execution_stack with
  | nil =>
    unfold Graph.restore_node at h
    rw [hstk] at h
    exact absurd h (by simp)
  | cons t rest =>
    rw [restore_node_cons g t rest hstk] at h
    have hg' : g' = (g.restore_apply t rest).1 := by
      have := congrArg Prod.fst (Option.some_injective _ h)
      exact this.symm
    have hmem_t : t ∈ g.execution_stack := by rw [hstk]; exact List.mem_cons_self t rest
    have htn : t < g.n := hstack.1 t hmem_t
    have htina : g.is_active.getD t false = false :=
      (hstack.2.2 t (Finset.mem_range.mpr htn)).mpr hmem_t
    have hord' : stackOrdOn g.n g.rev_edges (t :: rest) := by
      have := hord
      unfold Graph.stackOrd at this
      rwa [hstk] at this
    have hnd' : (t :: rest).Nodup := by
      have := hstack.2.1
      rwa [hstk] at this
    have htnotrest : t ∉ rest := (List.nodup_cons.mp hnd').1
    set d := g.rev_edges.getD t [] with hd
    have htnotd : t ∉ d := by
      intro hc
      exact htnotrest (hord'.1 t (Finset.mem_range.mpr htn) hc)
    have hwaiters_inactive : ∀ j, j < g.n → t ∈ g.rev_edges.getD j [] →
        g.is_active.getD j false = false := by
      intro j hjn hjm
      have hjrest : j ∈ rest := hord'.1 j (Finset.mem_range.mpr hjn) hjm
      have : j ∈ g.execution_stack := by rw [hstk]; exact List.mem_cons_of_mem _ hjrest
      exact (hstack.2.2 j (Finset.mem_range.mpr hjn)).mpr this
    have hant0 : g.active_neighbors.getD t 0 = 0 := by
      rw [hcount t (Finset.mem_range.mpr htn)]
      unfold Graph.activeCount activeCountOn
      refine Finset.sum_eq_zero (fun j hj => ?_)
      by_cases hja : g.is_active.getD j false = true
      · rw [if_pos hja]
        refine List.count_eq_zero_of_not_mem (fun hc => ?_)
        have := hwaiters_inactive j (Finset.mem_range.mp hj) hc
        rw [hja] at this
        exact absurd this (by simp)
      · rw [if_neg hja]
    have hd_active : ∀ i ∈ d, g.is_active.getD i false = true := by
      intro i hi
      by_contra hc
      have hin : i < g.n := hedges t (Finset.mem_range.mpr htn) i hi
      have hia : g.is_active.getD i false = false := by
        cases hcc : g.is_active.getD i false
        · rfl
        · exact absurd hcc hc
      have himem : i ∈ g.execution_stack :=
        (hstack.2.2 i (Finset.mem_range.mpr hin)).mp hia
      rw [hstk] at himem
      rcases List.mem_cons.mp himem with rfl | hirest
      · exact htnotd hi
      · exact htnotrest (stackOrdOn_mem hord'.2 hirest htn hi)
    have ht_alen : t < g.is_active.length := by omega
    have hdlt : ∀ x ∈ d, x < g.active_neighbors.length := by
      intro x hx
      have := hedges t (Finset.mem_range.mpr htn) x hx
      omega
    have rspec := restore_apply_spec g t rest ht_alen hdlt
    rw [hg']
    have hn' : (g.restore_apply t rest).1.n = g.n := by
      unfold Graph.n
      rw [rspec.2.2.1]
    have hact' : ∀ i, (g.restore_apply t rest).1.is_active.getD i false =
        (if i = t then true else g.is_active.getD i false) := by
      intro i
      rw [rspec.2.2.2.2.1]
      by_cases hii : i = t
      · subst hii
        rw [if_pos rfl]
        exact getD_set_eq _ _ _ _ ht_alen
      · rw [if_neg hii]
        exact getD_set_ne _ _ _ (Ne.symm hii)
    have han' := rspec.2.2.2.2.2.2.2.2.1
    have hcands' := rspec.2.2.2.2.2.2.2.2.2
    refine ⟨⟨?_, ?_, ?_⟩, ?_, ⟨?_, ?_⟩, ?_, ⟨?_, ?_⟩, ⟨?_, ?_, ?_⟩, ?_, ?_, ?_⟩
    · rw [rspec.2.2.2.1, hn']
      exact hre_len
    · rw [hn']
      have := rspec.2.2.2.2.2.2.2.1
      omega
    · rw [rspec.2.2.2.2.1, hn', List.length_set]
      exact hia_len
    · intro j hj x hx
      rw [hn'] at hj ⊢
      rw [rspec.2.2.2.1] at hx
      exact hedges j hj x hx
    · intro i hi
      rw [hcands' i] at hi
      rw [hn']
      rcases hi with rfl | ⟨hc, _⟩
      · exact Finset.mem_range.mpr htn
      · exact hcand.1 hc
    · intro i hi
      rw [hn'] at hi
      rw [hcands' i, hact' i, han' i, ← hd]
      by_cases hii : i = t
      · have hc1 : (if i = t then true else g.is_active.getD i false) = true :=
          if_pos hii
        have hcnt0 : d.count i = 0 := by
          rw [hii]
          exact List.count_eq_zero_of_not_mem htnotd
        rw [hc1, if_pos rfl, hcnt0]
        constructor
        · intro _
          refine ⟨rfl, ?_⟩
          rw [hii]
          omega
        · intro _
          exact Or.inl hii
      · have hc1 : (if i = t then true else g.is_active.getD i false) =
            g.is_active.getD i false := if_neg hii
        rw [hc1]
        have hmemc := hcand.2 i hi
        by_cases hia : g.is_active.getD i false = true
        · rw [if_pos hia]
          constructor
          · rintro (he | ⟨hc, hno⟩)
            · exact absurd he hii
            · have h0 := (hmemc.mp hc).2
              refine ⟨hia, ?_⟩
              by_cases hc0 : 1 ≤ d.count i
              · exact absurd ⟨hia, hc0, h0⟩ hno
              · omega
          · rintro ⟨_, hz⟩
            refine Or.inr ⟨hmemc.mpr ⟨hia, by omega⟩, ?_⟩
            rintro ⟨_, h1, _⟩
            omega
        · rw [if_neg hia]
          constructor
          · rintro (he | ⟨hc, _⟩)
            · exact absurd he hii
            · exact absurd ((hmemc.mp hc)).1 hia
          · rintro ⟨ha, _⟩
            exact absurd ha hia
    · intro i hi
      rw [hn'] at hi
      rw [han' i, ← hd]
      show _ = (g.restore_apply t rest).1.activeCount i
      unfold Graph.activeCount
      rw [hn', rspec.2.2.2.1, rspec.2.2.2.2.1]
      have hsett := @activeCountOn_set_true g.n g.is_active g.rev_edges t
        i htn ht_alen
      rw [htina, if_neg (show ¬((false : Bool) = true) by simp), ← hd] at hsett
      have hcnt := hcount i hi
      unfold Graph.activeCount at hcnt
      by_cases hii : i = t
      · have hc1 : (if i = t then true else g.is_active.getD i false) = true :=
          if_pos hii
        rw [hc1, if_pos rfl]
        omega
      · have hc1 : (if i = t then true else g.is_active.getD i false) =
            g.is_active.getD i false := if_neg hii
        rw [hc1]
        by_cases hia : g.is_active.getD i false = true
        · rw [if_pos hia]
          omega
        · rw [if_neg hia]
          have hcnt0 : d.count i = 0 := by
            refine List.count_eq_zero_of_not_mem (fun hc => ?_)
            exact absurd (hd_active i hc) hia
          omega
    · intro i hi
      rw [rspec.2.2.2.2.2.1] at hi
      rw [hn']
      by_cases hf : (g.instructions.getD t default).instruction.is_fence = true
      · rw [if_pos hf] at hi
        rcases Finset.mem_insert.mp hi with rfl | hi'
        · exact Finset.mem_range.mpr htn
        · exact hfence.1 hi'
      · rw [if_neg hf] at hi
        exact hfence.1 hi
    · intro i hi
      rw [hn'] at hi
      rw [rspec.2.2.2.2.2.1, rspec.2.2.1, hact' i]
      by_cases hii : i = t
      · subst hii
        rw [if_pos rfl]
        by_cases hf : (g.instructions.getD i default).instruction.is_fence = true
        · rw [if_pos hf]
          exact ⟨fun _ => ⟨rfl, hf⟩, fun _ => Finset.mem_insert_self i _⟩
        · rw [if_neg hf]
          constructor
          · intro hc
            have := ((hfence.2 i hi).mp hc).1
            rw [htina] at this
            exact absurd this (by simp)
          · rintro ⟨_, hff⟩
            exact absurd hff hf
      · rw [if_neg hii]
        by_cases hf : (g.instructions.getD t default).instruction.is_fence = true
        · rw [if_pos hf, Finset.mem_insert]
          rw [hfence.2 i hi]
          simp [hii]
        · rw [if_neg hf]
          exact hfence.2 i hi
    · intro i hi
      rw [rspec.2.2.2.2.2.2.1] at hi
      rw [hn']
      exact hstack.1 i (by rw [hstk]; exact List.mem_cons_of_mem _ hi)
    · rw [rspec.2.2.2.2.2.2.1]
      exact (List.nodup_cons.mp hnd').2
    · intro i hi
      rw [hn'] at hi
      rw [rspec.2.2.2.2.2.2.1, hact' i]
      by_cases hii : i = t
      · subst hii
        simp [htnotrest]
      · rw [if_neg hii]
        rw [hstack.2.2 i hi, hstk]
        simp [hii]
    · show stackOrdOn (g.restore_apply t rest).1.n
        (g.restore_apply t rest).1.rev_edges
        (g.restore_apply t rest).1.execution_stack
      rw [hn', rspec.2.2.2.1, rspec.2.2.2.2.2.2.1]
      exact hord'.2
    · intro i hi
      rw [hn'] at hi
      rw [rspec.2.2.1]
      exact hids i hi
    · intro p hp
      rw [rspec.2.1] at hp
      rw [hn']
      exact hlabels p hp

theorem insertA_mem {α β : Type} [DecidableEq α] {l : List (α × β)}
    {k : α} {v : β} {p : α × β} (hp : p ∈ insertA l k v) :
    p = (k, v) ∨ p ∈ l := by
  induction l with
  | nil =>
    simp [insertA] at hp
    exact Or.inl hp
  | cons q rest ih =>
    unfold insertA at hp
    by_cases hq : q.1 = k
    · rw [if_pos hq] at hp
      rcases List.mem_cons.mp hp with rfl | hp'
      · exact Or.inl rfl
      · exact Or.inr (List.mem_cons_of_mem _ hp')
    · rw [if_neg hq] at hp
      rcases List.mem_cons.mp hp with rfl | hp'
      · exact Or.inr (List.mem_cons_self _ _)
      · rcases ih hp' with h | h
        · exact Or.inl h
        · exact Or.inr (List.mem_cons_of_mem _ h)

theorem insertA_lookup {α β : Type} [DecidableEq α] [BEq α] [LawfulBEq α]
    (l : List (α × β)) (k : α) (v : β) :
    (insertA l k v).lookup k = some v := by
  induction l with
  | nil => simp [insertA, List.lookup]
  | cons q rest ih =>
    cases q with
    | mk qk qv =>
      unfold insertA
      by_cases hq : qk = k
      · rw [if_pos hq]
        simp [List.lookup]
      · rw [if_neg hq]
        have hne : (k == qk) = false := beq_eq_false_iff_ne.mpr (fun hc => hq hc.symm)
        simpa [List.lookup, hne] using ih

theorem activeCountOn_fresh {n : Nat} {act : List Bool} {re : List (List Nat)}
    (b : Bool) (hre : re.length = n)
    (hedges : ∀ j ∈ Finset.range n, ∀ x ∈ re.getD j [], x < n) :
    activeCountOn (n + 1) (act ++ [b]) (re ++ [[]]) n = 0 := by
  unfold activeCountOn
  refine Finset.sum_eq_zero (fun j hj => ?_)
  have hjn := Finset.mem_range.mp hj
  rw [getD_append_concat re ([] : List Nat) ([] : List Nat) j]
  by_cases hje : j = re.length
  · rw [if_pos hje]
    simp
  · rw [if_neg hje]
    have hjn' : j < n := by omega
    have hnm : n ∉ re.getD j [] :=
      fun hc => absurd (hedges j (Finset.mem_range.mpr hjn') n hc) (lt_irrefl n)
    by_cases hb : (act ++ [b]).getD j false = true
    · rw [if_pos hb, List.count_eq_zero_of_not_mem hnm]
    · rw [if_neg hb]

theorem wf_new : Graph.new.Wf := by decide

theorem wf_add_node (g : Graph) (tid : Nat) (ins : LabeledInstruction)
    (hwf : g.Wf) : (g.add_node tid ins).1.Wf := by
  obtain ⟨hlen, hedges, hcand, hcount, hfence, hstack, hord, hids, hlabels⟩ := hwf
  obtain ⟨hre_len, han_len, hia_len⟩ := hlen
  set g' := (g.add_node tid ins).1 with hg'
  have hnn : g.n = g.instructions.length := rfl
  have hinstr : g'.instructions = g.instructions ++ [⟨g.n, tid, ins⟩] := rfl
  have hre : g'.rev_edges = g.rev_edges ++ [[]] := rfl
  have han : g'.active_neighbors = g.active_neighbors ++ [0] := rfl
  have hact : g'.is_active = g.is_active ++ [true] := rfl
  have hstk : g'.execution_stack = g.execution_stack := rfl
  have hcands : g'.execution_candidates = insert g.n g.execution_candidates := rfl
  have hfen : g'.active_fence_nodes =
      (if ins.is_fence then insert g.n g.active_fence_nodes
       else g.active_fence_nodes) := rfl
  have hltn : g'.label_to_node =
      (match ins.label with
       | some l => insertA g.label_to_node l g.n
       | none => g.label_to_node) := rfl
  have hn1 : g'.n = g.n + 1 := by
    show g'.instructions.length = g.n + 1
    rw [hinstr, List.length_append]
    rfl
  have hactD : ∀ i, g'.is_active.getD i false =
      (if i = g.n then true else g.is_active.getD i false) := by
    intro i
    rw [hact, getD_append_concat, hia_len]
  have hreD : ∀ i, g'.rev_edges.getD i [] =
      (if i = g.n then [] else g.rev_edges.getD i []) := by
    intro i
    rw [hre, getD_append_concat, hre_len]
  have hanD : ∀ i, g'.active_neighbors.getD i 0 =
      (if i = g.n then 0 else g.active_neighbors.getD i 0) := by
    intro i
    rw [han, getD_append_concat, han_len]
  have hinstrD : ∀ i, g'.instructions.getD i default =
      (if i = g.n then (⟨g.n, tid, ins⟩ : Node)
       else g.instructions.getD i default) := by
    intro i
    rw [hinstr, getD_append_concat, ← hnn]
  refine ⟨⟨?_, ?_, ?_⟩, ?_, ⟨?_, ?_⟩, ?_, ⟨?_, ?_⟩, ⟨?_, ?_, ?_⟩, ?_, ?_, ?_⟩
  · show g'.rev_edges.length = g'.n
    rw [hre, hn1, List.length_append, hre_len]
    rfl
  · show g'.active_neighbors.length = g'.n
    rw [han, hn1, List.length_append, han_len]
    rfl
  · show g'.is_active.length = g'.n
    rw [hact, hn1, List.length_append, hia_len]
    rfl
  · intro j hj x hx
    rw [hn1] at hj ⊢
    rw [hreD j] at hx
    by_cases hjn : j = g.n
    · rw [if_pos hjn] at hx
      simp at hx
    · rw [if_neg hjn] at hx
      have hjlt : j < g.n := by
        have := Finset.mem_range.mp hj
        omega
      have := hedges j (Finset.mem_range.mpr hjlt) x hx
      omega
  · intro i hi
    rw [hcands] at hi
    rw [hn1]
    rcases Finset.mem_insert.mp hi with rfl | hi'
    · exact Finset.mem_range.mpr (by omega)
    · have := Finset.mem_range.mp (hcand.1 hi')
      exact Finset.mem_range.mpr (by omega)
  · intro i hi
    rw [hn1] at hi
    rw [hcands, hactD i, hanD i]
    by_cases hii : i = g.n
    · subst hii
      rw [if_pos rfl, if_pos rfl]
      simp
    · rw [if_neg hii, if_neg hii]
      have hilt : i < g.n := by
        have := Finset.mem_range.mp hi
        omega
      rw [Finset.mem_insert]
      simp only [hii, false_or]
      exact hcand.2 i (Finset.mem_range.mpr hilt)
  · intro i hi
    rw [hn1] at hi
    rw [hanD i]
    show _ = g'.activeCount i
    unfold Graph.activeCount
    rw [hn1, hact, hre]
    by_cases hii : i = g.n
    · subst hii
      rw [if_pos rfl]
      exact (activeCountOn_fresh true hre_len hedges).symm
    · rw [if_neg hii]
      have hilt : i < g.n := by
        have := Finset.mem_range.mp hi
        omega
      have h1 := hcount i (Finset.mem_range.mpr hilt)
      unfold Graph.activeCount at h1
      rw [activeCountOn_append i hia_len hre_len true [] (by simp)]
      exact h1
  · rw [hfen, hn1]
    by_cases hf : ins.is_fence = true
    · rw [if_pos hf]
      intro i hi
      rcases Finset.mem_insert.mp hi with rfl | hi'
      · exact Finset.mem_range.mpr (by omega)
      · have := Finset.mem_range.mp (hfence.1 hi')
        exact Finset.mem_range.mpr (by omega)
    · rw [if_neg hf]
      intro i hi
      have := Finset.mem_range.mp (hfence.1 hi)
      exact Finset.mem_range.mpr (by omega)
  · intro i hi
    rw [hn1] at hi
    rw [hfen, hactD i, hinstrD i]
    by_cases hii : i = g.n
    · subst hii
      rw [if_pos rfl, if_pos rfl]
      show _ ∈ _ ↔ (true = true ∧ ins.is_fence = true)
      by_cases hf : ins.is_fence = true
      · rw [if_pos hf]
        exact ⟨fun _ => ⟨rfl, hf⟩, fun _ => Finset.mem_insert_self _ _⟩
      · rw [if_neg hf]
        constructor
        · intro hc
          exact absurd (Finset.mem_range.mp (hfence.1 hc)) (lt_irrefl _)
        · rintro ⟨_, hff⟩
          exact absurd hff hf
    · rw [if_neg hii, if_neg hii]
      have hilt : i < g.n := by
        have := Finset.mem_range.mp hi
        omega
      by_cases hf : ins.is_fence = true
      · rw [if_pos hf, Finset.mem_insert]
        simp only [hii, false_or]
        exact hfence.2 i (Finset.mem_range.mpr hilt)
      · rw [if_neg hf]
        exact hfence.2 i (Finset.mem_range.mpr hilt)
  · intro i hi
    rw [hstk] at hi
    rw [hn1]
    have := hstack.1 i hi
    omega
  · rw [hstk]
    exact hstack.2.1
  · intro i hi
    rw [hn1] at hi
    rw [hstk, hactD i]
    by_cases hii : i = g.n
    · subst hii
      rw [if_pos rfl]
      constructor
      · intro hc
        exact absurd hc (by simp)
      · intro hc
        exact absurd (hstack.1 _ hc) (lt_irrefl _)
    · rw [if_neg hii]
      have hilt : i < g.n := by
        have := Finset.mem_range.mp hi
        omega
      exact hstack.2.2 i (Finset.mem_range.mpr hilt)
  · show stackOrdOn g'.n g'.rev_edges g'.execution_stack
    rw [hn1, hre, hstk]
    exact stackOrdOn_extend hord hre_len [] (fun x hx => by simp)
  · intro i hi
    rw [hn1] at hi
    rw [hinstrD i]
    by_cases hii : i = g.n
    · subst hii
      rw [if_pos rfl]
    · rw [if_neg hii]
      have hilt : i < g.n := by
        have := Finset.mem_range.mp hi
        omega
      exact hids i (Finset.mem_range.mpr hilt)
  · intro p hp
    rw [hltn] at hp
    rw [hn1]
    cases hl : ins.label with
    | none =>
      rw [hl] at hp
      have hp' : p ∈ g.label_to_node := hp
      have := hlabels p hp'
      omega
    | some l =>
      rw [hl] at hp
      have hp' : p ∈ insertA g.label_to_node l g.n := hp
      rcases insertA_mem hp' with rfl | hold
      · omega
      · have := hlabels p hold
        omega

theorem wf_add_edge (g : Graph) (src dst : Nat) (hwf : g.Wf)
    (hsrc : src < g.n) (hdst : dst < g.n)
    (hsact : g.is_active.getD src false = true)
    (hdact : g.is_active.getD dst false = true) :
    (g.add_edge src dst).Wf := by
  obtain ⟨hlen, hedges, hcand, hcount, hfence, hstack, hord, hids, hlabels⟩ := hwf
  obtain ⟨hre_len, han_len, hia_len⟩ := hlen
  have hred : g.add_edge src dst =
      { g with
        active_neighbors :=
          g.active_neighbors.set src (g.active_neighbors.getD src 0 + 1)
        rev_edges := g.rev_edges.set dst (g.rev_edges.getD dst [] ++ [src])
        execution_candidates := g.execution_candidates.erase src } := by
    unfold Graph.add_edge
    rw [if_pos hdact]
  set g' := g.add_edge src dst with hg'
  have hinstr : g'.instructions = g.instructions := by rw [hred]
  have hre : g'.rev_edges = g.rev_edges.set dst (g.rev_edges.getD dst [] ++ [src]) := by
    rw [hred]
  have han : g'.active_neighbors =
      g.active_neighbors.set src (g.active_neighbors.getD src 0 + 1) := by
    rw [hred]
  have hact : g'.is_active = g.is_active := by rw [hred]
  have hstk : g'.execution_stack = g.execution_stack := by rw [hred]
  have hcands : g'.execution_candidates = g.execution_candidates.erase src := by
    rw [hred]
  have hfen : g'.active_fence_nodes = g.active_fence_nodes := by rw [hred]
  have hltn : g'.label_to_node = g.label_to_node := by rw [hred]
  have hn1 : g'.n = g.n := by
    show g'.instructions.length = g.n
    rw [hinstr]
    rfl
  have hsrc_alen : src < g.active_neighbors.length := by omega
  have hdst_rlen : dst < g.rev_edges.length := by omega
  have hreD : ∀ j, g'.rev_edges.getD j [] =
      (if j = dst then g.rev_edges.getD dst [] ++ [src]
       else g.rev_edges.getD j []) := by
    intro j
    rw [hre]
    by_cases hj : j = dst
    · subst hj
      rw [if_pos rfl, getD_set_eq _ _ _ _ hdst_rlen]
    · rw [if_neg hj, getD_set_ne _ _ _ (fun hc => hj hc.symm)]
  have hanD : ∀ i, g'.active_neighbors.getD i 0 =
      (if i = src then g.active_neighbors.getD src 0 + 1
       else g.active_neighbors.getD i 0) := by
    intro i
    rw [han]
    by_cases hi : i = src
    · subst hi
      rw [if_pos rfl, getD_set_eq _ _ _ _ hsrc_alen]
    · rw [if_neg hi, getD_set_ne _ _ _ (fun hc => hi hc.symm)]
  refine ⟨⟨?_, ?_, ?_⟩, ?_, ⟨?_, ?_⟩, ?_, ⟨?_, ?_⟩, ⟨?_, ?_, ?_⟩, ?_, ?_, ?_⟩
  · show g'.rev_edges.length = g'.n
    rw [hre, hn1, List.length_set, hre_len]
  · show g'.active_neighbors.length = g'.n
    rw [han, hn1, List.length_set, han_len]
  · show g'.is_active.length = g'.n
    rw [hact, hn1, hia_len]
  · intro j hj x hx
    rw [hn1] at hj ⊢
    rw [hreD j] at hx
    by_cases hjd : j = dst
    · rw [if_pos hjd] at hx
      rcases List.mem_append.mp hx with hx' | hx'
      · exact hedges dst (Finset.mem_range.mpr hdst) x hx'
      · rw [List.mem_singleton.mp hx']
        exact hsrc
    · rw [if_neg hjd] at hx
      exact hedges j hj x hx
  · intro i hi
    rw [hcands] at hi
    rw [hn1]
    exact hcand.1 (Finset.mem_of_mem_erase hi)
  · intro i hi
    rw [hn1] at hi
    rw [hcands, hact, hanD i]
    by_cases hii : i = src
    · subst hii
      rw [if_pos rfl]
      constructor
      · intro hc
        exact absurd rfl (Finset.mem_erase.mp hc).1
      · rintro ⟨_, hz⟩
        omega
    · rw [if_neg hii, Finset.mem_erase]
      constructor
      · rintro ⟨_, hc⟩
        exact (hcand.2 i hi).mp hc
      · intro hc
        exact ⟨hii, (hcand.2 i hi).mpr hc⟩
  · intro i hi
    rw [hn1] at hi
    rw [hanD i]
    show _ = g'.activeCount i
    unfold Graph.activeCount
    rw [hn1, hact, hre]
    rw [activeCountOn_edge_append i hdst hdst_rlen]
    have h1 := hcount i hi
    unfold Graph.activeCount at h1
    by_cases hii : i = src
    · subst hii
      rw [if_pos rfl, if_pos ⟨hdact, rfl⟩, ← h1]
    · rw [if_neg hii, if_neg (fun hc => hii hc.2), ← h1, Nat.add_zero]
  · rw [hfen, hn1]
    exact hfence.1
  · intro i hi
    rw [hn1] at hi
    rw [hfen, hact, hinstr]
    exact hfence.2 i hi
  · intro i hi
    rw [hstk] at hi
    rw [hn1]
    exact hstack.1 i hi
  · rw [hstk]
    exact hstack.2.1
  · intro i hi
    rw [hn1] at hi
    rw [hstk, hact]
    exact hstack.2.2 i hi
  · show stackOrdOn g'.n g'.rev_edges g'.execution_stack
    rw [hn1, hre, hstk]
    have hsrc_not : src ∉ g.execution_stack := by
      intro hc
      have := (hstack.2.2 src (Finset.mem_range.mpr hsrc)).mpr hc
      rw [hsact] at this
      exact absurd this (by simp)
    exact stackOrdOn_edge hord hsrc_not
  · intro i hi
    rw [hn1] at hi
    rw [hinstr]
    exact hids i hi
  · intro p hp
    rw [hltn] at hp
    rw [hn1]
    exact hlabels p hp

theorem wf_implies_I1_I2 (g : Graph) (hwf : g.Wf) : g.I1holds ∧ g.I2multiHolds := by
  obtain ⟨hlen, hedges, hcand, hcount, hfence, hstack, hord, hids, hlabels⟩ := hwf
  obtain ⟨hre_len, han_len, hia_len⟩ := hlen
  constructor
  · intro i
    by_cases hi : i < g.n
    · exact hcand.2 i (Finset.mem_range.mpr hi)
    · constructor
      · intro hc
        exact absurd (Finset.mem_range.mp (hcand.1 hc)) hi
      · rintro ⟨ha, _⟩
        rw [List.getD_eq_default _ _ (by omega : g.is_active.length ≤ i)] at ha
        exact absurd ha (by simp)
  · intro i
    by_cases hi : i < g.n
    · exact hcount i (Finset.mem_range.mpr hi)
    · rw [List.getD_eq_default _ _ (by omega : g.active_neighbors.length ≤ i)]
      symm
      unfold Graph.activeCount activeCountOn
      refine Finset.sum_eq_zero (fun j hj => ?_)
      by_cases ha : g.is_active.getD j false = true
      · rw [if_pos ha]
        refine List.count_eq_zero_of_not_mem (fun hc => ?_)
        exact absurd (hedges j hj i hc) (by omega)
      · rw [if_neg ha]

/-- C2 (amended): every graph mutation as the program performs it
preserves well-formedness — `add_node` unconditionally; `add_edge` for
in-range active endpoints, duplicate edges included; `remove_node` for a
candidate (on an inactive id it is a no-op); `restore_node` whenever it
returns — starting from the well-formed empty graph, and well-formedness
entails invariant I1 (the candidates are exactly the active nodes with
`active_neighbors = 0`) and the multiplicity form of I2
(`active_neighbors[i]` equals the number of occurrences of `i` across the
active nodes' `rev_edges` lists, which is what the code maintains; the
distinct-node reading of I2 fails on reachable graphs, see the
counterexample). -/
theorem claim_C2_theorem :
    Graph.new.Wf ∧
    (∀ (g : Graph) (tid : Nat) (ins : LabeledInstruction), g.Wf →
      (g.add_node tid ins).1.Wf) ∧
    (∀ (g : Graph) (src dst : Nat), g.Wf → src < g.n → dst < g.n →
      g.is_active.getD src false = true → g.is_active.getD dst false = true →
      (g.add_edge src dst).Wf) ∧
    (∀ (g : Graph) (id : Nat), g.Wf →
      (id ∈ g.execution_candidates ∨ g.is_active.getD id false = false) →
      (g.remove_node id).Wf) ∧
    (∀ (g g' : Graph) (lbl : Option String), g.Wf →
      g.restore_node = some (g', lbl) → g'.Wf) ∧
    (∀ g : Graph, g.Wf → g.I1holds ∧ g.I2multiHolds) :=
  ⟨wf_new,
   fun g tid ins hwf => wf_add_node g tid ins hwf,
   fun g src dst hwf h1 h2 h3 h4 => wf_add_edge g src dst hwf h1 h2 h3 h4,
   fun g id hwf hpre => wf_remove_node g id hwf hpre,
   fun g g' lbl hwf h => wf_restore_node g g' lbl hwf h,
   fun g hwf => wf_implies_I1_I2 g hwf⟩

/-- Witness for C2 at concrete graphs: the empty graph, a fresh node, a
DUPLICATE edge (`graphTwo` already contains the edge 1 → 0), a candidate
removal, its restoration, and I1 with multiplicity-I2 for the
program-built REL/ACQ graph whose `rev_edges[0] = [1, 1]`. -/
theorem claim_C2_witness :
    Graph.new.Wf ∧
    (Graph.new.add_node 0 ⟨none, .const "r" 1⟩).1.Wf ∧
    (graphTwo.add_edge 1 0).Wf ∧
    (graphTwo.remove_node 0).Wf ∧
    graphTwo.Wf ∧
    (graphRelAcq.I1holds ∧ graphRelAcq.I2multiHolds) :=
  ⟨claim_C2_theorem.1,
   claim_C2_theorem.2.1 Graph.new 0 ⟨none, .const "r" 1⟩ (by decide),
   claim_C2_theorem.2.2.1 graphTwo 1 0 (by decide) (by decide) (by decide)
     (by decide) (by decide),
   claim_C2_theorem.2.2.2.1 graphTwo 0 (by decide) (Or.inl (by decide)),
   claim_C2_theorem.2.2.2.2.1 graphTwoR graphTwo none (by decide) (by decide),
   claim_C2_theorem.2.2.2.2.2 graphRelAcq (by decide)⟩

/-- C2 (counterexample to the unconditional claim): building the TSO
thread system for `store REL x r; load ACQ x r` performs `add_edge(1, 0)`
twice — once from instruction 0's REL loop and once from instruction 1's
ACQ loop — leaving `rev_edges[0] = [1, 1]` and `active_neighbors[1] = 2`,
while only one active node's `rev_edges` list contains 1: after that
mutation invariant I2 as worded (a count of distinct active nodes) does
not hold. -/
theorem claim_C2_counterexample :
    (TSOThreadSystem.new progRelAcq).graph.rev_edges.getD 0 [] = [1, 1] ∧
    (TSOThreadSystem.new progRelAcq).graph.active_neighbors.getD 1 0 = 2 ∧
    ¬ (TSOThreadSystem.new progRelAcq).graph.I2holds :=
  ⟨by decide, by decide, fun h => absurd (h 1) (by decide)⟩

theorem restoreN_succ_last (k : Nat) : ∀ g : Graph,
    g.restoreN (k + 1) =
      (g.restoreN k).bind (fun g2 => g2.restore_node.map Prod.fst) := by
  induction k with
  | zero =>
    intro g
    cases h : g.restore_node with
    | none => simp [Graph.restoreN, h]
    | some p =>
      obtain ⟨g1, lbl⟩ := p
      simp [Graph.restoreN, h]
  | succ k ih =>
    intro g
    cases h : g.restore_node with
    | none => simp [Graph.restoreN, h]
    | some p =>
      obtain ⟨g1, lbl⟩ := p
      have h1 : g.restoreN (k + 1 + 1) = g1.restoreN (k + 1) := by
        simp [Graph.restoreN, h]
      have h2 : g.restoreN (k + 1) = g1.restoreN k := by
        simp [Graph.restoreN, h]
      rw [h1, h2, ih g1]

/-- C3 (counterexample): the claim quantifies over removals of *active*
nodes; removing the active non-candidate node 1 of `graphTwo` (it still
waits on node 0) and then restoring once does not return to the starting
state — the restoration unconditionally re-inserts node 1 into the
candidates even though its wait on node 0 is still pending. -/
theorem claim_C3_counterexample :
    graphTwo.is_active.getD 1 false = true ∧
    (graphTwo.remove_node 1).restoreN 1 ≠ some graphTwo ∧
    ((graphTwo.remove_node 1).restoreN 1).map Graph.execution_candidates =
      some (insert 1 ({0} : Finset Nat)) ∧
    graphTwo.execution_candidates = {0} := by decide

/-- C3 (amended): on a well-formed graph, removing a sequence of
*execution candidates* (each a candidate of the state it is removed from,
which is exactly what the driver can do) and then restoring the same
number of times returns exactly the starting graph. -/
theorem claim_C3_theorem (g : Graph) (ids : List Nat) (hwf : g.Wf)
    (hv : g.ValidRemoveSeq ids) :
    (g.remove_list ids).restoreN ids.length = some g := by
  induction ids generalizing g with
  | nil => rfl
  | cons id rest ih =>
    obtain ⟨hid, hv'⟩ := hv
    have hwf' := wf_remove_node g id hwf (Or.inl hid)
    have hres := ih (g.remove_node id) hwf' hv'
    have h1 : g.remove_list (id :: rest) = (g.remove_node id).remove_list rest := rfl
    rw [h1]
    show ((g.remove_node id).remove_list rest).restoreN (rest.length + 1) = some g
    rw [restoreN_succ_last rest.length, hres]
    show ((g.remove_node id).restore_node).map Prod.fst = some g
    rw [restore_remove g id hwf hid]
    rfl

/-- Witness for the amended C3 on the graph the TSO construction builds
for a REL/ACQ thread — it contains the duplicate edge `rev_edges[0] =
[1, 1]` — with the valid removal sequence `[0, 1]`. -/
theorem claim_C3_witness :
    graphRelAcq.Wf ∧ graphRelAcq.ValidRemoveSeq [0, 1] ∧
    (graphRelAcq.remove_list [0, 1]).restoreN 2 = some graphRelAcq :=
  ⟨by decide, by decide,
   claim_C3_theorem graphRelAcq [0, 1] (by decide) (by decide)⟩

theorem remove_node_fixed (g : Graph) (id : Nat) :
    (g.remove_node id).instructions = g.instructions ∧
    (g.remove_node id).label_to_node = g.label_to_node := by
  unfold Graph.remove_node
  by_cases h : g.is_active.getD id false = false
  · rw [if_pos h]
    exact ⟨rfl, rfl⟩
  · rw [if_neg h]
    exact ⟨(decLoop_fixed _ _).2.1, (decLoop_fixed _ _).1⟩

theorem goto_fuel_step (fuel : Nat) (g g' : Graph) (lbl : Option String)
    (L : String) (h : g.restore_node = some (g', lbl)) :
    Graph.goto_fuel (fuel + 1) g L =
      (if lbl = some L then some g' else Graph.goto_fuel fuel g' L) := by
  show (match g.restore_node with
    | none => none
    | some (g2, l) =>
      if l = some L then some g2 else Graph.goto_fuel fuel g2 L) = _
  rw [h]

theorem goto_unwind (L : String) : ∀ (rest : List Nat) (g1 : Graph) (fuel : Nat),
    g1.Wf → g1.ValidRemoveSeq rest →
    (∀ r ∈ rest, (g1.instructions.getD r default).instruction.label ≠ some L) →
    Graph.goto_fuel (rest.length + fuel + 1) (g1.remove_list rest) L =
      Graph.goto_fuel (fuel + 1) g1 L := by
  intro rest
  induction rest with
  | nil =>
    intro g1 fuel _ _ _
    rw [List.length_nil, Nat.zero_add]
    rfl
  | cons r rs ih =>
    intro g1 fuel hwf hv hnl
    obtain ⟨hr, hv'⟩ := hv
    have hwf' := wf_remove_node g1 r hwf (Or.inl hr)
    have hinstr := (remove_node_fixed g1 r).1
    have hstep : g1.remove_list (r :: rs) = (g1.remove_node r).remove_list rs := rfl
    rw [hstep]
    have harith : (r :: rs).length + fuel + 1 = rs.length + (fuel + 1) + 1 := by
      rw [List.length_cons]
      omega
    rw [harith]
    rw [ih (g1.remove_node r) (fuel + 1) hwf' hv'
      (fun x hx => by rw [hinstr]; exact hnl x (List.mem_cons_of_mem _ hx))]
    rw [goto_fuel_step (fuel + 1) (g1.remove_node r) g1
      ((g1.instructions.getD r default).instruction.label) L
      (restore_remove g1 r hwf hr)]
    rw [if_neg (hnl r (List.mem_cons_self r rs))]

/-- C5 (counterexample): under TSO, running `L: one = 1; store x one;
if one goto L` for three scheduled steps takes the backward jump; the
post-goto graph has four nodes — the Propagate node synthesized by the
store after L's node was removed survives the rewind — whereas the state
immediately before L's node was removed had three nodes. -/
theorem claim_C5_counterexample :
    (TSO.run (TSO.new progGotoTSO) [0, 1, 2]).map
      (fun m => m.thread_system.graph.n) = some 4 ∧
    (TSO.new progGotoTSO).thread_system.graph.n = 3 := by decide

/-- C5 (amended): `goto(L)` with `L` active is the identity in all three
thread systems; `goto` never changes any thread's register file; and the
rewind is exact precisely on the graph alone: if from a well-formed graph
the driver removes a candidate node labeled `L` and then further
candidates none of which is labeled `L`, the rewind loop (any fuel at
least one more than the number of later removals, in particular the
stack length used by `goto`) stops exactly at `L`'s node and returns the
graph that existed immediately before `L`'s node was removed. -/
theorem claim_C5_theorem :
    (∀ (ts : SCThreadSystem) (label : String),
      ts.graph.is_label_active label = true → ts.goto label = some ts) ∧
    (∀ (ts : TSOThreadSystem) (label : String),
      ts.graph.is_label_active label = true → ts.goto label = some ts) ∧
    (∀ (ts : PSOThreadSystem) (label : String),
      ts.graph.is_label_active label = true → ts.goto label = some ts) ∧
    (∀ (ts : SCThreadSystem) (label : String) (ts' : SCThreadSystem),
      ts.goto label = some ts' → ts'.registers = ts.registers) ∧
    (∀ (ts : TSOThreadSystem) (label : String) (ts' : TSOThreadSystem),
      ts.goto label = some ts' → ts'.registers = ts.registers) ∧
    (∀ (ts : PSOThreadSystem) (label : String) (ts' : PSOThreadSystem),
      ts.goto label = some ts' → ts'.registers = ts.registers) ∧
    (∀ (g : Graph) (id : Nat) (rest : List Nat) (L : String) (fuel : Nat),
      g.Wf → g.ValidRemoveSeq (id :: rest) →
      (g.instructions.getD id default).instruction.label = some L →
      (∀ r ∈ rest, (g.instructions.getD r default).instruction.label ≠ some L) →
      Graph.goto_fuel (rest.length + fuel + 1) (g.remove_list (id :: rest)) L =
        some g) := by
  refine ⟨?_, ?_, ?_, ?_, ?_, ?_, ?_⟩
  · intro ts label h
    unfold SCThreadSystem.goto Graph.goto
    rw [if_pos h]
    rfl
  · intro ts label h
    unfold TSOThreadSystem.goto Graph.goto
    rw [if_pos h]
    rfl
  · intro ts label h
    unfold PSOThreadSystem.goto Graph.goto
    rw [if_pos h]
    rfl
  · intro ts label ts' h
    unfold SCThreadSystem.goto at h
    cases hg : ts.graph.goto label with
    | none =>
      rw [hg] at h
      exact absurd h (by simp)
    | some g2 =>
      rw [hg] at h
      have h2 : { ts with graph := g2 } = ts' := by simpa using h
      rw [← h2]
  · intro ts label ts' h
    unfold TSOThreadSystem.goto at h
    cases hg : ts.graph.goto label with
    | none =>
      rw [hg] at h
      exact absurd h (by simp)
    | some g2 =>
      rw [hg] at h
      have h2 : { ts with graph := g2 } = ts' := by simpa using h
      rw [← h2]
  · intro ts label ts' h
    unfold PSOThreadSystem.goto at h
    cases hg : ts.graph.goto label with
    | none =>
      rw [hg] at h
      exact absurd h (by simp)
    | some g2 =>
      rw [hg] at h
      have h2 : { ts with graph := g2 } = ts' := by simpa using h
      rw [← h2]
  · intro g id rest L fuel hwf hv hlbl hnl
    obtain ⟨hid, hv'⟩ := hv
    have hwf' := wf_remove_node g id hwf (Or.inl hid)
    have hinstr := (remove_node_fixed g id).1
    have hstep : g.remove_list (id :: rest) = (g.remove_node id).remove_list rest := rfl
    rw [hstep]
    rw [goto_unwind L rest (g.remove_node id) fuel hwf' hv'
      (fun x hx => by rw [hinstr]; exact hnl x hx)]
    rw [goto_fuel_step fuel (g.remove_node id) g
      ((g.instructions.getD id default).instruction.label) L
      (restore_remove g id hwf hid)]
    rw [hlbl, if_pos rfl]

/-- Witness for C5: active-label identity and register preservation on a
concrete thread system (label "Z" is unknown, hence counts as active),
and the exact graph rewind on the program-built graph of a labeled
REL/ACQ thread (it contains a duplicate edge) whose first removal is the
node labeled "L". -/
theorem claim_C5_witness :
    (SCThreadSystem.new progLoop).goto "Z" = some (SCThreadSystem.new progLoop) ∧
    (TSOThreadSystem.new progLoop).goto "Z" = some (TSOThreadSystem.new progLoop) ∧
    (PSOThreadSystem.new progLoop).goto "Z" = some (PSOThreadSystem.new progLoop) ∧
    (SCThreadSystem.new progLoop).registers = (SCThreadSystem.new progLoop).registers ∧
    (TSOThreadSystem.new progLoop).registers = (TSOThreadSystem.new progLoop).registers ∧
    (PSOThreadSystem.new progLoop).registers = (PSOThreadSystem.new progLoop).registers ∧
    Graph.goto_fuel ([1].length + 0 + 1) (graphRelAcqLbl.remove_list [0, 1]) "L" =
      some graphRelAcqLbl :=
  ⟨claim_C5_theorem.1 (SCThreadSystem.new progLoop) "Z" (by decide),
   claim_C5_theorem.2.1 (TSOThreadSystem.new progLoop) "Z" (by decide),
   claim_C5_theorem.2.2.1 (PSOThreadSystem.new progLoop) "Z" (by decide),
   claim_C5_theorem.2.2.2.1 (SCThreadSystem.new progLoop) "Z"
     (SCThreadSystem.new progLoop) (by decide),
   claim_C5_theorem.2.2.2.2.1 (TSOThreadSystem.new progLoop) "Z"
     (TSOThreadSystem.new progLoop) (by decide),
   claim_C5_theorem.2.2.2.2.2.1 (PSOThreadSystem.new progLoop) "Z"
     (PSOThreadSystem.new progLoop) (by decide),
   claim_C5_theorem.2.2.2.2.2.2 graphRelAcqLbl 0 [1] "L" 0 (by decide) (by decide)
     (by decide) (by decide)⟩

theorem addEdgeFold_to (l : List Nat) : ∀ (g : Graph) (id : Nat),
    g.is_active.getD id false = true →
    id < g.rev_edges.length →
    (∀ x ∈ l, x < g.active_neighbors.length) →
    (l.foldl (fun g2 node => g2.add_edge node id) g).instructions =
      g.instructions ∧
    (l.foldl (fun g2 node => g2.add_edge node id) g).is_active = g.is_active ∧
    (l.foldl (fun g2 node => g2.add_edge node id) g).rev_edges.length =
      g.rev_edges.length ∧
    (l.foldl (fun g2 node => g2.add_edge node id) g).active_neighbors.length =
      g.active_neighbors.length ∧
    (l.foldl (fun g2 node => g2.add_edge node id) g).rev_edges.getD id [] =
      g.rev_edges.getD id [] ++ l ∧
    (∀ x, (l.foldl (fun g2 node => g2.add_edge node id) g).active_neighbors.getD x 0 =
      g.active_neighbors.getD x 0 + l.count x) := by
  induction l with
  | nil =>
    intro g id _ _ _
    exact ⟨rfl, rfl, rfl, rfl, by simp, fun x => by simp⟩
  | cons a rest ih =>
    intro g id hact hid hmem
    have hared : g.add_edge a id =
        { g with
          active_neighbors :=
            g.active_neighbors.set a (g.active_neighbors.getD a 0 + 1)
          rev_edges := g.rev_edges.set id (g.rev_edges.getD id [] ++ [a])
          execution_candidates := g.execution_candidates.erase a } := by
      unfold Graph.add_edge
      rw [if_pos hact]
    have halen : a < g.active_neighbors.length := hmem a (List.mem_cons_self a rest)
    have h1instr : (g.add_edge a id).instructions = g.instructions := by rw [hared]
    have h1act : (g.add_edge a id).is_active = g.is_active := by rw [hared]
    have h1relen : (g.add_edge a id).rev_edges.length = g.rev_edges.length := by
      rw [hared]
      exact List.length_set _ _ _
    have h1anlen : (g.add_edge a id).active_neighbors.length =
        g.active_neighbors.length := by
      rw [hared]
      exact List.length_set _ _ _
    have h1re : (g.add_edge a id).rev_edges.getD id [] =
        g.rev_edges.getD id [] ++ [a] := by
      rw [hared]
      exact getD_set_eq _ _ _ _ hid
    have h1an : ∀ x, (g.add_edge a id).active_neighbors.getD x 0 =
        g.active_neighbors.getD x 0 + (if x = a then 1 else 0) := by
      intro x
      rw [hared]
      by_cases hx : x = a
      · subst hx
        rw [if_pos rfl]
        exact getD_set_eq _ _ _ _ halen
      · rw [if_neg hx, getD_set_ne _ _ _ (fun hc => hx hc.symm), Nat.add_zero]
    have ihr := ih (g.add_edge a id) id (by rw [h1act]; exact hact)
      (by rw [h1relen]; exact hid)
      (fun x hx => by rw [h1anlen]; exact hmem x (List.mem_cons_of_mem _ hx))
    refine ⟨ihr.1.trans h1instr, ihr.2.1.trans h1act,
      ihr.2.2.1.trans h1relen, ihr.2.2.2.1.trans h1anlen, ?_, ?_⟩
    · show (List.foldl (fun g2 node => g2.add_edge node id) (g.add_edge a id)
        rest).rev_edges.getD id [] = _
      rw [ihr.2.2.2.2.1, h1re, List.append_assoc]
      rfl
    · intro x
      show (List.foldl (fun g2 node => g2.add_edge node id) (g.add_edge a id)
        rest).active_neighbors.getD x 0 = _
      rw [ihr.2.2.2.2.2 x, h1an x]
      by_cases hx : x = a
      · subst hx
        rw [if_pos rfl, List.count_cons_self]
        omega
      · rw [if_neg hx, List.count_cons_of_ne (fun hc => hx hc)]
        omega

theorem addEdgeFold_from (l : List Nat) : ∀ (g : Graph) (id : Nat),
    id ∉ l →
    (l.foldl (fun g2 node => g2.add_edge id node) g).instructions =
      g.instructions ∧
    (l.foldl (fun g2 node => g2.add_edge id node) g).is_active = g.is_active ∧
    (l.foldl (fun g2 node => g2.add_edge id node) g).rev_edges.getD id [] =
      g.rev_edges.getD id [] ∧
    (∀ x, x ≠ id → (l.foldl (fun g2 node => g2.add_edge id node) g).active_neighbors.getD x 0 =
      g.active_neighbors.getD x 0) := by
  induction l with
  | nil =>
    intro g id _
    exact ⟨rfl, rfl, rfl, fun x _ => rfl⟩
  | cons a rest ih =>
    intro g id hnot
    have hna : id ≠ a := fun hc => hnot (hc ▸ List.mem_cons_self a rest)
    have h1instr : (g.add_edge id a).instructions = g.instructions := rfl
    have h1act : (g.add_edge id a).is_active = g.is_active := rfl
    have h1re : (g.add_edge id a).rev_edges.getD id [] = g.rev_edges.getD id [] := by
      show (g.rev_edges.set a (g.rev_edges.getD a [] ++ [id])).getD id [] = _
      exact getD_set_ne _ _ _ (Ne.symm hna)
    have h1an : ∀ x, x ≠ id → (g.add_edge id a).active_neighbors.getD x 0 =
        g.active_neighbors.getD x 0 := by
      intro x hx
      show (if g.is_active.getD a false = true then
          g.active_neighbors.set id (g.active_neighbors.getD id 0 + 1)
        else g.active_neighbors).getD x 0 = _
      by_cases hc : g.is_active.getD a false = true
      · rw [if_pos hc]
        exact getD_set_ne _ _ _ (fun h2 => hx h2.symm)
      · rw [if_neg hc]
    have ihr := ih (g.add_edge id a) id
      (fun hc => hnot (List.mem_cons_of_mem _ hc))
    refine ⟨ihr.1.trans h1instr, ihr.2.1.trans h1act, ?_, ?_⟩
    · show (List.foldl (fun g2 node => g2.add_edge id node) (g.add_edge id a)
        rest).rev_edges.getD id [] = _
      rw [ihr.2.2.1, h1re]
    · intro x hx
      show (List.foldl (fun g2 node => g2.add_edge id node) (g.add_edge id a)
        rest).active_neighbors.getD x 0 = _
      rw [ihr.2.2.2 x hx, h1an x hx]

theorem TSO_apn_graph (ts : TSOThreadSystem) (tid : Nat) (a v : Int)
    (gA gF gP : Graph)
    (h1 : gA = (ts.graph.add_node tid ⟨none, .propagate tid a v⟩).1)
    (h2 : gF = ((List.range gA.n).filter
        (fun f => f ∈ gA.active_fence_nodes)).foldl
      (fun g node => g.add_edge node ts.graph.n) gA)
    (h3 : gP = ((List.range gF.n).filter
        (fun p => p ∈ ts.propagate_nodes.getD tid ∅)).foldl
      (fun g node => g.add_edge ts.graph.n node) gF) :
    (ts.add_propagate_node tid a v).graph = gP := by
  subst h1
  subst h2
  subst h3
  rfl

/-- C4 (amended): the code calls `add_edge(fence, new_propagate)`, so each
active fence WAITS ON the freshly synthesized Propagate node — the new
node joins the fence's `rev_edges` wait list and the fence's
`active_neighbors` count grows by one; the Propagate node itself is free
to execute before the fence, which is the opposite of the claimed
ordering.  Consequently, in the S4 program the post-fence store's
Propagate can drain to shared memory while the pre-fence store has not
executed. -/
theorem claim_C4_theorem :
    (∀ (ts : TSOThreadSystem) (tid : Nat) (a v : Int),
      ts.graph.rev_edges.length = ts.graph.n →
      ts.graph.active_neighbors.length = ts.graph.n →
      ts.graph.is_active.length = ts.graph.n →
      (∀ f ∈ ts.graph.active_fence_nodes, f < ts.graph.n) →
      (∀ p ∈ ts.propagate_nodes.getD tid ∅, p < ts.graph.n) →
      ∀ f ∈ ts.graph.active_fence_nodes,
        f ∈ (ts.add_propagate_node tid a v).graph.rev_edges.getD ts.graph.n [] ∧
        (ts.add_propagate_node tid a v).graph.active_neighbors.getD f 0 =
          ts.graph.active_neighbors.getD f 0 + 1) ∧
    ((TSO.run (TSO.new progS4) [3, 4]).map
      (fun m => (m.storage_system.memory, m.storage_system.buffers,
        m.thread_system.graph.is_active)) =
      some ([(0, 0)], [[]], [true, true, true, false, false])) := by
  constructor
  · intro ts tid a v hre_len han_len hia_len hfen hpend f hf
    have hfn : f < ts.graph.n := hfen f hf
    set gA := (ts.graph.add_node tid ⟨none, .propagate tid a v⟩).1 with hgA
    have hAinstr : gA.instructions =
        ts.graph.instructions ++ [⟨ts.graph.n, tid, ⟨none, .propagate tid a v⟩⟩] := rfl
    have hAn : gA.n = ts.graph.n + 1 := by
      show gA.instructions.length = ts.graph.n + 1
      rw [hAinstr, List.length_append]
      rfl
    have hAre : gA.rev_edges = ts.graph.rev_edges ++ [[]] := rfl
    have hAan : gA.active_neighbors = ts.graph.active_neighbors ++ [0] := rfl
    have hAact : gA.is_active = ts.graph.is_active ++ [true] := rfl
    have hAfen : gA.active_fence_nodes = ts.graph.active_fence_nodes := rfl
    set FL := (List.range gA.n).filter (fun x => x ∈ gA.active_fence_nodes)
      with hFL
    have hFLnd : FL.Nodup := List.Nodup.filter _ (List.nodup_range gA.n)
    have hfFL : f ∈ FL := by
      rw [hFL]
      refine List.mem_filter.mpr ⟨List.mem_range.mpr (by rw [hAn]; omega), ?_⟩
      simp only [hAfen, decide_eq_true_eq]
      exact hf
    have hFLcnt : FL.count f = 1 := by
      rw [count_nodup hFLnd f, if_pos hfFL]
    have hFLlt : ∀ x ∈ FL, x < gA.active_neighbors.length := by
      intro x hx
      rw [hFL] at hx
      have hxn := List.mem_range.mp (List.mem_filter.mp hx).1
      rw [hAan, List.length_append, List.length_singleton, han_len]
      rw [hAn] at hxn
      omega
    have hactA : gA.is_active.getD ts.graph.n false = true := by
      rw [hAact, getD_append_concat, if_pos hia_len.symm]
    have hidA : ts.graph.n < gA.rev_edges.length := by
      rw [hAre, List.length_append, List.length_singleton, hre_len]
      omega
    have hA := addEdgeFold_to FL gA ts.graph.n hactA hidA hFLlt
    set gF := FL.foldl (fun g2 node => g2.add_edge node ts.graph.n) gA with hgF
    have hFn : gF.n = ts.graph.n + 1 := by
      show gF.instructions.length = ts.graph.n + 1
      rw [hgF, hA.1, ← hAn]
      rfl
    set PL := (List.range gF.n).filter
      (fun p => p ∈ ts.propagate_nodes.getD tid ∅) with hPL
    have hnotPL : ts.graph.n ∉ PL := by
      intro hc
      rw [hPL] at hc
      have := (List.mem_filter.mp hc).2
      rw [decide_eq_true_eq] at this
      exact absurd (hpend _ this) (lt_irrefl _)
    have hB := addEdgeFold_from PL gF ts.graph.n hnotPL
    have hmain : (ts.add_propagate_node tid a v).graph =
        PL.foldl (fun g2 node => g2.add_edge ts.graph.n node) gF :=
      TSO_apn_graph ts tid a v gA gF
        (PL.foldl (fun g2 node => g2.add_edge ts.graph.n node) gF)
        hgA hgF (by rw [hPL])
    rw [hmain]
    have hAre0 : gA.rev_edges.getD ts.graph.n [] = [] := by
      rw [hAre, getD_append_concat, if_pos hre_len.symm]
    have hAanf : gA.active_neighbors.getD f 0 =
        ts.graph.active_neighbors.getD f 0 := by
      rw [hAan, getD_append_concat, if_neg (by omega)]
    constructor
    · rw [hB.2.2.1, hA.2.2.2.2.1, hAre0, List.nil_append]
      exact hfFL
    · rw [hB.2.2.2 f (by omega), hA.2.2.2.2.2 f, hAanf, hFLcnt]
  · decide

/-- Witness for C4: synthesizing a Propagate node on the freshly built S4
thread system (whose fence, node 2, is active) makes the fence wait on the
new node and bumps the fence's wait count. -/
theorem claim_C4_witness :
    2 ∈ (TSOThreadSystem.new progS4).graph.active_fence_nodes ∧
    2 ∈ ((TSOThreadSystem.new progS4).add_propagate_node 0 0 7).graph.rev_edges.getD
      (TSOThreadSystem.new progS4).graph.n [] ∧
    ((TSOThreadSystem.new progS4).add_propagate_node 0 0 7).graph.active_neighbors.getD 2 0 =
      (TSOThreadSystem.new progS4).graph.active_neighbors.getD 2 0 + 1 :=
  ⟨by decide,
   (claim_C4_theorem.1 (TSOThreadSystem.new progS4) 0 0 7 (by decide) (by decide)
     (by decide) (by decide) (by decide) 2 (by decide)).1,
   (claim_C4_theorem.1 (TSOThreadSystem.new progS4) 0 0 7 (by decide) (by decide)
     (by decide) (by decide) (by decide) 2 (by decide)).2⟩

theorem TSO_assign_get_register (ts : TSOThreadSystem) (tid : Nat)
    (r : String) (v : Int) (h : tid < ts.registers.length) :
    (ts.assign_register tid r v).get_register tid r = v := by
  show (((ts.registers.set tid (insertA (ts.registers.getD tid []) r v)).getD
    tid []).lookup r).getD 0 = v
  rw [getD_set_eq _ _ _ _ h, insertA_lookup]
  rfl

theorem PSO_assign_get_register (ts : PSOThreadSystem) (tid : Nat)
    (r : String) (v : Int) (h : tid < ts.registers.length) :
    (ts.assign_register tid r v).get_register tid r = v := by
  show (((ts.registers.set tid (insertA (ts.registers.getD tid []) r v)).getD
    tid []).lookup r).getD 0 = v
  rw [getD_set_eq _ _ _ _ h, insertA_lookup]
  rfl

/-- C8: under both TSO and PSO, executing a CAS node always writes the
pre-image of the addressed location (the thread-local load, buffers
included) to the destination register; the store-buffer gains the
`(address, des)` entry exactly when the pre-image equals the `exp`
register; a successful CAS grows the thread's pending-propagate set by
exactly one node, and a failing CAS leaves both the storage system and
every pending-propagate set untouched. -/
theorem claim_C8_theorem :
    (∀ (m : TSO) (id tid : Nat) (mo : Mode) (address to_r exp des : String)
        (lbl : Option String),
      m.thread_system.graph.instructions.getD id default =
        ⟨id, tid, ⟨lbl, .cas mo address to_r exp des⟩⟩ →
      tid < m.thread_system.registers.length →
      tid < m.storage_system.buffers.length →
      tid < m.thread_system.propagate_nodes.length →
      (∀ p ∈ m.thread_system.propagate_nodes.getD tid ∅,
        p < m.thread_system.graph.n) →
      ((m.step_id id).map (fun m2 => m2.thread_system.get_register tid to_r) =
        some (m.storage_system.load tid
          (m.thread_system.get_register tid address))) ∧
      (m.storage_system.load tid (m.thread_system.get_register tid address) =
          m.thread_system.get_register tid exp ↔
        (m.step_id id).map (fun m2 => m2.storage_system.buffers.getD tid []) =
          some (m.storage_system.buffers.getD tid [] ++
            [(m.thread_system.get_register tid address,
              m.thread_system.get_register tid des)])) ∧
      (m.storage_system.load tid (m.thread_system.get_register tid address) =
          m.thread_system.get_register tid exp →
        (m.step_id id).map
            (fun m2 => (m2.thread_system.propagate_nodes.getD tid ∅).card) =
          some ((m.thread_system.propagate_nodes.getD tid ∅).card + 1)) ∧
      (m.storage_system.load tid (m.thread_system.get_register tid address) ≠
          m.thread_system.get_register tid exp →
        (m.step_id id).map
            (fun m2 => (m2.storage_system, m2.thread_system.propagate_nodes)) =
          some (m.storage_system, m.thread_system.propagate_nodes))) ∧
    (∀ (m : PSO) (id tid : Nat) (mo : Mode) (address to_r exp des : String)
        (lbl : Option String),
      m.thread_system.graph.instructions.getD id default =
        ⟨id, tid, ⟨lbl, .cas mo address to_r exp des⟩⟩ →
      tid < m.thread_system.registers.length →
      tid < m.storage_system.buffers.length →
      tid < m.thread_system.propagate_nodes.length →
      (∀ p ∈ m.thread_system.propagate_nodes.getD tid ∅,
        p.1 < m.thread_system.graph.n) →
      ((m.step_id id).map (fun m2 => m2.thread_system.get_register tid to_r) =
        some (m.storage_system.load tid
          (m.thread_system.get_register tid address))) ∧
      (m.storage_system.load tid (m.thread_system.get_register tid address) =
          m.thread_system.get_register tid exp ↔
        (m.step_id id).map (fun m2 => m2.storage_system.buffers.getD tid []) =
          some (m.storage_system.buffers.getD tid [] ++
            [(m.thread_system.get_register tid address,
              m.thread_system.get_register tid des)])) ∧
      (m.storage_system.load tid (m.thread_system.get_register tid address) =
          m.thread_system.get_register tid exp →
        (m.step_id id).map
            (fun m2 => (m2.thread_system.propagate_nodes.getD tid ∅).card) =
          some ((m.thread_system.propagate_nodes.getD tid ∅).card + 1)) ∧
      (m.storage_system.load tid (m.thread_system.get_register tid address) ≠
          m.thread_system.get_register tid exp →
        (m.step_id id).map
            (fun m2 => (m2.storage_system, m2.thread_system.propagate_nodes)) =
          some (m.storage_system, m.thread_system.propagate_nodes))) := by
  constructor
  · intro m id tid mo address to_r exp des lbl hnode hreg hbuf hprop hpend
    have hstep0 : m.step_id id = some
        ⟨(if m.storage_system.load tid (m.thread_system.get_register tid address) =
              m.thread_system.get_register tid exp then
            (m.thread_system.remove_node
              ⟨id, tid, ⟨lbl, .cas mo address to_r exp des⟩⟩).add_propagate_node
              tid (m.thread_system.get_register tid address)
              (m.thread_system.get_register tid des)
          else (m.thread_system.remove_node
            ⟨id, tid, ⟨lbl, .cas mo address to_r exp des⟩⟩)).assign_register
          tid to_r
          (m.storage_system.load tid (m.thread_system.get_register tid address)),
        (if m.storage_system.load tid (m.thread_system.get_register tid address) =
              m.thread_system.get_register tid exp then
            m.storage_system.store tid (m.thread_system.get_register tid address)
              (m.thread_system.get_register tid des)
          else m.storage_system)⟩ := by
      show m.step (m.thread_system.graph.instructions.getD id default) = _
      rw [hnode]
      rfl
    have hnrm : (m.thread_system.graph.remove_node id).n =
        m.thread_system.graph.n := by
      show (m.thread_system.graph.remove_node id).instructions.length = _
      rw [(remove_node_fixed _ _).1]
      rfl
    have hnid : (m.thread_system.graph.remove_node id).n ∉
        m.thread_system.propagate_nodes.getD tid ∅ := by
      rw [hnrm]
      intro hc
      exact absurd (hpend _ hc) (lt_irrefl _)
    by_cases hsucc : m.storage_system.load tid
        (m.thread_system.get_register tid address) =
        m.thread_system.get_register tid exp
    · simp only [if_pos hsucc] at hstep0
      rw [hstep0]
      refine ⟨?_, ?_, ?_, ?_⟩
      · exact congrArg some (TSO_assign_get_register _ tid to_r _ hreg)
      · refine ⟨fun _ => ?_, fun _ => hsucc⟩
        refine congrArg some ?_
        show (m.storage_system.buffers.set tid
            (m.storage_system.buffers.getD tid [] ++
              [(m.thread_system.get_register tid address,
                m.thread_system.get_register tid des)])).getD tid [] = _
        exact getD_set_eq _ _ _ _ hbuf
      · intro _
        refine congrArg some ?_
        show ((m.thread_system.propagate_nodes.set tid
            (insert ((m.thread_system.graph.remove_node id).n)
              (m.thread_system.propagate_nodes.getD tid ∅))).getD tid ∅).card = _
        rw [getD_set_eq _ _ _ _ hprop, Finset.card_insert_of_not_mem hnid]
      · intro hc
        exact absurd hsucc hc
    · simp only [if_neg hsucc] at hstep0
      rw [hstep0]
      refine ⟨?_, ?_, ?_, ?_⟩
      · exact congrArg some (TSO_assign_get_register _ tid to_r _ hreg)
      · constructor
        · intro hc
          exact absurd hc hsucc
        · intro hc
          have hc2 : m.storage_system.buffers.getD tid [] =
              m.storage_system.buffers.getD tid [] ++
                [(m.thread_system.get_register tid address,
                  m.thread_system.get_register tid des)] := Option.some.inj hc
          have hlen := congrArg List.length hc2
          rw [List.length_append, List.length_singleton] at hlen
          omega
      · intro hc
        exact absurd hc hsucc
      · intro _
        rfl
  · intro m id tid mo address to_r exp des lbl hnode hreg hbuf hprop hpend
    have hstep0 : m.step_id id = some
        ⟨(if m.storage_system.load tid (m.thread_system.get_register tid address) =
              m.thread_system.get_register tid exp then
            (m.thread_system.remove_node
              ⟨id, tid, ⟨lbl, .cas mo address to_r exp des⟩⟩).add_propagate_node
              tid (m.thread_system.get_register tid address)
              (m.thread_system.get_register tid des)
          else (m.thread_system.remove_node
            ⟨id, tid, ⟨lbl, .cas mo address to_r exp des⟩⟩)).assign_register
          tid to_r
          (m.storage_system.load tid (m.thread_system.get_register tid address)),
        (if m.storage_system.load tid (m.thread_system.get_register tid address) =
              m.thread_system.get_register tid exp then
            m.storage_system.store tid (m.thread_system.get_register tid address)
              (m.thread_system.get_register tid des)
          else m.storage_system)⟩ := by
      show m.step (m.thread_system.graph.instructions.getD id default) = _
      rw [hnode]
      rfl
    have hnrm : (m.thread_system.graph.remove_node id).n =
        m.thread_system.graph.n := by
      show (m.thread_system.graph.remove_node id).instructions.length = _
      rw [(remove_node_fixed _ _).1]
      rfl
    have hnid : ((m.thread_system.graph.remove_node id).n,
        m.thread_system.get_register tid address) ∉
        m.thread_system.propagate_nodes.getD tid ∅ := by
      intro hc
      have := hpend _ hc
      rw [hnrm] at this
      exact absurd this (lt_irrefl _)
    by_cases hsucc : m.storage_system.load tid
        (m.thread_system.get_register tid address) =
        m.thread_system.get_register tid exp
    · simp only [if_pos hsucc] at hstep0
      rw [hstep0]
      refine ⟨?_, ?_, ?_, ?_⟩
      · exact congrArg some (PSO_assign_get_register _ tid to_r _ hreg)
      · refine ⟨fun _ => ?_, fun _ => hsucc⟩
        refine congrArg some ?_
        show (m.storage_system.buffers.set tid
            (m.storage_system.buffers.getD tid [] ++
              [(m.thread_system.get_register tid address,
                m.thread_system.get_register tid des)])).getD tid [] = _
        exact getD_set_eq _ _ _ _ hbuf
      · intro _
        refine congrArg some ?_
        show ((m.thread_system.propagate_nodes.set tid
            (insert ((m.thread_system.graph.remove_node id).n,
                m.thread_system.get_register tid address)
              (m.thread_system.propagate_nodes.getD tid ∅))).getD tid ∅).card = _
        rw [getD_set_eq _ _ _ _ hprop, Finset.card_insert_of_not_mem hnid]
      · intro hc
        exact absurd hsucc hc
    · simp only [if_neg hsucc] at hstep0
      rw [hstep0]
      refine ⟨?_, ?_, ?_, ?_⟩
      · exact congrArg some (PSO_assign_get_register _ tid to_r _ hreg)
      · constructor
        · intro hc
          exact absurd hc hsucc
        · intro hc
          have hc2 : m.storage_system.buffers.getD tid [] =
              m.storage_system.buffers.getD tid [] ++
                [(m.thread_system.get_register tid address,
                  m.thread_system.get_register tid des)] := Option.some.inj hc
          have hlen := congrArg List.length hc2
          rw [List.length_append, List.length_singleton] at hlen
          omega
      · intro hc
        exact absurd hc hsucc
      · intro _
        rfl

/-- Witness for C8 on the one-instruction CAS program `t := cas a e d`
(all registers read 0, so the pre-image 0 equals `e` and the CAS
succeeds) under both TSO and PSO: the destination register receives the
pre-image and the pending-propagate set grows from zero to one node. -/
theorem claim_C8_witness :
    (((TSO.new progCas).step_id 0).map
        (fun m2 => m2.thread_system.get_register 0 "t") = some 0) ∧
    (((TSO.new progCas).step_id 0).map
        (fun m2 => (m2.thread_system.propagate_nodes.getD 0 ∅).card) = some 1) ∧
    (((PSO.new progCas).step_id 0).map
        (fun m2 => m2.thread_system.get_register 0 "t") = some 0) ∧
    (((PSO.new progCas).step_id 0).map
        (fun m2 => (m2.thread_system.propagate_nodes.getD 0 ∅).card) = some 1) :=
  ⟨(claim_C8_theorem.1 (TSO.new progCas) 0 0 .rlx "a" "t" "e" "d" none (by decide)
      (by decide) (by decide) (by decide) (by decide)).1,
   (claim_C8_theorem.1 (TSO.new progCas) 0 0 .rlx "a" "t" "e" "d" none (by decide)
      (by decide) (by decide) (by decide) (by decide)).2.2.1 (by decide),
   (claim_C8_theorem.2 (PSO.new progCas) 0 0 .rlx "a" "t" "e" "d" none (by decide)
      (by decide) (by decide) (by decide) (by decide)).1,
   (claim_C8_theorem.2 (PSO.new progCas) 0 0 .rlx "a" "t" "e" "d" none (by decide)
      (by decide) (by decide) (by decide) (by decide)).2.2.1 (by decide)⟩

theorem remove_node_n (g : Graph) (id : Nat) : (g.remove_node id).n = g.n := by
  show (g.remove_node id).instructions.length = g.n
  rw [(remove_node_fixed g id).1]
  rfl

theorem TSOThreadSystem.remove_graph (ts : TSOThreadSystem) (nd : Node) :
    (ts.remove_node nd).graph = ts.graph.remove_node nd.id := by
  unfold TSOThreadSystem.remove_node
  cases hI : nd.instruction.instruction <;> simp only [hI]

theorem TSOThreadSystem.assign_graph (ts : TSOThreadSystem) (tid : Nat)
    (r : String) (v : Int) : (ts.assign_register tid r v).graph = ts.graph := rfl

theorem restore_node_instructions (g g' : Graph) (lbl : Option String)
    (h : g.restore_node = some (g', lbl)) : g'.instructions = g.instructions := by
  unfold Graph.restore_node at h
  cases hstk : g.execution_stack with
  | nil =>
    rw [hstk] at h
    exact absurd h (by simp)
  | cons t rest =>
    rw [hstk] at h
    have h2 : g.restore_apply t rest = (g', lbl) := Option.some.inj h
    have hg2 : (g.restore_apply t rest).1 = g' := by
      rw [h2]
    have h3 : (g.restore_apply t rest).1.instructions = g.instructions := by
      show ((g.rev_edges.getD t []).foldl Graph.inc_neighbor
        ({ g with
           execution_stack := rest
           is_active := g.is_active.set t true
           active_fence_nodes :=
             if (g.instructions.getD t default).instruction.is_fence = true then
               insert t g.active_fence_nodes
             else g.active_fence_nodes })).instructions = g.instructions
      exact (incLoop_fixed _ _).2.1
    rw [← hg2]
    exact h3

theorem goto_fuel_instructions : ∀ (fuel : Nat) (g g' : Graph) (L : String),
    Graph.goto_fuel fuel g L = some g' → g'.instructions = g.instructions := by
  intro fuel
  induction fuel with
  | zero =>
    intro g g' L h
    exact absurd h (by simp [Graph.goto_fuel])
  | succ fuel ih =>
    intro g g' L h
    unfold Graph.goto_fuel at h
    cases hres : g.restore_node with
    | none =>
      rw [hres] at h
      exact absurd h (by simp)
    | some p =>
      obtain ⟨g2, lbl⟩ := p
      rw [hres] at h
      have h4 : (if lbl = some L then some g2 else Graph.goto_fuel fuel g2 L) =
          some g' := h
      by_cases hl : lbl = some L
      · rw [if_pos hl] at h4
        have h2 := Option.some.inj h4
        subst h2
        exact restore_node_instructions g g2 lbl hres
      · rw [if_neg hl] at h4
        exact (ih g2 g' L h4).trans (restore_node_instructions g g2 lbl hres)

theorem goto_instructions (g g' : Graph) (L : String)
    (h : g.goto L = some g') : g'.instructions = g.instructions := by
  unfold Graph.goto at h
  by_cases hl : g.is_label_active L = true
  · rw [if_pos hl] at h
    rw [← Option.some.inj h]
  · rw [if_neg hl] at h
    exact goto_fuel_instructions _ g g' L h

theorem TSOThreadSystem.goto_graph_instructions (ts ts' : TSOThreadSystem)
    (L : String) (h : ts.goto L = some ts') :
    ts'.graph.instructions = ts.graph.instructions := by
  unfold TSOThreadSystem.goto at h
  cases hg : ts.graph.goto L with
  | none =>
    rw [hg] at h
    exact absurd h (by simp)
  | some g2 =>
    rw [hg] at h
    have h2 : { ts with graph := g2 } = ts' := by simpa using h
    rw [← h2]
    exact Isa.goto_instructions ts.graph g2 L hg

theorem foldl_edge_instructions (f : Graph → Nat → Graph)
    (hf : ∀ g x, (f g x).instructions = g.instructions) (l : List Nat) :
    ∀ g : Graph, (l.foldl f g).instructions = g.instructions := by
  induction l with
  | nil =>
    intro g
    rfl
  | cons a rest ih =>
    intro g
    exact (ih (f g a)).trans (hf g a)

theorem TSO_apn_n (ts : TSOThreadSystem) (tid : Nat) (a v : Int) :
    (ts.add_propagate_node tid a v).graph.n = ts.graph.n + 1 := by
  have hmain : (ts.add_propagate_node tid a v).graph.instructions =
      ((ts.graph.add_node tid ⟨none, .propagate tid a v⟩).1).instructions := by
    rw [TSO_apn_graph ts tid a v
      ((ts.graph.add_node tid ⟨none, .propagate tid a v⟩).1) _ _ rfl rfl rfl]
    rw [foldl_edge_instructions (fun g2 node => g2.add_edge ts.graph.n node)
      (fun g x => rfl)]
    rw [foldl_edge_instructions (fun g2 node => g2.add_edge node ts.graph.n)
      (fun g x => rfl)]
  show (ts.add_propagate_node tid a v).graph.instructions.length = ts.graph.n + 1
  rw [hmain]
  show (ts.graph.instructions ++
    [(⟨ts.graph.n, tid, ⟨none, .propagate tid a v⟩⟩ : Node)]).length = ts.graph.n + 1
  rw [List.length_append, List.length_singleton]
  rfl

theorem TSO_step_n (m : TSO) (id : Nat) (m' : TSO)
    (h : m.step_id id = some m') :
    m'.thread_system.graph.n =
      m.thread_system.graph.n + (if m.emits id then 1 else 0) := by
  set nd := m.thread_system.graph.instructions.getD id default with hnd
  have hnode : nd = ⟨nd.id, nd.thread_id,
      ⟨nd.instruction.label, nd.instruction.instruction⟩⟩ := rfl
  cases hI : nd.instruction.instruction with
  | const r value =>
    rw [hI] at hnode
    have hstep0 : m.step_id id = some
        ⟨(m.thread_system.remove_node nd).assign_register nd.thread_id r value,
          m.storage_system⟩ := by
      show m.step nd = _
      rw [hnode]
      rfl
    rw [hstep0] at h
    have hm' := Option.some.inj h
    subst hm'
    have hemits : m.emits id = false := by
      simp only [TSO.emits, ← hnd, hI]
    rw [hemits]
    show ((m.thread_system.remove_node nd).graph).n = m.thread_system.graph.n + 0
    rw [TSOThreadSystem.remove_graph, remove_node_n, Nat.add_zero]
  | arithPlus r1 r2 r3 =>
    rw [hI] at hnode
    have hstep0 : m.step_id id = some
        ⟨(m.thread_system.remove_node nd).assign_register nd.thread_id r1
            (m.thread_system.get_register nd.thread_id r2 +
              m.thread_system.get_register nd.thread_id r3),
          m.storage_system⟩ := by
      show m.step nd = _
      rw [hnode]
      rfl
    rw [hstep0] at h
    have hm' := Option.some.inj h
    subst hm'
    have hemits : m.emits id = false := by
      simp only [TSO.emits, ← hnd, hI]
    rw [hemits]
    show ((m.thread_system.remove_node nd).graph).n = m.thread_system.graph.n + 0
    rw [TSOThreadSystem.remove_graph, remove_node_n, Nat.add_zero]
  | arithMinus r1 r2 r3 =>
    rw [hI] at hnode
    have hstep0 : m.step_id id = some
        ⟨(m.thread_system.remove_node nd).assign_register nd.thread_id r1
            (m.thread_system.get_register nd.thread_id r2 -
              m.thread_system.get_register nd.thread_id r3),
          m.storage_system⟩ := by
      show m.step nd = _
      rw [hnode]
      rfl
    rw [hstep0] at h
    have hm' := Option.some.inj h
    subst hm'
    have hemits : m.emits id = false := by
      simp only [TSO.emits, ← hnd, hI]
    rw [hemits]
    show ((m.thread_system.remove_node nd).graph).n = m.thread_system.graph.n + 0
    rw [TSOThreadSystem.remove_graph, remove_node_n, Nat.add_zero]
  | arithMul r1 r2 r3 =>
    rw [hI] at hnode
    have hstep0 : m.step_id id = some
        ⟨(m.thread_system.remove_node nd).assign_register nd.thread_id r1
            (m.thread_system.get_register nd.thread_id r2 *
              m.thread_system.get_register nd.thread_id r3),
          m.storage_system⟩ := by
      show m.step nd = _
      rw [hnode]
      rfl
    rw [hstep0] at h
    have hm' := Option.some.inj h
    subst hm'
    have hemits : m.emits id = false := by
      simp only [TSO.emits, ← hnd, hI]
    rw [hemits]
    show ((m.thread_system.remove_node nd).graph).n = m.thread_system.graph.n + 0
    rw [TSOThreadSystem.remove_graph, remove_node_n, Nat.add_zero]
  | arithDiv r1 r2 r3 =>
    rw [hI] at hnode
    have hstep0 : m.step_id id = some
        ⟨(m.thread_system.remove_node nd).assign_register nd.thread_id r1
            (Int.tdiv (m.thread_system.get_register nd.thread_id r2)
              (m.thread_system.get_register nd.thread_id r3)),
          m.storage_system⟩ := by
      show m.step nd = _
      rw [hnode]
      rfl
    rw [hstep0] at h
    have hm' := Option.some.inj h
    subst hm'
    have hemits : m.emits id = false := by
      simp only [TSO.emits, ← hnd, hI]
    rw [hemits]
    show ((m.thread_system.remove_node nd).graph).n = m.thread_system.graph.n + 0
    rw [TSOThreadSystem.remove_graph, remove_node_n, Nat.add_zero]
  | cond r label =>
    rw [hI] at hnode
    have hstep0 : m.step_id id =
        (if (m.thread_system.remove_node nd).get_register nd.thread_id r ≠ 0 then
          ((m.thread_system.remove_node nd).goto label).map
            (fun ts2 => (⟨ts2, m.storage_system⟩ : TSO))
        else some ⟨m.thread_system.remove_node nd, m.storage_system⟩) := by
      show m.step nd = _
      rw [hnode]
      rfl
    rw [hstep0] at h
    have hemits : m.emits id = false := by
      simp only [TSO.emits, ← hnd, hI]
    rw [hemits]
    by_cases hc : (m.thread_system.remove_node nd).get_register nd.thread_id r ≠ 0
    · rw [if_pos hc] at h
      cases hg : (m.thread_system.remove_node nd).goto label with
      | none =>
        rw [hg] at h
        exact absurd h (by simp)
      | some ts2 =>
        rw [hg] at h
        have hm' := Option.some.inj h
        subst hm'
        show ts2.graph.instructions.length = m.thread_system.graph.n + 0
        rw [TSOThreadSystem.goto_graph_instructions _ _ label hg,
          TSOThreadSystem.remove_graph, (remove_node_fixed _ _).1, Nat.add_zero]
        rfl
    · rw [if_neg hc] at h
      have hm' := Option.some.inj h
      subst hm'
      show ((m.thread_system.remove_node nd).graph).n = m.thread_system.graph.n + 0
      rw [TSOThreadSystem.remove_graph, remove_node_n, Nat.add_zero]
  | load mo address r =>
    rw [hI] at hnode
    have hstep0 : m.step_id id = some
        ⟨(m.thread_system.remove_node nd).assign_register nd.thread_id r
            (m.storage_system.load nd.thread_id
              (m.thread_system.get_register nd.thread_id address)),
          m.storage_system⟩ := by
      show m.step nd = _
      rw [hnode]
      rfl
    rw [hstep0] at h
    have hm' := Option.some.inj h
    subst hm'
    have hemits : m.emits id = false := by
      simp only [TSO.emits, ← hnd, hI]
    rw [hemits]
    show ((m.thread_system.remove_node nd).graph).n = m.thread_system.graph.n + 0
    rw [TSOThreadSystem.remove_graph, remove_node_n, Nat.add_zero]
  | store mo address r =>
    rw [hI] at hnode
    have hstep0 : m.step_id id = some
        ⟨(m.thread_system.remove_node nd).add_propagate_node nd.thread_id
            (m.thread_system.get_register nd.thread_id address)
            (m.thread_system.get_register nd.thread_id r),
          m.storage_system.store nd.thread_id
            (m.thread_system.get_register nd.thread_id address)
            (m.thread_system.get_register nd.thread_id r)⟩ := by
      show m.step nd = _
      rw [hnode]
      rfl
    rw [hstep0] at h
    have hm' := Option.some.inj h
    subst hm'
    have hemits : m.emits id = true := by
      simp only [TSO.emits, ← hnd, hI]
    rw [hemits]
    show ((m.thread_system.remove_node nd).add_propagate_node nd.thread_id
        (m.thread_system.get_register nd.thread_id address)
        (m.thread_system.get_register nd.thread_id r)).graph.n =
      m.thread_system.graph.n + 1
    rw [TSO_apn_n, TSOThreadSystem.remove_graph, remove_node_n]
  | cas mo address to_r exp des =>
    rw [hI] at hnode
    have hstep0 : m.step_id id = some
        ⟨(if m.storage_system.load nd.thread_id
              (m.thread_system.get_register nd.thread_id address) =
              m.thread_system.get_register nd.thread_id exp then
            (m.thread_system.remove_node nd).add_propagate_node nd.thread_id
              (m.thread_system.get_register nd.thread_id address)
              (m.thread_system.get_register nd.thread_id des)
          else m.thread_system.remove_node nd).assign_register nd.thread_id to_r
          (m.storage_system.load nd.thread_id
            (m.thread_system.get_register nd.thread_id address)),
        (if m.storage_system.load nd.thread_id
              (m.thread_system.get_register nd.thread_id address) =
              m.thread_system.get_register nd.thread_id exp then
            m.storage_system.store nd.thread_id
              (m.thread_system.get_register nd.thread_id address)
              (m.thread_system.get_register nd.thread_id des)
          else m.storage_system)⟩ := by
      show m.step nd = _
      rw [hnode]
      rfl
    rw [hstep0] at h
    have hm' := Option.some.inj h
    subst hm'
    have hemits : m.emits id = decide (m.storage_system.load nd.thread_id
        (m.thread_system.get_register nd.thread_id address) =
        m.thread_system.get_register nd.thread_id exp) := by
      simp only [TSO.emits, ← hnd, hI]
    rw [hemits]
    by_cases hsucc : m.storage_system.load nd.thread_id
        (m.thread_system.get_register nd.thread_id address) =
        m.thread_system.get_register nd.thread_id exp
    · rw [if_pos (decide_eq_true hsucc)]
      simp only [if_pos hsucc]
      show ((m.thread_system.remove_node nd).add_propagate_node nd.thread_id
          (m.thread_system.get_register nd.thread_id address)
          (m.thread_system.get_register nd.thread_id des)).graph.n =
        m.thread_system.graph.n + 1
      rw [TSO_apn_n, TSOThreadSystem.remove_graph, remove_node_n]
    · rw [if_neg (fun hc => hsucc (of_decide_eq_true hc))]
      simp only [if_neg hsucc]
      show ((m.thread_system.remove_node nd).graph).n = m.thread_system.graph.n + 0
      rw [TSOThreadSystem.remove_graph, remove_node_n, Nat.add_zero]
  | fai mo address to_r inc =>
    rw [hI] at hnode
    have hstep0 : m.step_id id = some
        ⟨((m.thread_system.remove_node nd).assign_register nd.thread_id to_r
            (m.storage_system.load nd.thread_id
              (m.thread_system.get_register nd.thread_id address))).add_propagate_node
          nd.thread_id (m.thread_system.get_register nd.thread_id address)
          (m.storage_system.load nd.thread_id
              (m.thread_system.get_register nd.thread_id address) +
            m.thread_system.get_register nd.thread_id inc),
        m.storage_system.store nd.thread_id
          (m.thread_system.get_register nd.thread_id address)
          (m.storage_system.load nd.thread_id
              (m.thread_system.get_register nd.thread_id address) +
            m.thread_system.get_register nd.thread_id inc)⟩ := by
      show m.step nd = _
      rw [hnode]
      rfl
    rw [hstep0] at h
    have hm' := Option.some.inj h
    subst hm'
    have hemits : m.emits id = true := by
      simp only [TSO.emits, ← hnd, hI]
    rw [hemits]
    show (((m.thread_system.remove_node nd).assign_register nd.thread_id to_r
        (m.storage_system.load nd.thread_id
          (m.thread_system.get_register nd.thread_id address))).add_propagate_node
      nd.thread_id (m.thread_system.get_register nd.thread_id address)
      (m.storage_system.load nd.thread_id
          (m.thread_system.get_register nd.thread_id address) +
        m.thread_system.get_register nd.thread_id inc)).graph.n =
      m.thread_system.graph.n + 1
    rw [TSO_apn_n, TSOThreadSystem.assign_graph, TSOThreadSystem.remove_graph,
      remove_node_n]
  | fence mo =>
    rw [hI] at hnode
    have hstep0 : m.step_id id = some
        ⟨m.thread_system.remove_node nd, m.storage_system⟩ := by
      show m.step nd = _
      rw [hnode]
      rfl
    rw [hstep0] at h
    have hm' := Option.some.inj h
    subst hm'
    have hemits : m.emits id = false := by
      simp only [TSO.emits, ← hnd, hI]
    rw [hemits]
    show ((m.thread_system.remove_node nd).graph).n = m.thread_system.graph.n + 0
    rw [TSOThreadSystem.remove_graph, remove_node_n, Nat.add_zero]
  | propagate ptid paddr pvalue =>
    rw [hI] at hnode
    have hstep0 : m.step_id id = some
        ⟨m.thread_system.remove_node nd,
          m.storage_system.propagate ptid paddr⟩ := by
      show m.step nd = _
      rw [hnode]
      rfl
    rw [hstep0] at h
    have hm' := Option.some.inj h
    subst hm'
    have hemits : m.emits id = false := by
      simp only [TSO.emits, ← hnd, hI]
    rw [hemits]
    show ((m.thread_system.remove_node nd).graph).n = m.thread_system.graph.n + 0
    rw [TSOThreadSystem.remove_graph, remove_node_n, Nat.add_zero]

/-- C9 (amended): the driver loop need NOT terminate — on the program
`one = 1; L: if one goto L` the SC machine returns, after the taken
backward jump, to exactly the state it was in before executing the jump,
with a non-empty candidate set, so the run revisits identical states
forever.  What does hold is the step/growth accounting: along any TSO
schedule, the graph grows by exactly one node per executed Store,
successful CAS (pre-image equal to the `exp` register) and FAI — the
count `TSO.synth_count` — and by nothing else. -/
theorem claim_C9_theorem :
    (SC.run (SC.new progLoop) [0, 1] = SC.run (SC.new progLoop) [0] ∧
      (SC.run (SC.new progLoop) [0]).map
        (fun m2 => m2.thread_system.graph.execution_candidates) = some {1}) ∧
    (∀ (m : TSO) (s : List Nat),
      (TSO.run m s).map (fun m2 => m2.thread_system.graph.n) =
        (TSO.run m s).map
          (fun _ => m.thread_system.graph.n + TSO.synth_count m s)) := by
  constructor
  · exact ⟨by decide, by decide⟩
  · intro m s
    induction s generalizing m with
    | nil => rfl
    | cons id rest ih =>
      by_cases hmem : id ∈ m.thread_system.graph.execution_candidates
      · cases hstep : m.step_id id with
        | none =>
          have hrun : TSO.run m (id :: rest) = none := by
            show (if id ∈ m.thread_system.graph.execution_candidates then
              (m.step_id id).bind (fun m2 => TSO.run m2 rest) else none) = none
            rw [if_pos hmem, hstep]
            rfl
          rw [hrun]
          rfl
        | some m2 =>
          have hrun : TSO.run m (id :: rest) = TSO.run m2 rest := by
            show (if id ∈ m.thread_system.graph.execution_candidates then
              (m.step_id id).bind (fun m3 => TSO.run m3 rest) else none) = _
            rw [if_pos hmem, hstep]
            rfl
          have hcnt : TSO.synth_count m (id :: rest) =
              (if m.emits id then 1 else 0) + TSO.synth_count m2 rest := by
            show ((if m.emits id then 1 else 0) +
              (match m.step_id id with
               | some m3 => TSO.synth_count m3 rest
               | none => 0)) = _
            rw [hstep]
          have hn2 := TSO_step_n m id m2 hstep
          rw [hrun, hcnt, ih m2]
          cases hrr : TSO.run m2 rest with
          | none => rfl
          | some mf =>
            refine congrArg some ?_
            show m2.thread_system.graph.n + TSO.synth_count m2 rest =
              m.thread_system.graph.n +
                ((if m.emits id then 1 else 0) + TSO.synth_count m2 rest)
            rw [hn2]
            omega
      · have hrun : TSO.run m (id :: rest) = none := by
          show (if id ∈ m.thread_system.graph.execution_candidates then
            (m.step_id id).bind (fun m2 => TSO.run m2 rest) else none) = none
          rw [if_neg hmem]
        rw [hrun]
        rfl

theorem lastMatch_eq_none {l : List (Int × Int)} {a : Int}
    (h : matchCount l a = 0) : lastMatch l a = none := by
  induction l with
  | nil => rfl
  | cons e rest ih =>
    rcases e with ⟨b, v⟩
    rw [matchCount] at h
    by_cases hb : b = a
    · rw [if_pos hb] at h; omega
    · rw [if_neg hb] at h
      simp only [lastMatch, ih (by omega), if_neg hb]

theorem lastMatch_eq_firstMatch {l : List (Int × Int)} {a : Int}
    (h : matchCount l a ≤ 1) : lastMatch l a = firstMatch l a := by
  induction l with
  | nil => rfl
  | cons e rest ih =>
    rcases e with ⟨b, v⟩
    rw [matchCount] at h
    by_cases hb : b = a
    · rw [if_pos hb] at h
      have hrest : matchCount rest a = 0 := by omega
      simp only [lastMatch, firstMatch, lastMatch_eq_none hrest, if_pos hb]
    · rw [if_neg hb] at h
      simp only [lastMatch, firstMatch, if_neg hb, ih (by omega)]
      cases firstMatch rest a with
      | none => simp [if_neg hb]
      | some p => simp [Option.map]

/-- C1 (amended).  The implemented storage subsystem (newest-entry
removal in `propagate`) and the oldest-entry variant coincide exactly on
those propagate calls for which the thread's buffer holds at most one
entry for the given address; the run-level observational equivalence
claimed by the specification fails in general (see the counterexample),
because with two buffered entries for one address the FIFO-ordered
propagates write the values in opposite orders. -/
theorem claim_C1_theorem (s : TSOStorageSystem) (thread_id : Nat) (address : Int)
    (h : matchCount (s.buffers.getD thread_id []) address ≤ 1) :
    s.propagate thread_id address = s.propagate_oldest thread_id address := by
  unfold TSOStorageSystem.propagate TSOStorageSystem.propagate_oldest
  rw [lastMatch_eq_firstMatch h]

theorem claim_C1_witness :
    (matchCount ((⟨[[(0, 5)]], []⟩ : TSOStorageSystem).buffers.getD 0 []) 0 ≤ 1) ∧
      (⟨[[(0, 5)]], []⟩ : TSOStorageSystem).propagate 0 0 =
        (⟨[[(0, 5)]], []⟩ : TSOStorageSystem).propagate_oldest 0 0 :=
  ⟨by decide, claim_C1_theorem _ 0 0 (by decide)⟩

/-- C1 counterexample.  One thread stores 1 then 2 to the same address;
the one complete schedule `[0,1,2,3,4,5]` (both stores, then both
propagates in their FIFO order) is valid under the implemented
newest-removal storage and under the oldest-removal variant, yet the final
shared memory differs: the implementation leaves 1 at address 0, the
variant leaves 2.  The claimed observational equivalence is false. -/
theorem claim_C1_counterexample :
    (TSO.run (TSO.new progTwoStores) [0, 1, 2, 3, 4, 5]).map
        (fun m => (m.storage_system.memory, m.thread_system.graph.execution_candidates)) =
      some ([(0, 1)], ∅) ∧
    (TSO.run_oldest (TSO.new progTwoStores) [0, 1, 2, 3, 4, 5]).map
        (fun m => (m.storage_system.memory, m.thread_system.graph.execution_candidates)) =
      some ([(0, 2)], ∅) := by decide

/-- C6 (amended).  In the S2 program every register named as an address
holds 0 or 1, so both stores write address 0 and thread 1's load reads
address 1, which no store touches.  Under TSO there is a complete run in
which thread 1's load leaves `r0 = 0` — and under SC such a run exists as
well (the original claim said it cannot).  Both conjuncts exhibit a
complete run (final candidate set empty) with final `r0 = 0`. -/
theorem claim_C6_theorem :
    (TSO.run (TSO.new progS2) [3, 4, 5, 7, 6, 0, 1, 2, 8]).map
        (fun m => (m.thread_system.get_register 1 "r0",
          m.thread_system.graph.execution_candidates)) = some (0, ∅) ∧
    (SC.run (SC.new progS2) [0, 1, 2, 3, 4, 5, 6]).map
        (fun m => (m.thread_system.get_register 1 "r0",
          m.thread_system.graph.execution_candidates)) = some (0, ∅) := by decide

/-- C6 counterexample.  The claim says no SC run of S2 produces `r0 = 0`
from thread 1's load; the sequential schedule `[0..6]` is a complete SC
run and ends with `r0 = 0` (and memory holding 1 at address 0 only). -/
theorem claim_C6_counterexample :
    (SC.run (SC.new progS2) [0, 1, 2, 3, 4, 5, 6]).map
        (fun m => (m.thread_system.get_register 1 "r0",
          m.thread_system.graph.execution_candidates,
          m.storage_system.memory)) = some (0, ∅, [(0, 1)]) := by decide

/-- C7 (amended).  In S5 both stores resolve to address 0 (registers x, y
are unset) and, the TSO/PSO construction adding no program-order edges,
the second store may execute first.  Under PSO there is a run in which the
Propagate synthesized for the second store writes shared memory before the
Propagate for the first store is even created — and, contrary to the
original claim, the very same schedule is also a run under TSO.  The
conjuncts trace the schedule `[2,3,1,4,0]` on both models: executing
node 2 (second store) synthesizes Propagate node 3; executing node 3
writes memory; executing node 1 (first store) then synthesizes Propagate
node 4; the schedule completes. -/
theorem claim_C7_theorem :
    ((PSO.run (PSO.new progS5) [2]).map (fun m =>
        (m.thread_system.graph.n,
         (m.thread_system.graph.instructions.getD 3 default).instruction.instruction)) =
      some (4, .propagate 0 0 0) ∧
     (PSO.run (PSO.new progS5) [2, 3]).map (fun m =>
        (m.storage_system.memory, m.thread_system.graph.is_active.getD 3 false)) =
      some ([(0, 0)], false) ∧
     (PSO.run (PSO.new progS5) [2, 3, 1]).map (fun m =>
        (m.thread_system.graph.n,
         (m.thread_system.graph.instructions.getD 4 default).instruction.instruction)) =
      some (5, .propagate 0 0 0) ∧
     (PSO.run (PSO.new progS5) [2, 3, 1, 4, 0]).map (fun m =>
        m.thread_system.graph.execution_candidates) = some ∅) ∧
    ((TSO.run (TSO.new progS5) [2]).map (fun m =>
        (m.thread_system.graph.n,
         (m.thread_system.graph.instructions.getD 3 default).instruction.instruction)) =
      some (4, .propagate 0 0 0) ∧
     (TSO.run (TSO.new progS5) [2, 3]).map (fun m =>
        (m.storage_system.memory, m.thread_system.graph.is_active.getD 3 false)) =
      some ([(0, 0)], false) ∧
     (TSO.run (TSO.new progS5) [2, 3, 1]).map (fun m =>
        (m.thread_system.graph.n,
         (m.thread_system.graph.instructions.getD 4 default).instruction.instruction)) =
      some (5, .propagate 0 0 0) ∧
     (TSO.run (TSO.new progS5) [2, 3, 1, 4, 0]).map (fun m =>
        m.thread_system.graph.execution_candidates) = some ∅) := by decide

/-- C7 counterexample.  The claim says that under TSO no run flushes the
second store's Propagate before the first store's; the TSO schedule
`[2,3,1,4,0]` does exactly that (node 3, synthesized by the second store,
executes and writes memory while node 4, the first store's Propagate,
does not yet exist). -/
theorem claim_C7_counterexample :
    (TSO.run (TSO.new progS5) [2]).map (fun m =>
        (m.thread_system.graph.n,
         (m.thread_system.graph.instructions.getD 3 default).instruction.instruction)) =
      some (4, .propagate 0 0 0) ∧
    (TSO.run (TSO.new progS5) [2, 3]).map (fun m =>
        (m.storage_system.memory, m.thread_system.graph.is_active.getD 3 false,
         m.thread_system.graph.n)) = some ([(0, 0)], false, 4) ∧
    (TSO.run (TSO.new progS5) [2, 3, 1, 4, 0]).map (fun m =>
        m.thread_system.graph.execution_candidates) = some ∅ := by decide

/-- C4 counterexample.  In the S4 program under TSO, execute the y-store
(node 3) and then the Propagate it synthesized (node 4): after this valid
schedule the Propagate has executed and its value sits in shared memory
(the thread's buffer is drained), while the fence (node 2) is still
active and the x-store (node 1) has not executed at all.  This refutes
both that a Propagate created under an active fence cannot execute before
the fence, and that no reachable state shows the y-store flushed without
the x-store flushed: `add_edge(f, new)` makes the FENCE wait on the new
Propagate, not the other way round. -/
theorem claim_C4_counterexample :
    (TSO.run (TSO.new progS4) [3, 4]).map (fun m =>
        (m.thread_system.graph.is_active,
         m.thread_system.graph.active_fence_nodes,
         (m.thread_system.graph.instructions.getD 4 default).instruction.instruction)) =
      some ([true, true, true, false, false], {2}, .propagate 0 0 0) ∧
    (TSO.run (TSO.new progS4) [3, 4]).map (fun m =>
        (m.storage_system.memory, m.storage_system.buffers.getD 0 [])) =
      some ([(0, 0)], []) := by decide

/-- C9 counterexample.  For the program `one = 1; L: if one goto L`, after
executing node 0 the machine has candidate set `{1}`; executing node 1
removes it and the taken backward goto restores it, returning the machine
to the identical state.  The driver loop therefore revisits this state
with a non-empty candidate set forever: not every run terminates. -/
theorem claim_C9_counterexample :
    SC.run (SC.new progLoop) [0, 1] = SC.run (SC.new progLoop) [0] ∧
    (SC.run (SC.new progLoop) [0]).map
      (fun m => m.thread_system.graph.execution_candidates) = some {1} := by decide

theorem splitWsAux_all_ws {cs : List Char} (h : ∀ c ∈ cs, isWsChar c = true) :
    splitWsAux cs [] = [] := by
  induction cs with
  | nil => rfl
  | cons c rest ih =>
    have hc := h c (by simp)
    simp only [splitWsAux, hc, if_pos rfl, List.isEmpty_nil, if_true]
    exact ih (fun c hc => h c (by simp [hc]))

/-- C10.  `parse_instruction` indexes `parts[0]` before checking that the
tokenization is non-empty, so any line that is non-empty but consists
only of whitespace characters panics (`none` in the embedding) instead of
producing a parse error; and the driver's thread-separator test is
`line.is_empty()`, which is false for such a line, so the driver does
feed it to the parser and the panic reaches the driver loop. -/
theorem claim_C10_theorem (line : String) (h1 : line.data ≠ [])
    (h2 : ∀ c ∈ line.data, isWsChar c = true) :
    parse_instruction line = none ∧ line.isEmpty = false ∧
      collect_instructions [line] = none := by
  have hsplit : splitWs line.data = [] := by
    unfold splitWs
    rw [splitWsAux_all_ws h2]
    rfl
  have hparse : parse_instruction line = none := by
    unfold parse_instruction
    rw [hsplit]
  have hempty : line.isEmpty = false := by
    rw [Bool.eq_false_iff]
    intro hcontra
    exact h1 (by rw [(String.isEmpty_iff line).mp hcontra])
  refine ⟨hparse, hempty, ?_⟩
  unfold collect_instructions collect_aux
  rw [hempty, hparse]
  simp

theorem claim_C10_witness :
    (" ").data ≠ [] ∧ (∀ c ∈ (" ").data, isWsChar c = true) ∧
      parse_instruction " " = none ∧ (" ").isEmpty = false ∧
      collect_instructions [" "] = none := by
  refine ⟨by decide, by decide, ?_, ?_, ?_⟩ <;>
    first
      | exact (claim_C10_theorem (" ") (by decide) (by decide)).1
      | exact (claim_C10_theorem (" ") (by decide) (by decide)).2.1
      | exact (claim_C10_theorem (" ") (by decide) (by decide)).2.2

end Isa
